import Mathlib

/-!
# sdcardfs package list (fs/sdcardfs/packagelist.c)

A shallow embedding of the package store (the three hash tables
`package_to_appid`, `package_to_userid`, `ext_to_groupid`), of its lookup and
mutation entry points, and of the access check `check_caller_access_to_name`.

Conventions of the embedding.

* A C string is the list of its bytes before the terminating NUL (`List Nat`).
* `appid_t`, `userid_t`, `gid_t` and `uid_t` are 32-bit unsigned and `atomic_t`
  holds the same 32 bits; the code only stores, loads and compares them for
  equality, so they are natural numbers here.
* Each table is an array of `HASH_SIZE` buckets; a bucket is the list of its
  entries from the head of the chain (`hash_add_rcu` links at the head).
* What the file takes from the rest of the kernel (case folding, the name hash,
  the bucket function, constants, the allocator's answers, the policy oracle)
  is a field of `Kernel`, so every theorem holds for all of them.
* Calls that leave the file (locking, allocation, RCU, freeing, the permission
  fixup walker) are recorded, in program order, in `State.trace`.
-/

namespace Sdcardfs

/-! ## Kernel interface -/

/-- Number of buckets of `DEFINE_HASHTABLE(_, 8)`, that is `1 << 8`. -/
abbrev HASH_SIZE : Nat := 256

/-- The errno `ENOMEM`. -/
def ENOMEM : Int := 12

/-- The errno `EINVAL`. -/
def EINVAL : Int := 22

/-- Bytes of an ASCII string literal. -/
def cstr (s : String) : List Nat := s.data.map Char.toNat

/-- The kernel's `struct qstr`: a name with its length and hash. -/
structure qstr where
  name : List Nat
  len : Nat
  hash : Nat
deriving DecidableEq, Repr

/-- The part of `struct sdcardfs_inode_data` that the file reads. -/
structure sdcardfs_inode_data where
  perm : Nat
  userid : Nat
  under_locker : Bool
deriving DecidableEq, Repr

/-- An inode: `SDCARDFS_I(inode)->data` and the handle of its super block. -/
structure inode where
  data : sdcardfs_inode_data
  i_sb : Nat
deriving DecidableEq, Repr

/-- What packagelist.c uses from the rest of the kernel and from its build
configuration. -/
structure Kernel where
  /-- The function `tolower` of linux/ctype.h on bytes. -/
  tolower : Nat → Nat
  /-- The value of `init_name_hash()`. -/
  init_name_hash : Nat
  /-- The function `partial_name_hash(c, prevhash)`. -/
  partial_name_hash : Nat → Nat → Nat
  /-- The function `end_name_hash(hash)`. -/
  end_name_hash : Nat → Nat
  /-- The bucket index `hash_min(hash, HASH_BITS(table))`. -/
  hash_min : Nat → Fin HASH_SIZE
  /-- Whether the allocation request number `n` (kmem_cache_alloc or kstrdup,
  counted from 0) returns memory. -/
  alloc_ok : Nat → Bool
  /-- The permission class `PERM_ROOT`. -/
  PERM_ROOT : Nat
  /-- Whether `CONFIG_SDCARD_FS_LOCKER` is set. -/
  CONFIG_SDCARD_FS_LOCKER : Bool
  /-- Whether `CONFIG_BBSECURE_SDBASE` is set. -/
  CONFIG_BBSECURE_SDBASE : Bool
  /-- The string `CONFIG_SDCARD_FS_LOCKER_NAME`. -/
  CONFIG_SDCARD_FS_LOCKER_NAME : List Nat
  /-- The function `kstrtouint(s, 10, &res)`: the parsed number, or `none` when
  it returns an error. -/
  kstrtouint : List Nat → Option Nat
  /-- The function `multiuser_get_uid(userid, appid)`. -/
  multiuser_get_uid : Nat → Nat → Nat
  /-- The external-authority layer `policy_check_caller_access_to_name`, as a
  function of the caller's fsuid, the parent inode, the name and the mode. -/
  policy_check_caller_access_to_name : Nat → Option inode → qstr → Nat → Int

/-! ## Names and hashing -/

/-- The loop of `full_name_case_hash`: `while (len--) hash =
partial_name_hash(tolower(*name++), hash)`. -/
def full_name_case_hash_loop (K : Kernel) : List Nat → Nat → Nat → Nat
  | _, 0, hash => hash
  | name, len + 1, hash =>
    full_name_case_hash_loop K name.tail len
      (K.partial_name_hash (K.tolower (name.headD 0)) hash)

/-- The function `full_name_case_hash(name, len)`. -/
def full_name_case_hash (K : Kernel) (name : List Nat) (len : Nat) : Nat :=
  K.end_name_hash (full_name_case_hash_loop K name len K.init_name_hash)

/-- The function `qstr_init(q, name)`. -/
def qstr_init (K : Kernel) (name : List Nat) : qstr :=
  { name := name
    len := name.length
    hash := full_name_case_hash K name name.length }

/-- The function `QSTR_LITERAL(string)`: only name and length are set. -/
def QSTR_LITERAL (string : List Nat) : qstr :=
  { name := string, len := string.length, hash := 0 }

/-- Modelled from the spec: `qstr_case_eq` is defined in sdcardfs.h, not in
packagelist.c. Key comparison is case-insensitive: the two names have the same
length and their bytes are equal after `tolower`. -/
def qstr_case_eq (K : Kernel) (q1 q2 : qstr) : Bool :=
  q1.len == q2.len && q1.name.map K.tolower == q2.name.map K.tolower

/-! ## The store -/

/-- The C type `struct hashtable_entry` (without its two list links). -/
structure hashtable_entry where
  key : qstr
  value : Nat
deriving DecidableEq, Repr

/-- A table declared by `DEFINE_HASHTABLE(_, 8)`. -/
abbrev hashtable := Fin HASH_SIZE → List hashtable_entry

/-- The C type `struct limit_search` handed to the fixup walker. -/
structure limit_search where
  flags : Nat
  name : List Nat
  length : Nat
  userid : Nat
deriving DecidableEq, Repr

/-- The flag `BY_NAME`. -/
def BY_NAME : Nat := 1

/-- The flag `BY_USERID`. -/
def BY_USERID : Nat := 2

/-- An element of `sdcardfs_super_list`. -/
structure sdcardfs_sb_info where
  /-- The result of `sbinfo_has_sdcard_magic`. -/
  has_sdcard_magic : Bool
  /-- The handle `sb->s_root`. -/
  s_root : Nat
deriving DecidableEq, Repr

/-- Calls that leave the file, as recorded in the trace. -/
inductive Event where
  | mutex_lock
  | mutex_unlock
  | kmem_cache_alloc (ok : Bool)
  | kstrdup (ok : Bool)
  | kmem_cache_free
  | synchronize_rcu
  | free_hashtable_entry (e : hashtable_entry)
  | fixup_perms_recursive (s_root : Nat) (limit : limit_search)
deriving DecidableEq, Repr

/-- The three tables as a reader finds them at one moment. -/
structure StoreView where
  package_to_appid : hashtable
  package_to_userid : hashtable
  ext_to_groupid : hashtable

/-- The global state the file works on. -/
structure State where
  package_to_appid : hashtable
  package_to_userid : hashtable
  ext_to_groupid : hashtable
  /-- The array `s_locker_wl`; `none` is a NULL slot. -/
  s_locker_wl : List (Option (List Nat))
  /-- The list `sdcardfs_super_list` of mounted instances. -/
  sdcardfs_super_list : List sdcardfs_sb_info
  /-- Number of allocation requests made so far. -/
  allocs : Nat
  /-- External calls made so far, oldest first. -/
  trace : List Event
  /-- Modelled from the spec: the walker `fixup_perms_recursive` is not in
  packagelist.c; it re-derives the cached permissions from the store, so for
  each of its calls the tables are recorded as they are when the call is
  made, oldest first. -/
  fixup_seen : List StoreView

/-- The tables of a state, as a reader finds them. -/
def State.view (s : State) : StoreView :=
  { package_to_appid := s.package_to_appid
    package_to_userid := s.package_to_userid
    ext_to_groupid := s.ext_to_groupid }

/-- A table with every bucket empty. -/
def hash_empty : hashtable := fun _ => []

/-- The state after static initialisation and `packagelist_init`. -/
def State.init (supers : List sdcardfs_sb_info) : State :=
  { package_to_appid := hash_empty
    package_to_userid := hash_empty
    ext_to_groupid := hash_empty
    s_locker_wl := List.replicate 10 none
    sdcardfs_super_list := supers
    allocs := 0
    trace := []
    fixup_seen := [] }

/-- The bucket walked by `hash_for_each_possible_rcu(table, _, hlist, hash)`. -/
def hash_possible (K : Kernel) (t : hashtable) (hash : Nat) : List hashtable_entry :=
  t (K.hash_min hash)

/-- The entries walked by `hash_for_each_rcu(table, i, _, hlist)`, bucket by
bucket. -/
def hash_entries (t : hashtable) : List hashtable_entry :=
  (List.finRange HASH_SIZE).flatMap t

/-- The function `hash_add_rcu(table, &entry->hlist, hash)`. -/
def hash_add_rcu (K : Kernel) (t : hashtable) (e : hashtable_entry) (hash : Nat) : hashtable :=
  Function.update t (K.hash_min hash) (e :: t (K.hash_min hash))

/-! ## Lookups -/

/-- The function `__get_appid(key)`. -/
def __get_appid (K : Kernel) (s : State) (key : qstr) : Nat :=
  match (hash_possible K s.package_to_appid key.hash).find?
      (fun hash_cur => qstr_case_eq K key hash_cur.key) with
  | some hash_cur => hash_cur.value
  | none => 0

/-- The function `get_appid(key)`. -/
def get_appid (K : Kernel) (s : State) (key : List Nat) : Nat :=
  __get_appid K s (qstr_init K key)

/-- The function `__get_ext_gid(key)`. -/
def __get_ext_gid (K : Kernel) (s : State) (key : qstr) : Nat :=
  match (hash_possible K s.ext_to_groupid key.hash).find?
      (fun hash_cur => qstr_case_eq K key hash_cur.key) with
  | some hash_cur => hash_cur.value
  | none => 0

/-- The function `get_ext_gid(key)`. -/
def get_ext_gid (K : Kernel) (s : State) (key : List Nat) : Nat :=
  __get_ext_gid K s (qstr_init K key)

/-- The function `__is_excluded(app_name, user)`. -/
def __is_excluded (K : Kernel) (s : State) (app_name : qstr) (user : Nat) : Nat :=
  if (hash_possible K s.package_to_userid app_name.hash).any
      (fun hash_cur => hash_cur.value == user && qstr_case_eq K app_name hash_cur.key)
  then 1 else 0

/-- The function `is_excluded(key, user)`. -/
def is_excluded (K : Kernel) (s : State) (key : List Nat) (user : Nat) : Nat :=
  __is_excluded K s (qstr_init K key) user

/-! ## Insertion -/

/-- The function `qstr_copy(src, dest)`: `kstrdup` of the name, then the
hash and length are copied; `none` when `kstrdup` returns NULL. -/
def qstr_copy (K : Kernel) (src : qstr) (s : State) : Option qstr × State :=
  let ok := K.alloc_ok s.allocs
  let s1 := { s with allocs := s.allocs + 1, trace := s.trace ++ [Event.kstrdup ok] }
  if ok then (some { name := src.name, len := src.len, hash := src.hash }, s1)
  else (none, s1)

/-- The function `alloc_hashtable_entry(key, value)`; `none` is NULL. -/
def alloc_hashtable_entry (K : Kernel) (key : qstr) (value : Nat) (s : State) :
    Option hashtable_entry × State :=
  let ok := K.alloc_ok s.allocs
  let s1 := { s with allocs := s.allocs + 1, trace := s.trace ++ [Event.kmem_cache_alloc ok] }
  if ok then
    match qstr_copy K key s1 with
    | (some k, s2) => (some { key := k, value := value }, s2)
    | (none, s2) => (none, { s2 with trace := s2.trace ++ [Event.kmem_cache_free] })
  else (none, s1)

/-- The first entry of a chain that satisfies `p` gets the value `value`
(`atomic_set` followed by `return`); `none` when the walk finds no such
entry. -/
def hlist_set_first (p : hashtable_entry → Bool) (value : Nat) :
    List hashtable_entry → Option (List hashtable_entry)
  | [] => none
  | hash_cur :: rest =>
    if p hash_cur then some ({ hash_cur with value := value } :: rest)
    else (hlist_set_first p value rest).map (fun r => hash_cur :: r)

/-- The function `insert_packagelist_appid_entry_locked(key, value)`. -/
def insert_packagelist_appid_entry_locked (K : Kernel) (key : qstr) (value : Nat)
    (s : State) : Int × State :=
  let hash := key.hash
  match hlist_set_first (fun hash_cur => qstr_case_eq K key hash_cur.key) value
      (hash_possible K s.package_to_appid hash) with
  | some chain =>
    (0, { s with package_to_appid := Function.update s.package_to_appid (K.hash_min hash) chain })
  | none =>
    match alloc_hashtable_entry K key value s with
    | (none, s1) => (-ENOMEM, s1)
    | (some new_entry, s1) =>
      (0, { s1 with package_to_appid := hash_add_rcu K s1.package_to_appid new_entry hash })

/-- The function `insert_ext_gid_entry_locked(key, value)`. -/
def insert_ext_gid_entry_locked (K : Kernel) (key : qstr) (value : Nat)
    (s : State) : Int × State :=
  let hash := key.hash
  if (hash_possible K s.ext_to_groupid hash).any
      (fun hash_cur => qstr_case_eq K key hash_cur.key) then
    (-EINVAL, s)
  else
    match alloc_hashtable_entry K key value s with
    | (none, s1) => (-ENOMEM, s1)
    | (some new_entry, s1) =>
      (0, { s1 with ext_to_groupid := hash_add_rcu K s1.ext_to_groupid new_entry hash })

/-- The function `insert_userid_exclude_entry_locked(key, value)`. -/
def insert_userid_exclude_entry_locked (K : Kernel) (key : qstr) (value : Nat)
    (s : State) : Int × State :=
  let hash := key.hash
  if (hash_possible K s.package_to_userid hash).any
      (fun hash_cur => hash_cur.value == value && qstr_case_eq K key hash_cur.key) then
    (0, s)
  else
    match alloc_hashtable_entry K key value s with
    | (none, s1) => (-ENOMEM, s1)
    | (some new_entry, s1) =>
      (0, { s1 with package_to_userid := hash_add_rcu K s1.package_to_userid new_entry hash })

/-! ## Fixup dispatch -/

/-- The loop `list_for_each_entry(sbinfo, &sdcardfs_super_list, list)` of the
three `fixup_all_perms_*` functions: each call of the walker is recorded in
the trace, and in `fixup_seen` with the tables it is made on. -/
def fixup_all (limit : limit_search) (s : State) : State :=
  let mounts := s.sdcardfs_super_list.filter (fun sbinfo => sbinfo.has_sdcard_magic)
  { s with trace := s.trace ++
             mounts.map (fun sbinfo => Event.fixup_perms_recursive sbinfo.s_root limit)
           fixup_seen := s.fixup_seen ++ mounts.map (fun _ => s.view) }

/-- The function `fixup_all_perms_name(key)`. -/
def fixup_all_perms_name (key : qstr) (s : State) : State :=
  fixup_all { flags := BY_NAME, name := key.name, length := key.len, userid := 0 } s

/-- The function `fixup_all_perms_name_userid(key, userid)`. -/
def fixup_all_perms_name_userid (key : qstr) (userid : Nat) (s : State) : State :=
  fixup_all { flags := BY_NAME ||| BY_USERID, name := key.name, length := key.len,
              userid := userid } s

/-- The function `fixup_all_perms_userid(userid)`. -/
def fixup_all_perms_userid (userid : Nat) (s : State) : State :=
  fixup_all { flags := BY_USERID, name := [], length := 0, userid := userid } s

/-- The call `mutex_lock(&sdcardfs_super_list_lock)`. -/
def mutex_lock (s : State) : State :=
  { s with trace := s.trace ++ [Event.mutex_lock] }

/-- The call `mutex_unlock(&sdcardfs_super_list_lock)`. -/
def mutex_unlock (s : State) : State :=
  { s with trace := s.trace ++ [Event.mutex_unlock] }

/-- The function `insert_packagelist_entry(key, value)`. -/
def insert_packagelist_entry (K : Kernel) (key : qstr) (value : Nat) (s : State) :
    Int × State :=
  let s1 := mutex_lock s
  let (err, s2) := insert_packagelist_appid_entry_locked K key value s1
  let s3 := if err = 0 then fixup_all_perms_name key s2 else s2
  (err, mutex_unlock s3)

/-- The function `insert_ext_gid_entry(key, value)`. -/
def insert_ext_gid_entry (K : Kernel) (key : qstr) (value : Nat) (s : State) :
    Int × State :=
  let s1 := mutex_lock s
  let (err, s2) := insert_ext_gid_entry_locked K key value s1
  (err, mutex_unlock s2)

/-- The function `insert_userid_exclude_entry(key, value)`. -/
def insert_userid_exclude_entry (K : Kernel) (key : qstr) (value : Nat) (s : State) :
    Int × State :=
  let s1 := mutex_lock s
  let (err, s2) := insert_userid_exclude_entry_locked K key value s1
  let s3 := if err = 0 then fixup_all_perms_name_userid key value s2 else s2
  (err, mutex_unlock s3)

/-! ## Removal -/

/-- The function `free_hashtable_entry` applied to each entry of the free list,
after `synchronize_rcu()`. -/
def reclaim (free_list : List hashtable_entry) (s : State) : State :=
  { s with trace := s.trace ++ Event.synchronize_rcu ::
      free_list.map Event.free_hashtable_entry }

/-- The function `remove_packagelist_entry_locked(key)`: every entry of the
exclusion bucket with this key is unlinked, then the first entry of the
appid bucket with this key (`break`); all of them go to the free list, each at
its head. -/
def remove_packagelist_entry_locked (K : Kernel) (key : qstr) (s : State) : State :=
  let hash := key.hash
  let p := fun hash_cur : hashtable_entry => qstr_case_eq K key hash_cur.key
  let users := hash_possible K s.package_to_userid hash
  let free_list := (users.filter p).reverse
  let package_to_userid :=
    Function.update s.package_to_userid (K.hash_min hash) (users.filter (fun e => !p e))
  let apps := hash_possible K s.package_to_appid hash
  let free_list := (apps.find? p).toList ++ free_list
  let package_to_appid :=
    Function.update s.package_to_appid (K.hash_min hash) (apps.eraseP p)
  reclaim free_list
    { s with package_to_userid := package_to_userid, package_to_appid := package_to_appid }

/-- The function `remove_packagelist_entry(key)`. -/
def remove_packagelist_entry (K : Kernel) (key : qstr) (s : State) : State :=
  mutex_unlock (fixup_all_perms_name key (remove_packagelist_entry_locked K key (mutex_lock s)))

/-- The loop body shared by `remove_ext_gid_entry_locked` and
`remove_userid_exclude_entry_locked`: the first entry of the chain that
satisfies `p` is unlinked and freed after `synchronize_rcu()`, then `break`. -/
def hlist_del_first (p : hashtable_entry → Bool) (chain : List hashtable_entry) :
    List hashtable_entry × List Event :=
  match chain.find? p with
  | some hash_cur => (chain.eraseP p, [Event.synchronize_rcu, Event.free_hashtable_entry hash_cur])
  | none => (chain, [])

/-- The function `remove_ext_gid_entry_locked(key, group)`. -/
def remove_ext_gid_entry_locked (K : Kernel) (key : qstr) (group : Nat) (s : State) : State :=
  let hash := key.hash
  let r := hlist_del_first
    (fun hash_cur => qstr_case_eq K key hash_cur.key && hash_cur.value == group)
    (hash_possible K s.ext_to_groupid hash)
  { s with ext_to_groupid := Function.update s.ext_to_groupid (K.hash_min hash) r.1,
           trace := s.trace ++ r.2 }

/-- The function `remove_ext_gid_entry(key, group)`. -/
def remove_ext_gid_entry (K : Kernel) (key : qstr) (group : Nat) (s : State) : State :=
  mutex_unlock (remove_ext_gid_entry_locked K key group (mutex_lock s))

/-- One bucket of the walk of `remove_userid_all_entry_locked`: the entries
whose value is `userid` are unlinked and put on the free list, each at its
head. -/
def remove_userid_all_bucket (userid : Nat) (acc : hashtable × List hashtable_entry)
    (i : Fin HASH_SIZE) : hashtable × List hashtable_entry :=
  (Function.update acc.1 i ((acc.1 i).filter (fun hash_cur => !(hash_cur.value == userid))),
   ((acc.1 i).filter (fun hash_cur => hash_cur.value == userid)).reverse ++ acc.2)

/-- The function `remove_userid_all_entry_locked(userid)`. -/
def remove_userid_all_entry_locked (userid : Nat) (s : State) : State :=
  let r := (List.finRange HASH_SIZE).foldl (remove_userid_all_bucket userid)
    (s.package_to_userid, [])
  reclaim r.2 { s with package_to_userid := r.1 }

/-- The function `remove_userid_all_entry(userid)`. -/
def remove_userid_all_entry (userid : Nat) (s : State) : State :=
  mutex_unlock (fixup_all_perms_userid userid (remove_userid_all_entry_locked userid (mutex_lock s)))

/-- The function `remove_userid_exclude_entry_locked(key, userid)`. -/
def remove_userid_exclude_entry_locked (K : Kernel) (key : qstr) (userid : Nat)
    (s : State) : State :=
  let hash := key.hash
  let r := hlist_del_first
    (fun hash_cur => qstr_case_eq K key hash_cur.key && hash_cur.value == userid)
    (hash_possible K s.package_to_userid hash)
  { s with package_to_userid := Function.update s.package_to_userid (K.hash_min hash) r.1,
           trace := s.trace ++ r.2 }

/-- The function `remove_userid_exclude_entry(key, userid)`. -/
def remove_userid_exclude_entry (K : Kernel) (key : qstr) (userid : Nat) (s : State) : State :=
  mutex_unlock (fixup_all_perms_name_userid key userid
    (remove_userid_exclude_entry_locked K key userid (mutex_lock s)))

/-- One bucket of a walk of `packagelist_destroy`: every entry is unlinked and
put on the free list, each at its head. -/
def destroy_bucket (acc : hashtable × List hashtable_entry) (i : Fin HASH_SIZE) :
    hashtable × List hashtable_entry :=
  (Function.update acc.1 i [], (acc.1 i).reverse ++ acc.2)

/-- The function `packagelist_destroy()`: it walks `package_to_appid` and
`package_to_userid`. -/
def packagelist_destroy (s : State) : State :=
  let s1 := mutex_lock s
  let r1 := (List.finRange HASH_SIZE).foldl destroy_bucket (s1.package_to_appid, [])
  let r2 := (List.finRange HASH_SIZE).foldl destroy_bucket (s1.package_to_userid, r1.2)
  mutex_unlock (reclaim r2.2 { s1 with package_to_appid := r1.1, package_to_userid := r2.1 })

/-! ## Access check -/

/-- The array `s_locker_wl_internal`, up to its NULL. -/
def s_locker_wl_internal : List (List Nat) :=
  [cstr "com.android.cts.externalstorageapp", cstr "com.android.cts.storagestatsapp"]

/-- The body of the two scans of `locker_check_caller_access_to_name_by_uid`
for one allow-list entry: whether it makes the function return 1. -/
def locker_wl_match (K : Kernel) (s : State) (caller_uid userid : Nat) (entry : List Nat) : Bool :=
  let appid := get_appid K s entry
  if appid = 0 then
    match K.kstrtouint entry with
    | none => false
    | some tmp => caller_uid == K.multiuser_get_uid userid tmp
  else caller_uid == K.multiuser_get_uid userid appid

/-- The loop `for (i = 0; s_locker_wl[i]; ++i)` of
`locker_check_caller_access_to_name_by_uid` over the slots from index `i` on:
whether an entry made the function return 1, and the indices of `s_locker_wl`
that the loop read, in order. When no slot from `i` on is NULL and no entry
matches, the loop condition reads the index after the last slot, which lies
outside the array: that read is recorded, and the scan ends there as it
does on a NULL. -/
def locker_wl_scan (K : Kernel) (s : State) (caller_uid userid : Nat) :
    List (Option (List Nat)) → Nat → Bool × List Nat
  | [], i => (false, [i])
  | none :: _, i => (false, [i])
  | some entry :: rest, i =>
    if locker_wl_match K s caller_uid userid entry then (true, [i])
    else ((locker_wl_scan K s caller_uid userid rest (i + 1)).1,
      i :: (locker_wl_scan K s caller_uid userid rest (i + 1)).2)

/-- The function `locker_check_caller_access_to_name_by_uid(parent_node, name)`;
`caller_uid` is `from_kuid(&init_user_ns, current_fsuid())`. The scan of
`s_locker_wl` is `locker_wl_scan`, which also tells the indices it reads. -/
def locker_check_caller_access_to_name_by_uid (K : Kernel) (s : State) (caller_uid : Nat)
    (parent_node : Option inode) (name : qstr) : Int :=
  match parent_node with
  | none => 1
  | some parent_node =>
    if (s.s_locker_wl.headD none).isNone then 1
    else
      let parent_data := parent_node.data
      if parent_data.under_locker ||
          (parent_data.perm == K.PERM_ROOT &&
            qstr_case_eq K name (QSTR_LITERAL K.CONFIG_SDCARD_FS_LOCKER_NAME)) then
        if (locker_wl_scan K s caller_uid parent_data.userid s.s_locker_wl 0).1 then 1
        else if s_locker_wl_internal.any
            (locker_wl_match K s caller_uid parent_data.userid) then 1
        else 0
      else 1

/-- The test "Always block security-sensitive files at root" of
`check_caller_access_to_name`. -/
def sensitive_name_guard (K : Kernel) (parent_node : Option inode) (name : qstr) : Bool :=
  match parent_node with
  | none => false
  | some parent_node =>
    parent_node.data.perm == K.PERM_ROOT &&
      (qstr_case_eq K name (QSTR_LITERAL (cstr "autorun.inf"))
        || qstr_case_eq K name (QSTR_LITERAL (cstr ".android_secure"))
        || qstr_case_eq K name (QSTR_LITERAL (cstr "android_secure")))

/-- The function `check_caller_access_to_name(parent_node, name, mode)`;
`caller_uid` is `from_kuid(&init_user_ns, current_fsuid())`, and `mode` is
only read when `CONFIG_BBSECURE_SDBASE` is set. -/
def check_caller_access_to_name (K : Kernel) (s : State) (caller_uid : Nat)
    (parent_node : Option inode) (name : qstr) (mode : Nat) : Int :=
  if sensitive_name_guard K parent_node name then 0
  else if caller_uid = 0 then 1
  else if K.CONFIG_SDCARD_FS_LOCKER &&
      locker_check_caller_access_to_name_by_uid K s caller_uid parent_node name == 0 then 0
  else if K.CONFIG_BBSECURE_SDBASE &&
      K.policy_check_caller_access_to_name caller_uid parent_node name mode == 0 then 0
  else 1

/-! ## Reachable states -/

/-- The states the store can be in: the initial state, followed by any
sequence of the seven mutation entry points, each called (as the configfs
handlers do) on a key made by `qstr_init`; the mount list may change between
calls. -/
inductive Reachable (K : Kernel) : State → Prop
  | init (supers : List sdcardfs_sb_info) : Reachable K (State.init supers)
  | mounts (s : State) (supers : List sdcardfs_sb_info) :
      Reachable K s → Reachable K { s with sdcardfs_super_list := supers }
  | insert_packagelist_entry (s : State) (name : List Nat) (value : Nat) :
      Reachable K s → Reachable K (insert_packagelist_entry K (qstr_init K name) value s).2
  | insert_ext_gid_entry (s : State) (name : List Nat) (value : Nat) :
      Reachable K s → Reachable K (insert_ext_gid_entry K (qstr_init K name) value s).2
  | insert_userid_exclude_entry (s : State) (name : List Nat) (value : Nat) :
      Reachable K s → Reachable K (insert_userid_exclude_entry K (qstr_init K name) value s).2
  | remove_packagelist_entry (s : State) (name : List Nat) :
      Reachable K s → Reachable K (remove_packagelist_entry K (qstr_init K name) s)
  | remove_ext_gid_entry (s : State) (name : List Nat) (group : Nat) :
      Reachable K s → Reachable K (remove_ext_gid_entry K (qstr_init K name) group s)
  | remove_userid_all_entry (s : State) (userid : Nat) :
      Reachable K s → Reachable K (remove_userid_all_entry userid s)
  | remove_userid_exclude_entry (s : State) (name : List Nat) (userid : Nat) :
      Reachable K s → Reachable K (remove_userid_exclude_entry K (qstr_init K name) userid s)

/-! ## The representation invariant -/

/-- Every entry of the chain of bucket `i` carries a key made by `qstr_init`
whose hash selects bucket `i`. -/
def chain_wf (K : Kernel) (i : Fin HASH_SIZE) (chain : List hashtable_entry) : Prop :=
  ∀ e ∈ chain, e.key = qstr_init K e.key.name ∧ K.hash_min e.key.hash = i

/-- No two entries of the chain have keys that are equal up to case. -/
def keys_unique (K : Kernel) (chain : List hashtable_entry) : Prop :=
  chain.Pairwise (fun a b => qstr_case_eq K a.key b.key = false)

/-- No two entries of the chain have both keys equal up to case and equal
values. -/
def pairs_unique (K : Kernel) (chain : List hashtable_entry) : Prop :=
  chain.Pairwise (fun a b => (qstr_case_eq K a.key b.key && a.value == b.value) = false)

/-- The invariant of the store: every entry is linked in the bucket of its
key, the appid and extension tables hold at most one entry per key and the
exclusion table at most one entry per (key, user) pair. -/
structure store_inv (K : Kernel) (s : State) : Prop where
  appid_wf : ∀ i, chain_wf K i (s.package_to_appid i)
  userid_wf : ∀ i, chain_wf K i (s.package_to_userid i)
  ext_wf : ∀ i, chain_wf K i (s.ext_to_groupid i)
  appid_unique : ∀ i, keys_unique K (s.package_to_appid i)
  userid_unique : ∀ i, pairs_unique K (s.package_to_userid i)
  ext_unique : ∀ i, keys_unique K (s.ext_to_groupid i)

/-! ## Specification vocabulary -/

/-- The event is one of the allocator, RCU or free calls. -/
def Event.is_memory : Event → Bool
  | Event.kmem_cache_alloc _ => true
  | Event.kstrdup _ => true
  | Event.kmem_cache_free => true
  | Event.synchronize_rcu => true
  | Event.free_hashtable_entry _ => true
  | _ => false

/-- The event is a call of the permission fixup walker. -/
def Event.is_fixup : Event → Bool
  | Event.fixup_perms_recursive _ _ => true
  | _ => false

/-- The scope of a change as the specification names it: by name, by name and
user, or by user only. -/
inductive ScopeFilter where
  | ByName (name : List Nat)
  | ByNameAndUser (name : List Nat) (user : Nat)
  | ByUser (user : Nat)
deriving DecidableEq, Repr

/-- The `struct limit_search` that stands for a scope. -/
def ScopeFilter.limit : ScopeFilter → limit_search
  | ScopeFilter.ByName name =>
    { flags := BY_NAME, name := name, length := name.length, userid := 0 }
  | ScopeFilter.ByNameAndUser name user =>
    { flags := BY_NAME ||| BY_USERID, name := name, length := name.length, userid := user }
  | ScopeFilter.ByUser user =>
    { flags := BY_USERID, name := [], length := 0, userid := user }

/-- One fixup dispatch in the words of the specification: one call of the
walker, with the scope, for each registered mount that belongs to the
subsystem, in list order. -/
def fixup_dispatch (supers : List sdcardfs_sb_info) (scope : ScopeFilter) : List Event :=
  (supers.filter (fun sbinfo => sbinfo.has_sdcard_magic)).map
    (fun sbinfo => Event.fixup_perms_recursive sbinfo.s_root scope.limit)

/-- The entries of the configured allow-list: the slots of `s_locker_wl`
before the first NULL, which is where the scans `for (i = 0; s_locker_wl[i]; ++i)`
stop; all slots when none of them is NULL. -/
def locker_wl_entries (s : State) : List (List Nat) :=
  (s.s_locker_wl.takeWhile Option.isSome).reduceOption

/-- The appid an allow-list entry resolves to, in the words of the
specification: `get_appid` of the entry when that is not 0, otherwise the
entry parsed as a decimal unsigned number; `none` when neither works. -/
def locker_wl_resolve (K : Kernel) (s : State) (entry : List Nat) : Option Nat :=
  if get_appid K s entry ≠ 0 then some (get_appid K s entry) else K.kstrtouint entry

/-! ## The configfs handlers -/

/-- The constant `LOCKER_MAX_WL`, the number of slots of `s_locker_wl`. -/
def LOCKER_MAX_WL : Nat := 10

/-- The constant `INT_MAX`. -/
def INT_MAX : Int := 2147483647

/-- What the show handlers use from the kernel's text output. -/
structure Vsprintf where
  /-- The constant `PAGE_SIZE`. -/
  PAGE_SIZE : Nat
  /-- The text that "%d" produces for the 32 bits of an `atomic_t`. -/
  fmt_d : Nat → List Nat

/-- The page a show handler gets: its `PAGE_SIZE` bytes, and the blocks stored
through the page pointer so far, each as (offset from the start of the page,
length), oldest first. -/
structure Page where
  bytes : List Nat
  stores : List (Int × Nat)
deriving DecidableEq, Repr

/-- A store of `data` at `page + off`. A block that lies inside the page
replaces the bytes there; a block that leaves the page is recorded in
`stores` and not applied to `bytes`. -/
def Page.store (page : Page) (off : Int) (data : List Nat) : Page :=
  { bytes :=
      if 0 ≤ off ∧ off + data.length ≤ page.bytes.length then
        page.bytes.take off.toNat ++ data ++ page.bytes.drop (off.toNat + data.length)
      else page.bytes
    stores := page.stores ++ [(off, data.length)] }

/-- Modelled from the spec: `scnprintf` is defined in lib/vsprintf.c, not in
packagelist.c. The call `scnprintf(page + off, size, ...)` with the formatted
text `text`: the output buffer has `size` bytes, so at most `size - 1` bytes of
the text are stored, followed by a NUL, and the number of stored text bytes
is returned; nothing is stored and 0 is returned when `size` is 0 or exceeds
`INT_MAX`. The sizes are computed in `Int`: a negative value stands for the
huge `size_t` the C expression wraps to. -/
def scnprintf (page : Page) (off : Int) (size : Int) (text : List Nat) : Page × Int :=
  if size ≤ 0 ∨ INT_MAX < size then (page, 0)
  else
    (page.store off (text.take (min text.length (size.toNat - 1)) ++ [0]),
      ((min text.length (size.toNat - 1) : Nat) : Int))

/-- The array `errormsg` of `packages_list_show`, without its NUL. -/
def errormsg : List Nat := cstr "<truncated>\n"

/-- The value of `sizeof(errormsg)`. -/
def sizeof_errormsg : Nat := errormsg.length + 1

/-- The body of the inner walk of `packages_list_show` for one entry of the
exclusion bucket; `pw` is the page and `written`. -/
def packages_list_show_user (K : Kernel) (V : Vsprintf) (count : Int)
    (hash_cur_app : hashtable_entry) (pw : Page × Int) (hash_cur_user : hashtable_entry) :
    Page × Int :=
  if qstr_case_eq K hash_cur_app.key hash_cur_user.key then
    ((scnprintf pw.1 (count + pw.2 - 1)
        ((V.PAGE_SIZE : Int) - sizeof_errormsg - count - pw.2 + 1)
        ([32] ++ V.fmt_d hash_cur_user.value ++ [10])).1,
      pw.2 + ((scnprintf pw.1 (count + pw.2 - 1)
        ((V.PAGE_SIZE : Int) - sizeof_errormsg - count - pw.2 + 1)
        ([32] ++ V.fmt_d hash_cur_user.value ++ [10])).2 - 1))
  else pw

/-- The walk `hash_for_each_rcu(package_to_appid, ...)` of `packages_list_show`
over the entries still to visit, from the page and `count` reached so far;
the `break` ends the walk. -/
def packages_list_show_loop (K : Kernel) (V : Vsprintf) (s : State) :
    List hashtable_entry → Page → Int → Page × Int
  | [], page, count => (page, count)
  | hash_cur_app :: rest, page, count =>
    let r := (hash_possible K s.package_to_userid hash_cur_app.key.hash).foldl
      (packages_list_show_user K V count hash_cur_app)
      (scnprintf page count ((V.PAGE_SIZE : Int) - sizeof_errormsg - count)
        (hash_cur_app.key.name ++ [32] ++ V.fmt_d hash_cur_app.value ++ [10]))
    if count + r.2 = (V.PAGE_SIZE : Int) - sizeof_errormsg - 1 then
      ((scnprintf r.1 count ((V.PAGE_SIZE : Int) - count) errormsg).1,
        count + (scnprintf r.1 count ((V.PAGE_SIZE : Int) - count) errormsg).2)
    else packages_list_show_loop K V s rest r.1 (count + r.2)

/-- The function `packages_list_show(item, page)`: the page after the call and
the returned count. -/
def packages_list_show (K : Kernel) (V : Vsprintf) (s : State) (page : Page) : Page × Int :=
  packages_list_show_loop K V s (hash_entries s.package_to_appid) page 0

/-- The value of `strlen(page)`: the number of bytes before the first NUL of
the page. -/
def strlen (page : Page) : Nat :=
  (page.bytes.takeWhile (fun c => c != 0)).length

/-- The call `strcat(page, src)`. -/
def strcat (page : Page) (src : List Nat) : Page :=
  page.store (strlen page) (src ++ [0])

/-- The function `packages_locker_wl_show(item, page)`: the page after the call
and the returned count. The index `strlen(page) - 1` is computed in `Int`: -1
stands for the `size_t` the C expression wraps to, which addresses the byte
before the page. -/
def packages_locker_wl_show (s : State) (page : Page) : Page × Int :=
  let page1 := page.store 0 [0]
  let page2 := (locker_wl_entries s).foldl (fun pg entry => strcat (strcat pg entry) [59]) page1
  let page3 := page2.store ((strlen page2 : Int) - 1) [10]
  (page3, (strlen page3 : Int) + 1)

/-- The tokens that the successive calls `strsep(&wl, ";")` return until the
call that returns NULL; `cur` is the token read so far, last byte first. -/
def strsep_tokens (delim : Nat) : List Nat → List Nat → List (List Nat)
  | [], cur => [cur.reverse]
  | c :: cs, cur =>
    if c = delim then cur.reverse :: strsep_tokens delim cs []
    else strsep_tokens delim cs (c :: cur)

/-- The `while` loop of `packages_locker_wl_store` over the tokens still to
come: whether no `kstrdup` has failed, the state, and the indices of
`s_locker_wl` stored to so far. A store to an index outside the array is
recorded and not applied to the array. -/
def packages_locker_wl_store_loop (K : Kernel) :
    List (List Nat) → Nat → State → List Nat → Bool × State × List Nat
  | [], _, s, stored => (true, s, stored)
  | pn :: rest, i, s, stored =>
    if LOCKER_MAX_WL < i then (true, s, stored)
    else if pn = [] then packages_locker_wl_store_loop K rest i s stored
    else if K.alloc_ok s.allocs then
      packages_locker_wl_store_loop K rest (i + 1)
        { s with allocs := s.allocs + 1, s_locker_wl := s.s_locker_wl.set i (some pn) }
        (stored ++ [i])
    else
      (false, { s with allocs := s.allocs + 1, s_locker_wl := s.s_locker_wl.set i none },
        stored ++ [i])

/-- The function `packages_locker_wl_store(item, page, count)`: the returned
value, the state, and the indices of `s_locker_wl` that were stored to, in
order. The allocator requests are counted in `allocs`. -/
def packages_locker_wl_store (K : Kernel) (page : List Nat) (count : Nat) (s : State) :
    Int × State × List Nat :=
  if K.alloc_ok s.allocs then
    let live := (s.s_locker_wl.takeWhile Option.isSome).length
    let r := packages_locker_wl_store_loop K
      (strsep_tokens 59 ((page.take count).takeWhile (fun c => c != 0)) []) 0
      { s with allocs := s.allocs + 1,
               s_locker_wl := List.replicate live none ++ s.s_locker_wl.drop live }
      (List.range live)
    if r.1 then ((count : Int), r.2.1, r.2.2) else (-ENOMEM, r.2.1, r.2.2)
  else (-ENOMEM, { s with allocs := s.allocs + 1 }, [])

/-- The excluded users that `packages_list_show` prints after a package: the
entries of the walked exclusion bucket whose key equals the key of the
package up to case, in chain order. -/
def list_show_users (K : Kernel) (s : State) (e : hashtable_entry) : List hashtable_entry :=
  (hash_possible K s.package_to_userid e.key.hash).filter
    (fun u => qstr_case_eq K e.key u.key)

/-- The complete line of a package in the listing: name, appid and its
excluded user ids, separated by blanks and ended by a newline. -/
def list_line (K : Kernel) (V : Vsprintf) (s : State) (e : hashtable_entry) : List Nat :=
  e.key.name ++ [32] ++ V.fmt_d e.value ++
    (list_show_users K s e).flatMap (fun u => 32 :: V.fmt_d u.value) ++ [10]

/-- The complete lines of a list of packages, one after the other. -/
def list_lines (K : Kernel) (V : Vsprintf) (s : State) (l : List hashtable_entry) : List Nat :=
  l.flatMap (list_line K V s)

/-- Every store recorded for the page lies inside its `PAGE_SIZE` bytes. -/
def Page.inside (V : Vsprintf) (page : Page) : Prop :=
  ∀ st ∈ page.stores, 0 ≤ st.1 ∧ st.1 + (st.2 : Int) ≤ (V.PAGE_SIZE : Int)

/-- The state of the inner walk of `packages_list_show` for a package whose
line starts at offset `c`, with `R` text bytes left for it: `acc` is the text
before offset `c`, `body` the line composed so far without its newline, and
`pw` the page and `written`. -/
def list_show_inv (V : Vsprintf) (c R : Nat) (acc body : List Nat) (pw : Page × Int) : Prop :=
  pw.1.bytes.length = V.PAGE_SIZE ∧ pw.1.bytes.take c = acc ∧ Page.inside V pw.1 ∧
  pw.2 = ((min (body.length + 1) R : Nat) : Int) ∧
  (body.length + 1 ≤ R → pw.1.bytes.take (c + (body.length + 1)) = acc ++ body ++ [10])

/-- The listing that `packages_list_show` returns, over the complete lines
still to come and the text `acc` returned so far: a line is appended when,
after it and its NUL, one more byte of the budget `B` is left; the first line
for which this fails is replaced by the marker and ends the listing. -/
def list_show_spec (B : Nat) : List (List Nat) → List Nat → List Nat
  | [], acc => acc
  | line :: rest, acc =>
    if acc.length + line.length + 2 ≤ B then list_show_spec B rest (acc ++ line)
    else acc ++ errormsg

/-! ## A concrete kernel -/

/-- A sample `tolower`: the upper-case letters of the kernel's Latin-1 `_ctype`
table are moved by 32. -/
def sample_tolower (c : Nat) : Nat :=
  if (65 ≤ c ∧ c ≤ 90) ∨ (192 ≤ c ∧ c ≤ 222 ∧ c ≠ 215) then c + 32 else c

/-- A sample instance of `Kernel`, used to run the embedding on concrete
inputs: the 32-bit name hash `(prev + (c << 4) + (c >> 4)) * 11`, the bucket
function `hash_32(hash, 8)`, both optional layers compiled in, every
allocation granted, and a policy oracle that denies the mode 2 to non-zero
users. -/
def sample : Kernel :=
  { tolower := sample_tolower
    init_name_hash := 0
    partial_name_hash := fun c prevhash => (prevhash + (c <<< 4) + (c >>> 4)) * 11 % 2 ^ 32
    end_name_hash := fun hash => hash % 2 ^ 32
    hash_min := fun hash => Fin.ofNat ((hash * 0x9e370001 % 2 ^ 32) >>> 24)
    alloc_ok := fun _ => true
    PERM_ROOT := 2
    CONFIG_SDCARD_FS_LOCKER := true
    CONFIG_BBSECURE_SDBASE := true
    CONFIG_SDCARD_FS_LOCKER_NAME := cstr "locker"
    kstrtouint := fun s =>
      if s ≠ [] ∧ s.all (fun c => 48 ≤ c && c ≤ 57) then
        some (s.foldl (fun n c => 10 * n + (c - 48)) 0)
      else none
    multiuser_get_uid := fun userid appid => userid * 100000 + appid % 100000
    policy_check_caller_access_to_name := fun caller_uid _ _ mode =>
      if caller_uid / 100000 ≠ 0 ∧ mode = 2 then 0 else 1 }

/-- A sample "%d": the decimal digits of the value read as a 32-bit signed
integer. -/
def sample_fmt_d (v : Nat) : List Nat :=
  if v % 2 ^ 32 < 2 ^ 31 then (Nat.toDigits 10 (v % 2 ^ 32)).map Char.toNat
  else 45 :: (Nat.toDigits 10 (2 ^ 32 - v % 2 ^ 32)).map Char.toNat

/-- A sample instance of `Vsprintf`: pages of 4096 bytes. -/
def sample_vsprintf : Vsprintf :=
  { PAGE_SIZE := 4096, fmt_d := sample_fmt_d }

/-- A page of `PAGE_SIZE` zero bytes with no store recorded. -/
def Page.zeroed (V : Vsprintf) : Page :=
  { bytes := List.replicate V.PAGE_SIZE 0, stores := [] }

/-- The names of 27 packages, 150 lower-case letters each: 148 letters "a"
followed by two letters that tell them apart. -/
def list_show_names : List (List Nat) :=
  (List.range 27).map (fun i => List.replicate 148 97 ++ [97 + i / 26, 97 + i % 26])

/-- The store after the 27 packages of `list_show_names` are registered with
the appid 10000, one after the other, in the store of a freshly loaded module
with nothing mounted. -/
def list_show_store : State :=
  list_show_names.foldl
    (fun st name => (insert_packagelist_entry sample (qstr_init sample name) 10000 st).2)
    (State.init [])

/-! ## Hashing and comparison lemmas -/

theorem full_name_case_hash_loop_eq_foldl (K : Kernel) (name : List Nat) (hash : Nat) :
    full_name_case_hash_loop K name name.length hash =
      (name.map K.tolower).foldl (fun h c => K.partial_name_hash c h) hash := by
  induction name generalizing hash with
  | nil => rfl
  | cons c cs ih => simp [full_name_case_hash_loop, ih]

theorem qstr_case_eq_init (K : Kernel) (a b : List Nat) :
    qstr_case_eq K (qstr_init K a) (qstr_init K b) = true ↔
      a.map K.tolower = b.map K.tolower := by
  simp only [qstr_case_eq, qstr_init, Bool.and_eq_true, beq_iff_eq]
  constructor
  · exact fun h => h.2
  · intro h
    refine ⟨?_, h⟩
    simpa using congrArg List.length h

theorem qstr_init_hash_eq (K : Kernel) (a b : List Nat)
    (h : qstr_case_eq K (qstr_init K a) (qstr_init K b) = true) :
    (qstr_init K a).hash = (qstr_init K b).hash := by
  rw [qstr_case_eq_init] at h
  simp only [qstr_init, full_name_case_hash, full_name_case_hash_loop_eq_foldl, h]

theorem qstr_case_eq_congr (K : Kernel) (a b : List Nat)
    (h : qstr_case_eq K (qstr_init K a) (qstr_init K b) = true) (k : qstr) :
    qstr_case_eq K (qstr_init K a) k = qstr_case_eq K (qstr_init K b) k := by
  have h1 := (qstr_case_eq_init K a b).1 h
  have h2 : a.length = b.length := by simpa using congrArg List.length h1
  simp only [qstr_case_eq, qstr_init, h1, h2]

theorem qstr_case_eq_refl (K : Kernel) (a : List Nat) :
    qstr_case_eq K (qstr_init K a) (qstr_init K a) = true :=
  (qstr_case_eq_init K a a).2 rfl

/-! ## Frame lemmas -/

/-- Allocation touches neither the tables nor the other globals; the entry it
returns holds the key and the value it was given, and it returns NULL only
when one of its two requests is refused. -/
theorem alloc_hashtable_entry_spec (K : Kernel) (key : qstr) (value : Nat) (s s1 : State)
    (r : Option hashtable_entry) (h : alloc_hashtable_entry K key value s = (r, s1)) :
    s1.package_to_appid = s.package_to_appid ∧
    s1.package_to_userid = s.package_to_userid ∧
    s1.ext_to_groupid = s.ext_to_groupid ∧
    s1.s_locker_wl = s.s_locker_wl ∧
    s1.sdcardfs_super_list = s.sdcardfs_super_list ∧
    (r = some { key := key, value := value } ∨
      (r = none ∧ (K.alloc_ok s.allocs = false ∨ K.alloc_ok (s.allocs + 1) = false))) := by
  unfold alloc_hashtable_entry qstr_copy at h
  by_cases h1 : K.alloc_ok s.allocs = true <;> by_cases h2 : K.alloc_ok (s.allocs + 1) = true <;>
    simp [h1, h2] at h <;> obtain ⟨rfl, rfl⟩ := h <;> simp [h1, h2]

theorem hlist_set_first_find (p : hashtable_entry → Bool) (value : Nat)
    (hp : ∀ e v, p { e with value := v } = p e) :
    ∀ (chain chain1 : List hashtable_entry), hlist_set_first p value chain = some chain1 →
      ∃ e, chain1.find? p = some e ∧ e.value = value := by
  intro chain
  induction chain with
  | nil => intro chain1 h; simp [hlist_set_first] at h
  | cons x xs ih =>
    intro chain1 h
    by_cases hx : p x = true
    · simp only [hlist_set_first, hx, if_true, Option.some.injEq] at h
      subst h
      exact ⟨{ x with value := value }, by simp [List.find?, hp, hx], rfl⟩
    · simp only [hlist_set_first, hx, Bool.false_eq_true, if_false, Option.map_eq_some'] at h
      obtain ⟨r, hr, rfl⟩ := h
      obtain ⟨e, he, hv⟩ := ih r hr
      exact ⟨e, by simp [List.find?, hx, he], hv⟩

/-- The appid table after `insert_packagelist_entry`, by cases of what the call did. -/
theorem insert_packagelist_entry_table (K : Kernel) (key : qstr) (value : Nat) (s : State) :
    (∃ chain, hlist_set_first (fun e => qstr_case_eq K key e.key) value
          (s.package_to_appid (K.hash_min key.hash)) = some chain ∧
        (insert_packagelist_entry K key value s).1 = 0 ∧
        (insert_packagelist_entry K key value s).2.package_to_appid =
          Function.update s.package_to_appid (K.hash_min key.hash) chain ∧
        (insert_packagelist_entry K key value s).2.allocs = s.allocs) ∨
    (hlist_set_first (fun e => qstr_case_eq K key e.key) value
          (s.package_to_appid (K.hash_min key.hash)) = none ∧
        (insert_packagelist_entry K key value s).1 = 0 ∧
        (insert_packagelist_entry K key value s).2.package_to_appid =
          Function.update s.package_to_appid (K.hash_min key.hash)
            ({ key := key, value := value } :: s.package_to_appid (K.hash_min key.hash))) ∨
    (hlist_set_first (fun e => qstr_case_eq K key e.key) value
          (s.package_to_appid (K.hash_min key.hash)) = none ∧
        (insert_packagelist_entry K key value s).1 = -ENOMEM ∧
        (insert_packagelist_entry K key value s).2.package_to_appid = s.package_to_appid) := by
  unfold insert_packagelist_entry insert_packagelist_appid_entry_locked
  simp only [hash_possible, mutex_lock]
  rcases hf : hlist_set_first (fun e => qstr_case_eq K key e.key) value
      (s.package_to_appid (K.hash_min key.hash)) with _ | chain
  · right
    rcases ha : alloc_hashtable_entry K key value
      { s with trace := s.trace ++ [Event.mutex_lock] } with ⟨r, s1⟩
    obtain ⟨h1, -, -, -, -, h6⟩ := alloc_hashtable_entry_spec K key value _ s1 r ha
    rcases h6 with rfl | ⟨rfl, -⟩
    · left
      simp [mutex_unlock, fixup_all_perms_name, fixup_all, hash_add_rcu, h1]
    · right
      simp [ENOMEM, mutex_unlock, h1]
  · left
    exact ⟨chain, rfl, by simp [mutex_unlock, fixup_all_perms_name, fixup_all]⟩

/-! ## Effect of each entry point on the three tables -/

theorem hlist_del_first_fst (p : hashtable_entry → Bool) (chain : List hashtable_entry) :
    (hlist_del_first p chain).1 = chain.eraseP p := by
  unfold hlist_del_first
  rcases h : chain.find? p with _ | e
  · simp only
    rw [List.eraseP_of_forall_not]
    intro a ha
    have := List.find?_eq_none.1 h a ha
    simpa using this
  · rfl

theorem insert_packagelist_entry_frame (K : Kernel) (key : qstr) (value : Nat) (s : State) :
    (insert_packagelist_entry K key value s).2.package_to_userid = s.package_to_userid ∧
    (insert_packagelist_entry K key value s).2.ext_to_groupid = s.ext_to_groupid := by
  unfold insert_packagelist_entry insert_packagelist_appid_entry_locked
  simp only [hash_possible, mutex_lock]
  rcases hlist_set_first (fun e => qstr_case_eq K key e.key) value
      (s.package_to_appid (K.hash_min key.hash)) with _ | chain
  · rcases ha : alloc_hashtable_entry K key value
      { s with trace := s.trace ++ [Event.mutex_lock] } with ⟨r, s1⟩
    obtain ⟨-, h2, h3, -, -, h6⟩ := alloc_hashtable_entry_spec K key value _ s1 r ha
    rcases h6 with rfl | ⟨rfl, -⟩ <;>
      simp [mutex_unlock, fixup_all_perms_name, fixup_all, ENOMEM, h2, h3]
  · simp [mutex_unlock, fixup_all_perms_name, fixup_all]

/-- The tables after `insert_ext_gid_entry`, by cases of what the call did. -/
theorem insert_ext_gid_entry_effect (K : Kernel) (key : qstr) (value : Nat) (s : State) :
    (insert_ext_gid_entry K key value s).2.package_to_appid = s.package_to_appid ∧
    (insert_ext_gid_entry K key value s).2.package_to_userid = s.package_to_userid ∧
    (((s.ext_to_groupid (K.hash_min key.hash)).any (fun e => qstr_case_eq K key e.key) = true ∧
        (insert_ext_gid_entry K key value s).1 = -EINVAL ∧
        (insert_ext_gid_entry K key value s).2.ext_to_groupid = s.ext_to_groupid ∧
        (insert_ext_gid_entry K key value s).2.allocs = s.allocs) ∨
      ((s.ext_to_groupid (K.hash_min key.hash)).any (fun e => qstr_case_eq K key e.key) = false ∧
        (insert_ext_gid_entry K key value s).1 = 0 ∧
        (insert_ext_gid_entry K key value s).2.ext_to_groupid =
          Function.update s.ext_to_groupid (K.hash_min key.hash)
            ({ key := key, value := value } :: s.ext_to_groupid (K.hash_min key.hash))) ∨
      ((s.ext_to_groupid (K.hash_min key.hash)).any (fun e => qstr_case_eq K key e.key) = false ∧
        (K.alloc_ok s.allocs = false ∨ K.alloc_ok (s.allocs + 1) = false) ∧
        (insert_ext_gid_entry K key value s).1 = -ENOMEM ∧
        (insert_ext_gid_entry K key value s).2.ext_to_groupid = s.ext_to_groupid)) := by
  unfold insert_ext_gid_entry insert_ext_gid_entry_locked
  simp only [hash_possible, mutex_lock]
  by_cases hf : (s.ext_to_groupid (K.hash_min key.hash)).any
      (fun e => qstr_case_eq K key e.key) = true
  · simp only [hf, if_true]
    simp [mutex_unlock]
  · simp only [hf, Bool.false_eq_true, if_false]
    rcases ha : alloc_hashtable_entry K key value
      { s with trace := s.trace ++ [Event.mutex_lock] } with ⟨r, s1⟩
    obtain ⟨h1, h2, h3, -, -, h6⟩ := alloc_hashtable_entry_spec K key value _ s1 r ha
    simp only [Bool.not_eq_true] at hf
    rcases h6 with rfl | ⟨rfl, h7⟩
    · simp [mutex_unlock, hash_add_rcu, h1, h2, h3, hf]
    · simp [mutex_unlock, ENOMEM, EINVAL, h1, h2, h3, hf]
      exact h7

/-- The tables after `insert_userid_exclude_entry`, by cases of what the call did. -/
theorem insert_userid_exclude_entry_effect (K : Kernel) (key : qstr) (value : Nat) (s : State) :
    (insert_userid_exclude_entry K key value s).2.package_to_appid = s.package_to_appid ∧
    (insert_userid_exclude_entry K key value s).2.ext_to_groupid = s.ext_to_groupid ∧
    (((s.package_to_userid (K.hash_min key.hash)).any
          (fun e => e.value == value && qstr_case_eq K key e.key) = true ∧
        (insert_userid_exclude_entry K key value s).1 = 0 ∧
        (insert_userid_exclude_entry K key value s).2.package_to_userid = s.package_to_userid ∧
        (insert_userid_exclude_entry K key value s).2.allocs = s.allocs) ∨
      ((s.package_to_userid (K.hash_min key.hash)).any
          (fun e => e.value == value && qstr_case_eq K key e.key) = false ∧
        (insert_userid_exclude_entry K key value s).1 = 0 ∧
        (insert_userid_exclude_entry K key value s).2.package_to_userid =
          Function.update s.package_to_userid (K.hash_min key.hash)
            ({ key := key, value := value } :: s.package_to_userid (K.hash_min key.hash))) ∨
      ((s.package_to_userid (K.hash_min key.hash)).any
          (fun e => e.value == value && qstr_case_eq K key e.key) = false ∧
        (K.alloc_ok s.allocs = false ∨ K.alloc_ok (s.allocs + 1) = false) ∧
        (insert_userid_exclude_entry K key value s).1 = -ENOMEM ∧
        (insert_userid_exclude_entry K key value s).2.package_to_userid =
          s.package_to_userid)) := by
  unfold insert_userid_exclude_entry insert_userid_exclude_entry_locked
  simp only [hash_possible, mutex_lock]
  by_cases hf : (s.package_to_userid (K.hash_min key.hash)).any
      (fun e => e.value == value && qstr_case_eq K key e.key) = true
  · simp only [hf, if_true]
    simp [mutex_unlock, fixup_all_perms_name_userid, fixup_all]
  · simp only [hf, Bool.false_eq_true, if_false]
    rcases ha : alloc_hashtable_entry K key value
      { s with trace := s.trace ++ [Event.mutex_lock] } with ⟨r, s1⟩
    obtain ⟨h1, h2, h3, -, -, h6⟩ := alloc_hashtable_entry_spec K key value _ s1 r ha
    simp only [Bool.not_eq_true] at hf
    rcases h6 with rfl | ⟨rfl, h7⟩
    · simp [mutex_unlock, fixup_all_perms_name_userid, fixup_all, hash_add_rcu, h1, h2, h3, hf]
    · simp [mutex_unlock, ENOMEM, h1, h2, h3, hf]
      exact h7

/-- The tables after `remove_packagelist_entry`. -/
theorem remove_packagelist_entry_effect (K : Kernel) (key : qstr) (s : State) :
    (remove_packagelist_entry K key s).package_to_appid =
      Function.update s.package_to_appid (K.hash_min key.hash)
        ((s.package_to_appid (K.hash_min key.hash)).eraseP
          (fun e => qstr_case_eq K key e.key)) ∧
    (remove_packagelist_entry K key s).package_to_userid =
      Function.update s.package_to_userid (K.hash_min key.hash)
        ((s.package_to_userid (K.hash_min key.hash)).filter
          (fun e => !qstr_case_eq K key e.key)) ∧
    (remove_packagelist_entry K key s).ext_to_groupid = s.ext_to_groupid := by
  simp [remove_packagelist_entry, remove_packagelist_entry_locked, mutex_lock, mutex_unlock,
    fixup_all_perms_name, fixup_all, reclaim, hash_possible]

/-- The tables after `remove_ext_gid_entry`. -/
theorem remove_ext_gid_entry_effect (K : Kernel) (key : qstr) (group : Nat) (s : State) :
    (remove_ext_gid_entry K key group s).package_to_appid = s.package_to_appid ∧
    (remove_ext_gid_entry K key group s).package_to_userid = s.package_to_userid ∧
    (remove_ext_gid_entry K key group s).ext_to_groupid =
      Function.update s.ext_to_groupid (K.hash_min key.hash)
        ((s.ext_to_groupid (K.hash_min key.hash)).eraseP
          (fun e => qstr_case_eq K key e.key && e.value == group)) := by
  simp [remove_ext_gid_entry, remove_ext_gid_entry_locked, mutex_lock, mutex_unlock,
    hash_possible, hlist_del_first_fst]

/-- The tables after `remove_userid_exclude_entry`. -/
theorem remove_userid_exclude_entry_effect (K : Kernel) (key : qstr) (userid : Nat) (s : State) :
    (remove_userid_exclude_entry K key userid s).package_to_appid = s.package_to_appid ∧
    (remove_userid_exclude_entry K key userid s).ext_to_groupid = s.ext_to_groupid ∧
    (remove_userid_exclude_entry K key userid s).package_to_userid =
      Function.update s.package_to_userid (K.hash_min key.hash)
        ((s.package_to_userid (K.hash_min key.hash)).eraseP
          (fun e => qstr_case_eq K key e.key && e.value == userid)) := by
  simp [remove_userid_exclude_entry, remove_userid_exclude_entry_locked, mutex_lock,
    mutex_unlock, fixup_all_perms_name_userid, fixup_all, hash_possible, hlist_del_first_fst]

theorem remove_userid_all_fold (userid : Nat) (L : List (Fin HASH_SIZE))
    (acc : hashtable × List hashtable_entry) (j : Fin HASH_SIZE) :
    (L.foldl (remove_userid_all_bucket userid) acc).1 j =
      if j ∈ L then (acc.1 j).filter (fun e => !(e.value == userid)) else acc.1 j := by
  induction L generalizing acc with
  | nil => simp
  | cons i L ih =>
    rw [List.foldl_cons, ih]
    by_cases hji : j = i
    · subst hji
      by_cases hj : j ∈ L <;> simp [hj, remove_userid_all_bucket, List.filter_filter]
    · by_cases hj : j ∈ L <;> simp [hj, hji, remove_userid_all_bucket, Function.update_noteq hji]

/-- The tables after `remove_userid_all_entry`. -/
theorem remove_userid_all_entry_effect (userid : Nat) (s : State) :
    (remove_userid_all_entry userid s).package_to_appid = s.package_to_appid ∧
    (remove_userid_all_entry userid s).ext_to_groupid = s.ext_to_groupid ∧
    (remove_userid_all_entry userid s).package_to_userid =
      fun i => (s.package_to_userid i).filter (fun e => !(e.value == userid)) := by
  refine ⟨?_, ?_, ?_⟩
  · simp [remove_userid_all_entry, remove_userid_all_entry_locked, mutex_lock, mutex_unlock,
      fixup_all_perms_userid, fixup_all, reclaim]
  · simp [remove_userid_all_entry, remove_userid_all_entry_locked, mutex_lock, mutex_unlock,
      fixup_all_perms_userid, fixup_all, reclaim]
  · funext i
    simp [remove_userid_all_entry, remove_userid_all_entry_locked, mutex_lock, mutex_unlock,
      fixup_all_perms_userid, fixup_all, reclaim, remove_userid_all_fold, List.mem_finRange]

/-! ## Invariant lemmas -/

theorem chain_wf_sublist (K : Kernel) (i : Fin HASH_SIZE) (l1 l2 : List hashtable_entry)
    (h : l1.Sublist l2) (hw : chain_wf K i l2) : chain_wf K i l1 :=
  fun e he => hw e (h.subset he)

theorem chain_wf_cons (K : Kernel) (name : List Nat) (value : Nat) (l : List hashtable_entry)
    (hw : chain_wf K (K.hash_min (qstr_init K name).hash) l) :
    chain_wf K (K.hash_min (qstr_init K name).hash)
      ({ key := qstr_init K name, value := value } :: l) := by
  intro e he
  rcases List.mem_cons.1 he with rfl | he
  · exact ⟨rfl, rfl⟩
  · exact hw e he

theorem wf_update (K : Kernel) (t : hashtable) (b : Fin HASH_SIZE) (l : List hashtable_entry)
    (ht : ∀ i, chain_wf K i (t i)) (hl : chain_wf K b l) :
    ∀ i, chain_wf K i (Function.update t b l i) := by
  intro i
  by_cases h : i = b
  · subst h; simpa using hl
  · simpa [Function.update_noteq h] using ht i

theorem unique_update (P : List hashtable_entry → Prop) (t : hashtable) (b : Fin HASH_SIZE)
    (l : List hashtable_entry) (ht : ∀ i, P (t i)) (hl : P l) :
    ∀ i, P (Function.update t b l i) := by
  intro i
  by_cases h : i = b
  · subst h; simpa using hl
  · simpa [Function.update_noteq h] using ht i

theorem hlist_set_first_keys (p : hashtable_entry → Bool) (value : Nat) :
    ∀ (chain chain1 : List hashtable_entry), hlist_set_first p value chain = some chain1 →
      chain1.map (fun e => e.key) = chain.map (fun e => e.key) := by
  intro chain
  induction chain with
  | nil => intro chain1 h; simp [hlist_set_first] at h
  | cons x xs ih =>
    intro chain1 h
    by_cases hx : p x = true
    · simp only [hlist_set_first, hx, if_true, Option.some.injEq] at h
      subst h
      rfl
    · simp only [hlist_set_first, hx, Bool.false_eq_true, if_false, Option.map_eq_some'] at h
      obtain ⟨r, hr, rfl⟩ := h
      simp [ih r hr]

theorem hlist_set_first_none (p : hashtable_entry → Bool) (value : Nat) :
    ∀ (chain : List hashtable_entry), hlist_set_first p value chain = none →
      ∀ e ∈ chain, p e = false := by
  intro chain
  induction chain with
  | nil => intro _ e he; simp at he
  | cons x xs ih =>
    intro h e he
    by_cases hx : p x = true
    · simp [hlist_set_first, hx] at h
    · simp only [hlist_set_first, hx, Bool.false_eq_true, if_false, Option.map_eq_none'] at h
      rcases List.mem_cons.1 he with rfl | he
      · simpa using hx
      · exact ih h e he

theorem chain_wf_of_keys (K : Kernel) (i : Fin HASH_SIZE) (l1 l2 : List hashtable_entry)
    (h : l1.map (fun e => e.key) = l2.map (fun e => e.key)) (hw : chain_wf K i l2) :
    chain_wf K i l1 := by
  intro e he
  have : e.key ∈ l2.map (fun e => e.key) := h ▸ List.mem_map_of_mem _ he
  obtain ⟨e2, he2, hk⟩ := List.mem_map.1 this
  rw [← hk]
  exact hw e2 he2

theorem keys_unique_of_keys (K : Kernel) (l1 l2 : List hashtable_entry)
    (h : l1.map (fun e => e.key) = l2.map (fun e => e.key)) (hu : keys_unique K l2) :
    keys_unique K l1 := by
  unfold keys_unique at *
  have h2 : (l2.map (fun e => e.key)).Pairwise (fun a b => qstr_case_eq K a b = false) :=
    List.pairwise_map.2 hu
  rw [← h] at h2
  exact List.pairwise_map.1 h2

theorem pairs_unique_cons (K : Kernel) (key : qstr) (value : Nat) (l : List hashtable_entry)
    (hn : l.any (fun e => e.value == value && qstr_case_eq K key e.key) = false)
    (hu : pairs_unique K l) : pairs_unique K ({ key := key, value := value } :: l) := by
  unfold pairs_unique at *
  refine List.pairwise_cons.2 ⟨?_, hu⟩
  intro e he
  have h := List.any_eq_false.1 hn e he
  simp only [Bool.and_eq_true, beq_iff_eq, not_and, Bool.not_eq_true] at h
  simp only [Bool.and_eq_false_iff, beq_eq_false_iff_ne, ne_eq]
  by_cases hv : e.value = value
  · exact Or.inl (h hv)
  · exact Or.inr (fun h2 => hv h2.symm)

theorem keys_unique_cons (K : Kernel) (key : qstr) (value : Nat) (l : List hashtable_entry)
    (hn : ∀ e ∈ l, qstr_case_eq K key e.key = false)
    (hu : keys_unique K l) : keys_unique K ({ key := key, value := value } :: l) :=
  List.pairwise_cons.2 ⟨hn, hu⟩

/-- Every reachable state satisfies the invariant of the store. -/
theorem reachable_store_inv (K : Kernel) (s : State) (h : Reachable K s) : store_inv K s := by
  induction h with
  | init supers =>
    exact ⟨fun _ _ he => by simp [State.init, hash_empty] at he,
      fun _ _ he => by simp [State.init, hash_empty] at he,
      fun _ _ he => by simp [State.init, hash_empty] at he,
      fun _ => List.Pairwise.nil, fun _ => List.Pairwise.nil, fun _ => List.Pairwise.nil⟩
  | mounts s supers _ ih =>
    exact ⟨ih.appid_wf, ih.userid_wf, ih.ext_wf, ih.appid_unique, ih.userid_unique, ih.ext_unique⟩
  | insert_packagelist_entry s name value _ ih =>
    obtain ⟨hu, he⟩ := insert_packagelist_entry_frame K (qstr_init K name) value s
    have hA : (∀ i, chain_wf K i
          ((insert_packagelist_entry K (qstr_init K name) value s).2.package_to_appid i)) ∧
        (∀ i, keys_unique K
          ((insert_packagelist_entry K (qstr_init K name) value s).2.package_to_appid i)) := by
      rcases insert_packagelist_entry_table K (qstr_init K name) value s with
        ⟨chain, hc, -, ht, -⟩ | ⟨hn, -, ht⟩ | ⟨-, -, ht⟩
      · have hk := hlist_set_first_keys _ value _ chain hc
        rw [ht]
        exact ⟨wf_update K _ _ _ ih.appid_wf (chain_wf_of_keys K _ _ _ hk (ih.appid_wf _)),
          unique_update (keys_unique K) _ _ _ ih.appid_unique
            (keys_unique_of_keys K _ _ hk (ih.appid_unique _))⟩
      · rw [ht]
        exact ⟨wf_update K _ _ _ ih.appid_wf (chain_wf_cons K name value _ (ih.appid_wf _)),
          unique_update (keys_unique K) _ _ _ ih.appid_unique
            (keys_unique_cons K _ value _ (hlist_set_first_none _ value _ hn)
              (ih.appid_unique _))⟩
      · rw [ht]
        exact ⟨ih.appid_wf, ih.appid_unique⟩
    exact ⟨hA.1, by rw [hu]; exact ih.userid_wf, by rw [he]; exact ih.ext_wf,
      hA.2, by rw [hu]; exact ih.userid_unique, by rw [he]; exact ih.ext_unique⟩
  | insert_ext_gid_entry s name value _ ih =>
    obtain ⟨ha, hu, hcases⟩ := insert_ext_gid_entry_effect K (qstr_init K name) value s
    have hE : (∀ i, chain_wf K i
          ((insert_ext_gid_entry K (qstr_init K name) value s).2.ext_to_groupid i)) ∧
        (∀ i, keys_unique K
          ((insert_ext_gid_entry K (qstr_init K name) value s).2.ext_to_groupid i)) := by
      rcases hcases with ⟨-, -, ht, -⟩ | ⟨hn, -, ht⟩ | ⟨-, -, -, ht⟩
      · rw [ht]
        exact ⟨ih.ext_wf, ih.ext_unique⟩
      · rw [ht]
        refine ⟨wf_update K _ _ _ ih.ext_wf (chain_wf_cons K name value _ (ih.ext_wf _)),
          unique_update (keys_unique K) _ _ _ ih.ext_unique
            (keys_unique_cons K _ value _ ?_ (ih.ext_unique _))⟩
        intro e he
        simpa using List.any_eq_false.1 hn e he
      · rw [ht]
        exact ⟨ih.ext_wf, ih.ext_unique⟩
    exact ⟨by rw [ha]; exact ih.appid_wf, by rw [hu]; exact ih.userid_wf, hE.1,
      by rw [ha]; exact ih.appid_unique, by rw [hu]; exact ih.userid_unique, hE.2⟩
  | insert_userid_exclude_entry s name value _ ih =>
    obtain ⟨ha, he, hcases⟩ := insert_userid_exclude_entry_effect K (qstr_init K name) value s
    have hU : (∀ i, chain_wf K i
          ((insert_userid_exclude_entry K (qstr_init K name) value s).2.package_to_userid i)) ∧
        (∀ i, pairs_unique K
          ((insert_userid_exclude_entry K (qstr_init K name) value s).2.package_to_userid i)) := by
      rcases hcases with ⟨-, -, ht, -⟩ | ⟨hn, -, ht⟩ | ⟨-, -, -, ht⟩
      · rw [ht]
        exact ⟨ih.userid_wf, ih.userid_unique⟩
      · rw [ht]
        exact ⟨wf_update K _ _ _ ih.userid_wf (chain_wf_cons K name value _ (ih.userid_wf _)),
          unique_update (pairs_unique K) _ _ _ ih.userid_unique
            (pairs_unique_cons K _ value _ hn (ih.userid_unique _))⟩
      · rw [ht]
        exact ⟨ih.userid_wf, ih.userid_unique⟩
    exact ⟨by rw [ha]; exact ih.appid_wf, hU.1, by rw [he]; exact ih.ext_wf,
      by rw [ha]; exact ih.appid_unique, hU.2, by rw [he]; exact ih.ext_unique⟩
  | remove_packagelist_entry s name _ ih =>
    obtain ⟨ha, hu, he⟩ := remove_packagelist_entry_effect K (qstr_init K name) s
    refine ⟨?_, ?_, by rw [he]; exact ih.ext_wf, ?_, ?_, by rw [he]; exact ih.ext_unique⟩
    · rw [ha]
      exact wf_update K _ _ _ ih.appid_wf
        (chain_wf_sublist K _ _ _ (List.eraseP_sublist _) (ih.appid_wf _))
    · rw [hu]
      exact wf_update K _ _ _ ih.userid_wf
        (chain_wf_sublist K _ _ _ (List.filter_sublist _) (ih.userid_wf _))
    · rw [ha]
      exact unique_update (keys_unique K) _ _ _ ih.appid_unique
        (List.Pairwise.sublist (List.eraseP_sublist _) (ih.appid_unique _))
    · rw [hu]
      exact unique_update (pairs_unique K) _ _ _ ih.userid_unique
        (List.Pairwise.sublist (List.filter_sublist _) (ih.userid_unique _))
  | remove_ext_gid_entry s name group _ ih =>
    obtain ⟨ha, hu, he⟩ := remove_ext_gid_entry_effect K (qstr_init K name) group s
    refine ⟨by rw [ha]; exact ih.appid_wf, by rw [hu]; exact ih.userid_wf, ?_,
      by rw [ha]; exact ih.appid_unique, by rw [hu]; exact ih.userid_unique, ?_⟩
    · rw [he]
      exact wf_update K _ _ _ ih.ext_wf
        (chain_wf_sublist K _ _ _ (List.eraseP_sublist _) (ih.ext_wf _))
    · rw [he]
      exact unique_update (keys_unique K) _ _ _ ih.ext_unique
        (List.Pairwise.sublist (List.eraseP_sublist _) (ih.ext_unique _))
  | remove_userid_all_entry s userid _ ih =>
    obtain ⟨ha, he, hu⟩ := remove_userid_all_entry_effect userid s
    refine ⟨by rw [ha]; exact ih.appid_wf, ?_, by rw [he]; exact ih.ext_wf,
      by rw [ha]; exact ih.appid_unique, ?_, by rw [he]; exact ih.ext_unique⟩
    · rw [hu]
      exact fun i => chain_wf_sublist K _ _ _ (List.filter_sublist _) (ih.userid_wf i)
    · rw [hu]
      exact fun i => List.Pairwise.sublist (List.filter_sublist _) (ih.userid_unique i)
  | remove_userid_exclude_entry s name userid _ ih =>
    obtain ⟨ha, he, hu⟩ := remove_userid_exclude_entry_effect K (qstr_init K name) userid s
    refine ⟨by rw [ha]; exact ih.appid_wf, ?_, by rw [he]; exact ih.ext_wf,
      by rw [ha]; exact ih.appid_unique, ?_, by rw [he]; exact ih.ext_unique⟩
    · rw [hu]
      exact wf_update K _ _ _ ih.userid_wf
        (chain_wf_sublist K _ _ _ (List.eraseP_sublist _) (ih.userid_wf _))
    · rw [hu]
      exact unique_update (pairs_unique K) _ _ _ ih.userid_unique
        (List.Pairwise.sublist (List.eraseP_sublist _) (ih.userid_unique _))

/-! ## Uniqueness lemmas -/

theorem qstr_case_eq_comm (K : Kernel) (a b : qstr) :
    qstr_case_eq K a b = qstr_case_eq K b a := by
  simp only [qstr_case_eq]
  rw [Bool.eq_iff_iff]
  simp only [Bool.and_eq_true, beq_iff_eq]
  constructor <;> exact fun h => ⟨h.1.symm, h.2.symm⟩

theorem qstr_case_eq_trans (K : Kernel) (k a b : qstr) (h1 : qstr_case_eq K k a = true)
    (h2 : qstr_case_eq K k b = true) : qstr_case_eq K a b = true := by
  simp only [qstr_case_eq, Bool.and_eq_true, beq_iff_eq] at *
  exact ⟨h1.1.symm.trans h2.1, h1.2.symm.trans h2.2⟩

/-- In a well-formed table an entry whose key equals the name up to case is
linked in the bucket of the name's hash. -/
theorem bucket_of_case_eq (K : Kernel) (t : hashtable) (hwf : ∀ i, chain_wf K i (t i))
    (x : hashtable_entry) (i : Fin HASH_SIZE) (hx : x ∈ t i) (n : List Nat)
    (hk : qstr_case_eq K (qstr_init K n) x.key = true) :
    i = K.hash_min (qstr_init K n).hash := by
  obtain ⟨hkey, hi⟩ := hwf i x hx
  have h1 : qstr_case_eq K (qstr_init K n) (qstr_init K x.key.name) = true := by
    rw [← hkey]; exact hk
  have h2 := qstr_init_hash_eq K n x.key.name h1
  rw [h2, ← hkey, hi]

theorem keys_unique_eq (K : Kernel) (l : List hashtable_entry) (hu : keys_unique K l)
    (k : qstr) (x y : hashtable_entry) (hx : x ∈ l) (hy : y ∈ l)
    (hkx : qstr_case_eq K k x.key = true) (hky : qstr_case_eq K k y.key = true) : y = x := by
  by_contra hne
  have hsymm : Symmetric (fun a b : hashtable_entry => qstr_case_eq K a.key b.key = false) := by
    intro a b h
    rw [qstr_case_eq_comm]; exact h
  have := List.Pairwise.forall hsymm hu hy hx hne
  rw [qstr_case_eq_trans K k y.key x.key hky hkx] at this
  exact Bool.noConfusion this

theorem find_eq_of_unique (p : hashtable_entry → Bool) (l : List hashtable_entry)
    (x : hashtable_entry) (hx : x ∈ l) (hp : p x = true)
    (hu : ∀ y ∈ l, p y = true → y = x) : l.find? p = some x := by
  rcases h : l.find? p with _ | y
  · have := List.find?_eq_none.1 h x hx
    exact absurd hp this
  · rw [hu y (List.mem_of_find?_eq_some h) (List.find?_some h)]

theorem hlist_set_first_of_unique (p : hashtable_entry → Bool) (value : Nat)
    (x : hashtable_entry) (hp : p x = true) :
    ∀ (l : List hashtable_entry), x ∈ l → (∀ y ∈ l, p y = true → y = x) →
      ∃ pre post, l = pre ++ x :: post ∧
        hlist_set_first p value l = some (pre ++ { key := x.key, value := value } :: post) := by
  intro l
  induction l with
  | nil => intro hx; simp at hx
  | cons a l ih =>
    intro hx hu
    by_cases ha : p a = true
    · have hax : a = x := hu a (List.mem_cons_self a l) ha
      subst hax
      exact ⟨[], l, rfl, by simp [hlist_set_first, ha]⟩
    · have hxl : x ∈ l := by
        rcases List.mem_cons.1 hx with rfl | h
        · exact absurd hp ha
        · exact h
      obtain ⟨pre, post, hl, hs⟩ := ih hxl (fun y hy => hu y (List.mem_cons_of_mem a hy))
      exact ⟨a :: pre, post, by simp [hl], by simp [hlist_set_first, ha, hs]⟩

theorem flatMap_length_congr (L : List (Fin HASH_SIZE)) (t1 t2 : hashtable)
    (h : ∀ i, (t1 i).length = (t2 i).length) :
    (L.flatMap t1).length = (L.flatMap t2).length := by
  induction L with
  | nil => rfl
  | cons i L ih => simp [List.flatMap_cons, h i, ih]

/-- In a reachable state `get_ext_gid` of a name returns the value of the entry
whose key equals the name up to case. -/
theorem get_ext_gid_of_mem (K : Kernel) (s : State) (hinv : store_inv K s)
    (x : hashtable_entry) (i : Fin HASH_SIZE) (hx : x ∈ s.ext_to_groupid i) (n : List Nat)
    (hk : qstr_case_eq K (qstr_init K n) x.key = true) : get_ext_gid K s n = x.value := by
  have hi := bucket_of_case_eq K _ hinv.ext_wf x i hx n hk
  subst hi
  unfold get_ext_gid __get_ext_gid hash_possible
  rw [find_eq_of_unique _ _ x hx hk
    (fun y hy hpy => keys_unique_eq K _ (hinv.ext_unique _) _ x y hx hy hk hpy)]

theorem eraseP_none_of_pairwise (q : hashtable_entry → Bool)
    (R : hashtable_entry → hashtable_entry → Prop)
    (hqR : ∀ a b, q a = true → q b = true → ¬ R a b) :
    ∀ (l : List hashtable_entry), l.Pairwise R → ∀ y ∈ l.eraseP q, q y = false := by
  intro l
  induction l with
  | nil => intro _ y hy; simp at hy
  | cons a l ih =>
    intro hl y hy
    obtain ⟨ha, hl1⟩ := List.pairwise_cons.1 hl
    by_cases hqa : q a = true
    · rw [List.eraseP_cons_of_pos hqa] at hy
      by_contra hqy
      exact hqR a y hqa (by simpa using hqy) (ha y hy)
    · rw [List.eraseP_cons_of_neg hqa] at hy
      rcases List.mem_cons.1 hy with rfl | hy
      · simpa using hqa
      · exact ih hl1 y hy

theorem countP_one_of_pairwise (q : hashtable_entry → Bool)
    (R : hashtable_entry → hashtable_entry → Prop)
    (hqR : ∀ a b, q a = true → q b = true → ¬ R a b) :
    ∀ (l : List hashtable_entry), l.Pairwise R → (∃ x ∈ l, q x = true) → l.countP q = 1 := by
  intro l
  induction l with
  | nil => intro _ h; obtain ⟨x, hx, -⟩ := h; simp at hx
  | cons a l ih =>
    intro hl hx
    obtain ⟨ha, hl1⟩ := List.pairwise_cons.1 hl
    by_cases hqa : q a = true
    · have h0 : l.countP q = 0 := by
        rw [List.countP_eq_zero]
        intro y hy hqy
        exact hqR a y hqa hqy (ha y hy)
      rw [List.countP_cons_of_pos _ _ hqa, h0]
    · obtain ⟨x, hx, hqx⟩ := hx
      have hxl : ∃ x ∈ l, q x = true := by
        rcases List.mem_cons.1 hx with rfl | h
        · exact absurd hqx hqa
        · exact ⟨x, h, hqx⟩
      rw [List.countP_cons_of_neg _ _ hqa, ih hl1 hxl]

theorem countP_flatMap_single (q : hashtable_entry → Bool) (t : hashtable) (b : Fin HASH_SIZE)
    (h : ∀ j, j ≠ b → ∀ e ∈ t j, q e = false) :
    ∀ (L : List (Fin HASH_SIZE)), L.Nodup →
      (L.flatMap t).countP q = if b ∈ L then (t b).countP q else 0 := by
  intro L
  induction L with
  | nil => intro _; rfl
  | cons i L ih =>
    intro hnd
    obtain ⟨hi, hnd1⟩ := List.nodup_cons.1 hnd
    rw [List.flatMap_cons, List.countP_append, ih hnd1]
    by_cases hib : i = b
    · subst hib
      simp [hi]
    · have h0 : (t i).countP q = 0 := by
        rw [List.countP_eq_zero]
        intro e he
        simp [h i hib e he]
      have hb : (b ∈ i :: L) ↔ b ∈ L := by
        simp [List.mem_cons, Ne.symm hib]
      simp [h0, hb]

theorem countP_hash_entries (q : hashtable_entry → Bool) (t : hashtable) (b : Fin HASH_SIZE)
    (h : ∀ j, j ≠ b → ∀ e ∈ t j, q e = false) :
    (hash_entries t).countP q = (t b).countP q := by
  unfold hash_entries
  rw [countP_flatMap_single q t b h _ (List.nodup_finRange _)]
  simp [List.mem_finRange]

theorem pairs_unique_conflict (K : Kernel) (k : qstr) (u : Nat) (a b : hashtable_entry)
    (ha : (qstr_case_eq K k a.key && a.value == u) = true)
    (hb : (qstr_case_eq K k b.key && b.value == u) = true) :
    ¬ ((qstr_case_eq K a.key b.key && a.value == b.value) = false) := by
  simp only [Bool.and_eq_true, beq_iff_eq] at ha hb
  simp [qstr_case_eq_trans K k a.key b.key ha.1 hb.1, ha.2, hb.2]

theorem keys_unique_conflict (K : Kernel) (k : qstr) (a b : hashtable_entry)
    (ha : qstr_case_eq K k a.key = true) (hb : qstr_case_eq K k b.key = true) :
    ¬ (qstr_case_eq K a.key b.key = false) := by
  simp [qstr_case_eq_trans K k a.key b.key ha hb]

theorem is_excluded_eq_one (K : Kernel) (s : State) (key : List Nat) (user : Nat) :
    is_excluded K s key user = 1 ↔
      (s.package_to_userid (K.hash_min (qstr_init K key).hash)).any
        (fun e => e.value == user && qstr_case_eq K (qstr_init K key) e.key) = true := by
  unfold is_excluded __is_excluded hash_possible
  split <;> simp_all

theorem is_excluded_eq_zero (K : Kernel) (s : State) (key : List Nat) (user : Nat) :
    is_excluded K s key user = 0 ↔
      (s.package_to_userid (K.hash_min (qstr_init K key).hash)).any
        (fun e => e.value == user && qstr_case_eq K (qstr_init K key) e.key) = false := by
  unfold is_excluded __is_excluded hash_possible
  split <;> simp_all

/-! ## More chain lemmas -/

theorem keys_unique_split (K : Kernel) (k : qstr) (x : hashtable_entry)
    (pre post : List hashtable_entry) (hu : keys_unique K (pre ++ x :: post))
    (hk : qstr_case_eq K k x.key = true) :
    ∀ y ∈ pre ++ post, qstr_case_eq K k y.key = false := by
  unfold keys_unique at hu
  obtain ⟨-, hxp, hpre⟩ := List.pairwise_append.1 hu
  obtain ⟨hx, -⟩ := List.pairwise_cons.1 hxp
  intro y hy
  by_contra hne
  have hky : qstr_case_eq K k y.key = true := by simpa using hne
  rcases List.mem_append.1 hy with h | h
  · have := hpre y h x (List.mem_cons_self x post)
    rw [qstr_case_eq_trans K k y.key x.key hky hk] at this
    exact Bool.noConfusion this
  · have := hx y h
    rw [qstr_case_eq_trans K k x.key y.key hk hky] at this
    exact Bool.noConfusion this

theorem eraseP_of_unique (p : hashtable_entry → Bool) (l : List hashtable_entry)
    (x : hashtable_entry) (hx : x ∈ l) (hp : p x = true)
    (hu : ∀ y ∈ l, p y = true → y = x) :
    ∃ pre post, l = pre ++ x :: post ∧ l.eraseP p = pre ++ post := by
  obtain ⟨a, l1, l2, -, hpa, hl, he⟩ := List.exists_of_eraseP hx hp
  have hax : a = x := hu a (by rw [hl]; simp) hpa
  subst hax
  exact ⟨l1, l2, hl, he⟩

theorem countP_le_one_of_pairwise (q : hashtable_entry → Bool)
    (R : hashtable_entry → hashtable_entry → Prop)
    (hqR : ∀ a b, q a = true → q b = true → ¬ R a b)
    (l : List hashtable_entry) (hl : l.Pairwise R) : l.countP q ≤ 1 := by
  by_cases h : ∃ x ∈ l, q x = true
  · exact le_of_eq (countP_one_of_pairwise q R hqR l hl h)
  · have h0 : l.countP q = 0 := by
      rw [List.countP_eq_zero]
      intro y hy hqy
      exact h ⟨y, hy, hqy⟩
    omega

theorem get_ext_gid_congr (K : Kernel) (s s1 : State) (key : List Nat)
    (h : s1.ext_to_groupid = s.ext_to_groupid) : get_ext_gid K s1 key = get_ext_gid K s key := by
  simp [get_ext_gid, __get_ext_gid, h]

theorem destroy_fold (L : List (Fin HASH_SIZE)) (acc : hashtable × List hashtable_entry)
    (j : Fin HASH_SIZE) :
    (L.foldl destroy_bucket acc).1 j = if j ∈ L then [] else acc.1 j := by
  induction L generalizing acc with
  | nil => simp
  | cons i L ih =>
    rw [List.foldl_cons, ih]
    by_cases hji : j = i
    · subst hji
      by_cases hj : j ∈ L <;> simp [hj, destroy_bucket]
    · by_cases hj : j ∈ L <;> simp [hj, hji, destroy_bucket, Function.update_noteq hji]

theorem locker_wl_match_iff (K : Kernel) (s : State) (caller_uid userid : Nat)
    (entry : List Nat) :
    locker_wl_match K s caller_uid userid entry = true ↔
      ∃ a, locker_wl_resolve K s entry = some a ∧
        caller_uid = K.multiuser_get_uid userid a := by
  unfold locker_wl_match locker_wl_resolve
  by_cases h0 : get_appid K s entry = 0
  · simp only [h0, if_true, ne_eq, not_true_eq_false, if_false]
    rcases K.kstrtouint entry with _ | tmp <;> simp
  · simp [h0]

/-- The answer of the scan is that of the entries before the first NULL. -/
theorem locker_wl_scan_fst (K : Kernel) (s : State) (caller_uid userid : Nat) :
    ∀ (l : List (Option (List Nat))) (i : Nat),
      (locker_wl_scan K s caller_uid userid l i).1 =
        ((l.takeWhile Option.isSome).reduceOption).any
          (locker_wl_match K s caller_uid userid) := by
  intro l
  induction l with
  | nil => intro i; rfl
  | cons x rest ih =>
    intro i
    cases x with
    | none => rfl
    | some entry =>
      by_cases h : locker_wl_match K s caller_uid userid entry = true
      · simp [locker_wl_scan, h, List.takeWhile]
      · simp [locker_wl_scan, h, List.takeWhile, ih (i + 1)]

/-- With a NULL slot in the array every read of the scan is inside it. -/
theorem locker_wl_scan_inside (K : Kernel) (s : State) (caller_uid userid : Nat) :
    ∀ (l : List (Option (List Nat))) (i : Nat), none ∈ l →
      ∀ j ∈ (locker_wl_scan K s caller_uid userid l i).2, j < i + l.length := by
  intro l
  induction l with
  | nil => intro i h; simp at h
  | cons x rest ih =>
    intro i hmem j hj
    cases x with
    | none =>
      simp only [locker_wl_scan, List.mem_singleton] at hj
      simp only [List.length_cons]; omega
    | some entry =>
      have hrest : none ∈ rest := by simpa using hmem
      by_cases h : locker_wl_match K s caller_uid userid entry = true
      · simp only [locker_wl_scan, h, if_true, List.mem_singleton] at hj
        simp only [List.length_cons]; omega
      · simp only [locker_wl_scan, h, Bool.false_eq_true, if_false, List.mem_cons] at hj
        simp only [List.length_cons]
        rcases hj with rfl | hj
        · omega
        · have := ih (i + 1) hrest j hj
          omega

/-- Without a NULL slot and without a matching entry the scan reads the
index after the last slot. -/
theorem locker_wl_scan_outside (K : Kernel) (s : State) (caller_uid userid : Nat) :
    ∀ (l : List (Option (List Nat))) (i : Nat), none ∉ l →
      (locker_wl_scan K s caller_uid userid l i).1 = false →
      i + l.length ∈ (locker_wl_scan K s caller_uid userid l i).2 := by
  intro l
  induction l with
  | nil => intro i _ _; simp [locker_wl_scan]
  | cons x rest ih =>
    intro i hmem hno
    cases x with
    | none => simp at hmem
    | some entry =>
      have hrest : none ∉ rest := by simpa using hmem
      by_cases h : locker_wl_match K s caller_uid userid entry = true
      · simp [locker_wl_scan, h] at hno
      · simp only [locker_wl_scan, h, Bool.false_eq_true, if_false] at hno ⊢
        have := ih (i + 1) hrest hno
        simp only [List.length_cons, List.mem_cons]
        right
        have he : i + (rest.length + 1) = i + 1 + rest.length := by omega
        rw [he]
        exact this

/-! ## Traces and failures -/

theorem alloc_hashtable_entry_trace (K : Kernel) (key : qstr) (value : Nat) (s s1 : State)
    (r : Option hashtable_entry) (h : alloc_hashtable_entry K key value s = (r, s1)) :
    ∃ mid, mid.all Event.is_memory = true ∧ s1.trace = s.trace ++ mid := by
  unfold alloc_hashtable_entry qstr_copy at h
  by_cases h1 : K.alloc_ok s.allocs = true <;> by_cases h2 : K.alloc_ok (s.allocs + 1) = true <;>
    simp [h1, h2] at h <;> obtain ⟨rfl, rfl⟩ := h
  · exact ⟨[Event.kmem_cache_alloc true, Event.kstrdup true], rfl, by simp⟩
  · exact ⟨[Event.kmem_cache_alloc true, Event.kstrdup false, Event.kmem_cache_free], rfl,
      by simp [h2]⟩
  · exact ⟨[Event.kmem_cache_alloc false], rfl, by simp [h1]⟩
  · exact ⟨[Event.kmem_cache_alloc false], rfl, by simp [h1]⟩

theorem insert_packagelist_appid_entry_locked_trace (K : Kernel) (key : qstr) (value : Nat)
    (s : State) :
    ∃ mid, mid.all Event.is_memory = true ∧
      (insert_packagelist_appid_entry_locked K key value s).2.trace = s.trace ++ mid ∧
      (insert_packagelist_appid_entry_locked K key value s).2.sdcardfs_super_list =
        s.sdcardfs_super_list := by
  unfold insert_packagelist_appid_entry_locked
  simp only [hash_possible]
  rcases hlist_set_first (fun e => qstr_case_eq K key e.key) value
      (s.package_to_appid (K.hash_min key.hash)) with _ | chain
  · rcases ha : alloc_hashtable_entry K key value s with ⟨r, s1⟩
    obtain ⟨mid, hm, ht⟩ := alloc_hashtable_entry_trace K key value s s1 r ha
    obtain ⟨-, -, -, -, h5, -⟩ := alloc_hashtable_entry_spec K key value s s1 r ha
    rcases r with _ | e <;> exact ⟨mid, hm, by simpa using ht, by simpa using h5⟩
  · exact ⟨[], rfl, by simp, rfl⟩

theorem insert_ext_gid_entry_locked_trace (K : Kernel) (key : qstr) (value : Nat) (s : State) :
    ∃ mid, mid.all Event.is_memory = true ∧
      (insert_ext_gid_entry_locked K key value s).2.trace = s.trace ++ mid := by
  unfold insert_ext_gid_entry_locked
  simp only [hash_possible]
  by_cases hf : (s.ext_to_groupid (K.hash_min key.hash)).any
      (fun e => qstr_case_eq K key e.key) = true
  · simp only [hf, if_true]
    exact ⟨[], by simp, by simp⟩
  · simp only [hf, Bool.false_eq_true, if_false]
    rcases ha : alloc_hashtable_entry K key value s with ⟨r, s1⟩
    obtain ⟨mid, hm, ht⟩ := alloc_hashtable_entry_trace K key value s s1 r ha
    rcases r with _ | e <;> exact ⟨mid, hm, by simpa using ht⟩

theorem insert_userid_exclude_entry_locked_trace (K : Kernel) (key : qstr) (value : Nat)
    (s : State) :
    ∃ mid, mid.all Event.is_memory = true ∧
      (insert_userid_exclude_entry_locked K key value s).2.trace = s.trace ++ mid ∧
      (insert_userid_exclude_entry_locked K key value s).2.sdcardfs_super_list =
        s.sdcardfs_super_list := by
  unfold insert_userid_exclude_entry_locked
  simp only [hash_possible]
  by_cases hf : (s.package_to_userid (K.hash_min key.hash)).any
      (fun e => e.value == value && qstr_case_eq K key e.key) = true
  · simp only [hf, if_true]
    exact ⟨[], by simp, by simp, trivial⟩
  · simp only [hf, Bool.false_eq_true, if_false]
    rcases ha : alloc_hashtable_entry K key value s with ⟨r, s1⟩
    obtain ⟨mid, hm, ht⟩ := alloc_hashtable_entry_trace K key value s s1 r ha
    obtain ⟨-, -, -, -, h5, -⟩ := alloc_hashtable_entry_spec K key value s s1 r ha
    rcases r with _ | e <;> exact ⟨mid, hm, by simpa using ht, by simpa using h5⟩

theorem insert_packagelist_entry_unfold (K : Kernel) (key : qstr) (value : Nat) (s : State) :
    (insert_packagelist_entry K key value s).1 =
      (insert_packagelist_appid_entry_locked K key value (mutex_lock s)).1 ∧
    (insert_packagelist_entry K key value s).2 =
      mutex_unlock
        (if (insert_packagelist_appid_entry_locked K key value (mutex_lock s)).1 = 0 then
          fixup_all_perms_name key
            (insert_packagelist_appid_entry_locked K key value (mutex_lock s)).2
        else (insert_packagelist_appid_entry_locked K key value (mutex_lock s)).2) := by
  rcases h : insert_packagelist_appid_entry_locked K key value (mutex_lock s) with ⟨err, s2⟩
  simp [insert_packagelist_entry, h]

theorem insert_userid_exclude_entry_unfold (K : Kernel) (key : qstr) (value : Nat) (s : State) :
    (insert_userid_exclude_entry K key value s).1 =
      (insert_userid_exclude_entry_locked K key value (mutex_lock s)).1 ∧
    (insert_userid_exclude_entry K key value s).2 =
      mutex_unlock
        (if (insert_userid_exclude_entry_locked K key value (mutex_lock s)).1 = 0 then
          fixup_all_perms_name_userid key value
            (insert_userid_exclude_entry_locked K key value (mutex_lock s)).2
        else (insert_userid_exclude_entry_locked K key value (mutex_lock s)).2) := by
  rcases h : insert_userid_exclude_entry_locked K key value (mutex_lock s) with ⟨err, s2⟩
  simp [insert_userid_exclude_entry, h]

theorem insert_ext_gid_entry_unfold (K : Kernel) (key : qstr) (value : Nat) (s : State) :
    (insert_ext_gid_entry K key value s).1 =
      (insert_ext_gid_entry_locked K key value (mutex_lock s)).1 ∧
    (insert_ext_gid_entry K key value s).2 =
      mutex_unlock (insert_ext_gid_entry_locked K key value (mutex_lock s)).2 := by
  rcases h : insert_ext_gid_entry_locked K key value (mutex_lock s) with ⟨err, s2⟩
  simp [insert_ext_gid_entry, h]

/-- A call of `insert_packagelist_entry` that returns an error returns -ENOMEM
after a refused allocation request and leaves the appid table as it was. -/
theorem insert_packagelist_entry_error (K : Kernel) (key : qstr) (value : Nat) (s : State)
    (herr : (insert_packagelist_entry K key value s).1 ≠ 0) :
    (insert_packagelist_entry K key value s).1 = -ENOMEM ∧
    (K.alloc_ok s.allocs = false ∨ K.alloc_ok (s.allocs + 1) = false) ∧
    (insert_packagelist_entry K key value s).2.package_to_appid = s.package_to_appid := by
  revert herr
  unfold insert_packagelist_entry insert_packagelist_appid_entry_locked
  simp only [hash_possible, mutex_lock]
  rcases hlist_set_first (fun e => qstr_case_eq K key e.key) value
      (s.package_to_appid (K.hash_min key.hash)) with _ | chain
  · rcases ha : alloc_hashtable_entry K key value
      { s with trace := s.trace ++ [Event.mutex_lock] } with ⟨r, s1⟩
    obtain ⟨h1, -, -, -, -, h6⟩ := alloc_hashtable_entry_spec K key value _ s1 r ha
    rcases h6 with rfl | ⟨rfl, h7⟩
    · simp
    · intro _
      have h0 : ¬ (ENOMEM = 0) := by simp [ENOMEM]
      simp only [h0, if_false, mutex_unlock]
      exact ⟨trivial, h7, h1⟩
  · simp

theorem dispatch_trace (scope : ScopeFilter) (s m : State) (mid : List Event)
    (ht : m.trace = s.trace ++ [Event.mutex_lock] ++ mid)
    (hs : m.sdcardfs_super_list = s.sdcardfs_super_list) :
    (mutex_unlock (fixup_all scope.limit m)).trace =
      s.trace ++ [Event.mutex_lock] ++ mid ++ fixup_dispatch s.sdcardfs_super_list scope ++
        [Event.mutex_unlock] := by
  simp [mutex_unlock, fixup_all, fixup_dispatch, ht, hs]

/-- What the walker calls of a dispatch are recorded with: the tables of the
state the dispatch starts from, which are also the tables after the unlock. -/
theorem dispatch_seen (scope : ScopeFilter) (s m : State)
    (hseen : m.fixup_seen = s.fixup_seen)
    (hs : m.sdcardfs_super_list = s.sdcardfs_super_list) :
    (mutex_unlock (fixup_all scope.limit m)).fixup_seen =
      s.fixup_seen ++ (fixup_dispatch s.sdcardfs_super_list scope).map (fun _ => m.view) ∧
    (mutex_unlock (fixup_all scope.limit m)).view = m.view := by
  constructor
  · simp [mutex_unlock, fixup_all, fixup_dispatch, hseen, hs, Function.comp_def]
  · rfl

theorem remove_userid_all_entry_locked_seen (userid : Nat) (s : State) :
    (remove_userid_all_entry_locked userid s).fixup_seen = s.fixup_seen := by
  simp only [remove_userid_all_entry_locked, reclaim]

theorem alloc_hashtable_entry_seen (K : Kernel) (key : qstr) (value : Nat) (s : State) :
    (alloc_hashtable_entry K key value s).2.fixup_seen = s.fixup_seen := by
  unfold alloc_hashtable_entry qstr_copy
  by_cases h1 : K.alloc_ok s.allocs = true <;> by_cases h2 : K.alloc_ok (s.allocs + 1) = true <;>
    simp [h1, h2]

theorem insert_packagelist_appid_entry_locked_seen (K : Kernel) (key : qstr) (value : Nat)
    (s : State) :
    (insert_packagelist_appid_entry_locked K key value s).2.fixup_seen = s.fixup_seen := by
  unfold insert_packagelist_appid_entry_locked
  simp only [hash_possible]
  rcases hlist_set_first (fun e => qstr_case_eq K key e.key) value
      (s.package_to_appid (K.hash_min key.hash)) with _ | chain
  · have hs := alloc_hashtable_entry_seen K key value s
    rcases ha : alloc_hashtable_entry K key value s with ⟨r, s1⟩
    rw [ha] at hs
    rcases r with _ | e <;> simpa using hs
  · rfl

theorem insert_userid_exclude_entry_locked_seen (K : Kernel) (key : qstr) (value : Nat)
    (s : State) :
    (insert_userid_exclude_entry_locked K key value s).2.fixup_seen = s.fixup_seen := by
  unfold insert_userid_exclude_entry_locked
  simp only [hash_possible]
  by_cases hf : (s.package_to_userid (K.hash_min key.hash)).any
      (fun e => e.value == value && qstr_case_eq K key e.key) = true
  · simp only [hf, if_true]
  · simp only [hf, Bool.false_eq_true, if_false]
    have hs := alloc_hashtable_entry_seen K key value s
    rcases ha : alloc_hashtable_entry K key value s with ⟨r, s1⟩
    rw [ha] at hs
    rcases r with _ | e <;> simpa using hs

theorem all_is_memory_frees (l : List hashtable_entry) :
    (Event.synchronize_rcu :: l.map Event.free_hashtable_entry).all Event.is_memory = true := by
  simp [Event.is_memory]

theorem hlist_del_first_is_memory (p : hashtable_entry → Bool) (chain : List hashtable_entry) :
    (hlist_del_first p chain).2.all Event.is_memory = true := by
  unfold hlist_del_first
  rcases chain.find? p with _ | e <;> simp [Event.is_memory]

theorem remove_packagelist_entry_locked_trace (K : Kernel) (key : qstr) (s : State) :
    ∃ mid, mid.all Event.is_memory = true ∧
      (remove_packagelist_entry_locked K key s).trace = s.trace ++ mid ∧
      (remove_packagelist_entry_locked K key s).sdcardfs_super_list = s.sdcardfs_super_list :=
  ⟨_, all_is_memory_frees _, rfl, rfl⟩

theorem remove_userid_all_entry_locked_trace (userid : Nat) (s : State) :
    ∃ mid, mid.all Event.is_memory = true ∧
      (remove_userid_all_entry_locked userid s).trace = s.trace ++ mid ∧
      (remove_userid_all_entry_locked userid s).sdcardfs_super_list = s.sdcardfs_super_list := by
  refine ⟨Event.synchronize_rcu ::
      ((List.finRange HASH_SIZE).foldl (remove_userid_all_bucket userid)
        (s.package_to_userid, [])).2.map Event.free_hashtable_entry,
    all_is_memory_frees _, ?_, ?_⟩ <;>
    simp only [remove_userid_all_entry_locked, reclaim]

theorem remove_userid_exclude_entry_locked_trace (K : Kernel) (key : qstr) (userid : Nat)
    (s : State) :
    ∃ mid, mid.all Event.is_memory = true ∧
      (remove_userid_exclude_entry_locked K key userid s).trace = s.trace ++ mid ∧
      (remove_userid_exclude_entry_locked K key userid s).sdcardfs_super_list =
        s.sdcardfs_super_list :=
  ⟨_, hlist_del_first_is_memory _ _, rfl, rfl⟩

theorem remove_ext_gid_entry_locked_trace (K : Kernel) (key : qstr) (group : Nat) (s : State) :
    ∃ mid, mid.all Event.is_memory = true ∧
      (remove_ext_gid_entry_locked K key group s).trace = s.trace ++ mid :=
  ⟨_, hlist_del_first_is_memory _ _, rfl⟩

theorem no_fixup_between (t0 t mid : List Event) (hm : mid.all Event.is_memory = true)
    (ht : t = t0 ++ [Event.mutex_lock] ++ mid ++ [Event.mutex_unlock]) :
    ∀ ev ∈ t.drop t0.length, ev.is_fixup = false := by
  intro ev hev
  rw [ht, List.append_assoc, List.append_assoc, List.drop_left] at hev
  rcases List.mem_append.1 hev with h | h
  · rw [List.mem_singleton.1 h]; rfl
  · rcases List.mem_append.1 h with h | h
    · have := List.all_eq_true.1 hm ev h
      cases ev <;> simp [Event.is_memory] at this <;> rfl
    · rw [List.mem_singleton.1 h]; rfl

/-! ## Removal frame lemmas -/

theorem find_eraseP_of_disjoint (p q : hashtable_entry → Bool)
    (h : ∀ x, p x = true → q x = false) :
    ∀ l : List hashtable_entry, (l.eraseP p).find? q = l.find? q := by
  intro l
  induction l with
  | nil => rfl
  | cons a l ih =>
    by_cases hpa : p a = true
    · rw [List.eraseP_cons_of_pos hpa]
      simp [List.find?, h a hpa]
    · rw [List.eraseP_cons_of_neg hpa]
      simp only [List.find?_cons, ih]

theorem any_filter_of_disjoint (p q : hashtable_entry → Bool)
    (h : ∀ x, p x = true → q x = false) (l : List hashtable_entry) :
    (l.filter (fun e => !p e)).any q = l.any q := by
  rw [List.any_filter]
  congr 1
  funext x
  by_cases hp : p x = true
  · simp [hp, h x hp]
  · simp [hp]

/-! ## The listing written by packages_list_show -/

theorem sizeof_errormsg_eq : sizeof_errormsg = 13 := by decide

theorem errormsg_length : errormsg.length = 12 := by decide

theorem store_bytes (page : Page) (o : Nat) (data : List Nat)
    (h : o + data.length ≤ page.bytes.length) :
    (page.store (o : Int) data).bytes =
      page.bytes.take o ++ data ++ page.bytes.drop (o + data.length) := by
  have hc : 0 ≤ (o : Int) ∧ (o : Int) + (data.length : Int) ≤ (page.bytes.length : Int) :=
    ⟨by omega, by omega⟩
  simp only [Page.store, hc, and_self, if_true, Int.toNat_ofNat]

theorem store_length (page : Page) (o : Nat) (data : List Nat)
    (h : o + data.length ≤ page.bytes.length) :
    (page.store (o : Int) data).bytes.length = page.bytes.length := by
  rw [store_bytes page o data h]
  simp only [List.length_append, List.length_take, List.length_drop]
  omega

theorem store_take_le (page : Page) (o k : Nat) (data : List Nat)
    (h : o + data.length ≤ page.bytes.length) (hk : k ≤ o) :
    (page.store (o : Int) data).bytes.take k = page.bytes.take k := by
  rw [store_bytes page o data h, List.append_assoc, List.take_append_of_le_length]
  · rw [List.take_take]
    congr 1
    omega
  · rw [List.length_take]
    omega

theorem store_take_add (page : Page) (o k : Nat) (data : List Nat)
    (h : o + data.length ≤ page.bytes.length) (hk : k ≤ data.length) :
    (page.store (o : Int) data).bytes.take (o + k) = page.bytes.take o ++ data.take k := by
  rw [store_bytes page o data h, List.append_assoc]
  have hl : (page.bytes.take o).length = o := by
    rw [List.length_take]; omega
  rw [List.take_append_eq_append_take, hl, List.take_of_length_le (by omega)]
  congr 1
  rw [List.take_append_of_le_length (by omega)]
  congr 1
  omega

theorem store_inside (V : Vsprintf) (page : Page) (o : Nat) (data : List Nat)
    (hin : Page.inside V page) (h : o + data.length ≤ V.PAGE_SIZE) :
    Page.inside V (page.store (o : Int) data) := by
  intro st hst
  simp only [Page.store, List.mem_append, List.mem_singleton] at hst
  rcases hst with hst | rfl
  · exact hin st hst
  · exact ⟨by simp, by simp only; omega⟩

theorem scnprintf_eq (page : Page) (off : Int) (sz : Nat) (text : List Nat)
    (h1 : 1 ≤ sz) (h2 : sz ≤ 2147483647) :
    scnprintf page off (sz : Int) text =
      (page.store off (text.take (min text.length (sz - 1)) ++ [0]),
        ((min text.length (sz - 1) : Nat) : Int)) := by
  have hc : ¬ ((sz : Int) ≤ 0 ∨ INT_MAX < (sz : Int)) := by
    simp only [INT_MAX]; omega
  simp only [scnprintf, hc, if_false, Int.toNat_ofNat]

/-- The first `scnprintf` of a package establishes the state of the inner
walk. -/
theorem list_show_first (V : Vsprintf) (c R : Nat) (acc body : List Nat) (page : Page)
    (hB : c + R + 1 + 13 = V.PAGE_SIZE) (hR : 1 ≤ R) (hP : V.PAGE_SIZE ≤ 2147483647)
    (hacc : acc.length = c) (hlen : page.bytes.length = V.PAGE_SIZE)
    (htake : page.bytes.take c = acc) (hin : Page.inside V page) :
    list_show_inv V c R acc body
      (scnprintf page (c : Int) ((V.PAGE_SIZE : Int) - sizeof_errormsg - (c : Int))
        (body ++ [10])) := by
  have hsz : (V.PAGE_SIZE : Int) - sizeof_errormsg - (c : Int) = ((R + 1 : Nat) : Int) := by
    rw [sizeof_errormsg_eq]; omega
  rw [hsz, scnprintf_eq page c (R + 1) (body ++ [10]) (by omega) (by omega)]
  have hn : min (body ++ [10]).length (R + 1 - 1) = min (body.length + 1) R := by simp
  rw [hn]
  have hdl : (List.take (min (body.length + 1) R) (body ++ [10]) ++ [0]).length =
      min (body.length + 1) R + 1 := by
    simp only [List.length_append, List.length_take, List.length_singleton]
    omega
  have hfit : c + (List.take (min (body.length + 1) R) (body ++ [10]) ++ [0]).length ≤
      page.bytes.length := by
    rw [hdl, hlen]; omega
  refine ⟨?_, ?_, ?_, rfl, ?_⟩
  · rw [store_length page c _ hfit, hlen]
  · rw [store_take_le page c c _ hfit (le_refl c), htake]
  · exact store_inside V page c _ hin (by rw [hdl]; omega)
  · intro hle
    have hmin : min (body.length + 1) R = body.length + 1 := by omega
    rw [store_take_add page c (body.length + 1) _ hfit (by rw [hdl]; omega), htake, hmin]
    have ht : List.take (body.length + 1) (List.take (body.length + 1) (body ++ [10]) ++ [0]) =
        body ++ [10] := by
      rw [List.take_of_length_le (l := body ++ [10]) (by simp),
        List.take_append_of_le_length (by simp), List.take_of_length_le (by simp)]
    rw [ht, List.append_assoc]

/-- One matching exclusion entry extends the line composed so far. -/
theorem list_show_user_step (K : Kernel) (V : Vsprintf) (c R : Nat) (acc body : List Nat)
    (app u : hashtable_entry) (pw : Page × Int)
    (hB : c + R + 1 + 13 = V.PAGE_SIZE) (hR : 1 ≤ R) (hP : V.PAGE_SIZE ≤ 2147483647)
    (hacc : acc.length = c) (hinv : list_show_inv V c R acc body pw) :
    list_show_inv V c R acc
      (if qstr_case_eq K app.key u.key then body ++ 32 :: V.fmt_d u.value else body)
      (packages_list_show_user K V (c : Int) app pw u) := by
  unfold packages_list_show_user
  by_cases hm : qstr_case_eq K app.key u.key = true
  swap
  · simp only [hm, Bool.false_eq_true, if_false]
    exact hinv
  simp only [hm, if_true]
  obtain ⟨hlen, htake, hin, hw, hcont⟩ := hinv
  -- the numbers of the call
  generalize hwd : min (body.length + 1) R = w at hw
  have hw1 : 1 ≤ w := by omega
  have hwR : w ≤ R := by omega
  have hoff : (c : Int) + pw.2 - 1 = ((c + w - 1 : Nat) : Int) := by rw [hw]; omega
  have hsz : (V.PAGE_SIZE : Int) - sizeof_errormsg - (c : Int) - pw.2 + 1 =
      ((R - w + 2 : Nat) : Int) := by
    rw [sizeof_errormsg_eq, hw]; omega
  rw [hoff, hsz, scnprintf_eq pw.1 _ (R - w + 2) _ (by omega) (by omega)]
  have htl : ([32] ++ V.fmt_d u.value ++ [10]).length = (V.fmt_d u.value).length + 2 := by
    simp only [List.length_append, List.length_cons, List.length_singleton, List.length_nil]
    omega
  generalize htx : [32] ++ V.fmt_d u.value ++ [10] = T at htl
  generalize hnd : min T.length (R - w + 2 - 1) = n
  have hn1 : 1 ≤ n := by omega
  have hnT : n ≤ T.length := by omega
  have hnR : n ≤ R - w + 1 := by omega
  have hdl : (List.take n T ++ [0]).length = n + 1 := by
    simp only [List.length_append, List.length_take, List.length_singleton]
    omega
  have hfit : (c + w - 1) + (List.take n T ++ [0]).length ≤ pw.1.bytes.length := by
    rw [hdl, hlen]; omega
  refine ⟨?_, ?_, ?_, ?_, ?_⟩
  · rw [store_length pw.1 _ _ hfit, hlen]
  · rw [store_take_le pw.1 _ c _ hfit (by omega), htake]
  · exact store_inside V pw.1 _ _ hin (by rw [hdl]; omega)
  · simp only [List.length_append, List.length_cons]
    rw [hw]
    omega
  · intro hle
    simp only [List.length_append, List.length_cons] at hle
    have hbl : body.length + 1 ≤ R := by omega
    have hwb : w = body.length + 1 := by omega
    have hnT2 : n = T.length := by omega
    have hold := hcont hbl
    have hpos : c + ((body ++ 32 :: V.fmt_d u.value).length + 1) = (c + w - 1) + T.length := by
      simp only [List.length_append, List.length_cons]
      omega
    rw [hpos, store_take_add pw.1 (c + w - 1) T.length _ hfit (by rw [hdl]; omega)]
    have h1 : List.take T.length (List.take n T ++ [0]) = T := by
      rw [hnT2, List.take_of_length_le (le_refl _), List.take_append_of_le_length (le_refl _),
        List.take_of_length_le (le_refl _)]
    have h2 : pw.1.bytes.take (c + w - 1) = acc ++ body := by
      have : pw.1.bytes.take (c + w - 1) =
          (pw.1.bytes.take (c + (body.length + 1))).take (c + w - 1) := by
        rw [List.take_take]
        congr 1
        omega
      rw [this, hold, List.append_assoc, ← List.append_assoc acc body [10],
        List.take_append_of_le_length (by simp; omega),
        List.take_of_length_le (by simp; omega)]
    rw [h1, h2, ← htx]
    simp

/-- The inner walk over an exclusion bucket. -/
theorem list_show_users_fold (K : Kernel) (V : Vsprintf) (c R : Nat) (acc : List Nat)
    (app : hashtable_entry)
    (hB : c + R + 1 + 13 = V.PAGE_SIZE) (hR : 1 ≤ R) (hP : V.PAGE_SIZE ≤ 2147483647)
    (hacc : acc.length = c) :
    ∀ (bucket : List hashtable_entry) (body : List Nat) (pw : Page × Int),
      list_show_inv V c R acc body pw →
      list_show_inv V c R acc
        (body ++ (bucket.filter (fun u => qstr_case_eq K app.key u.key)).flatMap
          (fun u => 32 :: V.fmt_d u.value))
        (bucket.foldl (packages_list_show_user K V (c : Int) app) pw) := by
  intro bucket
  induction bucket with
  | nil => intro body pw h; simpa using h
  | cons u us ih =>
    intro body pw h
    have hstep := list_show_user_step K V c R acc body app u pw hB hR hP hacc h
    have := ih _ _ hstep
    rw [List.foldl_cons]
    by_cases hm : qstr_case_eq K app.key u.key = true
    · simp only [hm, if_true, List.append_assoc] at this
      simpa [List.filter_cons, hm, List.flatMap_cons] using this
    · simp only [hm, Bool.false_eq_true, if_false] at this
      simpa [List.filter_cons, hm] using this

/-- The walk of `packages_list_show` returns the listing `list_show_spec`: the
returned count is its length, the page starts with it, and every store lies
inside the page. -/
theorem list_show_loop_spec (K : Kernel) (V : Vsprintf) (s : State)
    (hP : V.PAGE_SIZE ≤ 2147483647) :
    ∀ (entries : List hashtable_entry) (page : Page) (acc : List Nat),
      page.bytes.length = V.PAGE_SIZE → page.bytes.take acc.length = acc →
      Page.inside V page → acc.length + 2 + 13 ≤ V.PAGE_SIZE →
      (packages_list_show_loop K V s entries page (acc.length : Int)).2 =
        ((list_show_spec (V.PAGE_SIZE - 13) (entries.map (list_line K V s)) acc).length : Int) ∧
      (packages_list_show_loop K V s entries page (acc.length : Int)).1.bytes.take
          (list_show_spec (V.PAGE_SIZE - 13) (entries.map (list_line K V s)) acc).length =
        list_show_spec (V.PAGE_SIZE - 13) (entries.map (list_line K V s)) acc ∧
      Page.inside V (packages_list_show_loop K V s entries page (acc.length : Int)).1 ∧
      (packages_list_show_loop K V s entries page (acc.length : Int)).1.bytes.length =
        V.PAGE_SIZE := by
  intro entries
  induction entries with
  | nil =>
    intro page acc hlen htake hin _
    exact ⟨rfl, htake, hin, hlen⟩
  | cons e rest ih =>
    intro page acc hlen htake hin hroom
    obtain ⟨R, hR⟩ : ∃ R, acc.length + R + 1 + 13 = V.PAGE_SIZE :=
      ⟨V.PAGE_SIZE - 13 - 1 - acc.length, by omega⟩
    have hR1 : 1 ≤ R := by omega
    have hfirst := list_show_first V acc.length R acc
      (e.key.name ++ [32] ++ V.fmt_d e.value) page hR hR1 hP rfl hlen htake hin
    have hfold := list_show_users_fold K V acc.length R acc e hR hR1 hP rfl
      (hash_possible K s.package_to_userid e.key.hash) _ _ hfirst
    have hline : e.key.name ++ [32] ++ V.fmt_d e.value ++
        ((hash_possible K s.package_to_userid e.key.hash).filter
          (fun u => qstr_case_eq K e.key u.key)).flatMap (fun u => 32 :: V.fmt_d u.value) ++ [10]
        = list_line K V s e := rfl
    unfold packages_list_show_loop
    simp only [List.map_cons]
    generalize hr : (hash_possible K s.package_to_userid e.key.hash).foldl
      (packages_list_show_user K V (acc.length : Int) e)
      (scnprintf page (acc.length : Int)
        ((V.PAGE_SIZE : Int) - sizeof_errormsg - (acc.length : Int))
        (e.key.name ++ [32] ++ V.fmt_d e.value ++ [10])) = r at hfold
    generalize hbd : e.key.name ++ [32] ++ V.fmt_d e.value ++
        ((hash_possible K s.package_to_userid e.key.hash).filter
          (fun u => qstr_case_eq K e.key u.key)).flatMap (fun u => 32 :: V.fmt_d u.value)
        = body at hfold hline
    obtain ⟨hlen2, htake2, hin2, hw, hcont⟩ := hfold
    have hL : (list_line K V s e).length = body.length + 1 := by
      rw [← hline]; simp
    unfold list_show_spec
    by_cases hfit : acc.length + (list_line K V s e).length + 2 ≤ V.PAGE_SIZE - 13
    · -- the line is kept
      have hlt : body.length + 1 ≤ R := by omega
      have hmin : min (body.length + 1) R = body.length + 1 := by omega
      have hcond : ¬ ((acc.length : Int) + r.2 =
          (V.PAGE_SIZE : Int) - (sizeof_errormsg : Int) - 1) := by
        rw [hw, sizeof_errormsg_eq, hmin]; omega
      simp only [hcond, if_false, hfit, if_true]
      have hcount : (acc.length : Int) + r.2 = (((acc ++ list_line K V s e).length : Nat) : Int) := by
        rw [hw, hmin, List.length_append, hL]; omega
      rw [hcount]
      apply ih r.1 (acc ++ list_line K V s e) hlen2
      · rw [List.length_append, hL, hcont hlt, ← hline, List.append_assoc]
      · exact hin2
      · rw [List.length_append, hL]; omega
    · -- the line is replaced by the marker
      have hge : R ≤ body.length + 1 := by omega
      have hmin : min (body.length + 1) R = R := by omega
      have hcond : (acc.length : Int) + r.2 =
          (V.PAGE_SIZE : Int) - (sizeof_errormsg : Int) - 1 := by
        rw [hw, sizeof_errormsg_eq, hmin]; omega
      simp only [hcond, if_true, hfit, if_false]
      have hsz : (V.PAGE_SIZE : Int) - (acc.length : Int) =
          ((V.PAGE_SIZE - acc.length : Nat) : Int) := by omega
      rw [hsz, scnprintf_eq r.1 _ (V.PAGE_SIZE - acc.length) errormsg (by omega) (by omega)]
      have hn : min errormsg.length (V.PAGE_SIZE - acc.length - 1) = 12 := by
        rw [errormsg_length]; omega
      rw [hn]
      have ht12 : List.take 12 errormsg = errormsg :=
        List.take_of_length_le (by rw [errormsg_length])
      rw [ht12]
      have hdl : (errormsg ++ [0]).length = 13 := by simp [errormsg_length]
      have hfit2 : acc.length + (errormsg ++ [0]).length ≤ r.1.bytes.length := by
        rw [hdl, hlen2]; omega
      refine ⟨?_, ?_, ?_, ?_⟩
      · simp only [List.length_append, errormsg_length]
        omega
      · have : (acc ++ errormsg).length = acc.length + 12 := by
          simp [errormsg_length]
        have ht : List.take 12 (errormsg ++ [0]) = errormsg := by decide
        rw [this, store_take_add r.1 acc.length 12 _ hfit2 (by rw [hdl]; omega), htake2, ht]
      · exact store_inside V r.1 _ _ hin2 (by rw [hdl]; omega)
      · rw [store_length r.1 _ _ hfit2, hlen2]

theorem list_show_spec_length_le (B : Nat) :
    ∀ (lines : List (List Nat)) (acc : List Nat), acc.length + 2 ≤ B →
      (list_show_spec B lines acc).length ≤ B + 10 := by
  intro lines
  induction lines with
  | nil => intro acc h; simp only [list_show_spec]; omega
  | cons line rest ih =>
    intro acc h
    unfold list_show_spec
    by_cases hfit : acc.length + line.length + 2 ≤ B
    · simp only [hfit, if_true]
      exact ih _ (by rw [List.length_append]; omega)
    · simp only [hfit, if_false, List.length_append, errormsg_length]
      omega

/-- The listing when every line is kept. -/
theorem list_show_spec_all (B : Nat) :
    ∀ (lines : List (List Nat)) (acc : List Nat),
      acc.length + (lines.flatMap id).length + 2 ≤ B →
      list_show_spec B lines acc = acc ++ lines.flatMap id := by
  intro lines
  induction lines with
  | nil => intro acc _; simp [list_show_spec]
  | cons line rest ih =>
    intro acc h
    simp only [List.flatMap_cons, id, List.length_append] at h
    have hfit : acc.length + line.length + 2 ≤ B := by omega
    show (if acc.length + line.length + 2 ≤ B then list_show_spec B rest (acc ++ line)
      else acc ++ errormsg) = _
    rw [if_pos hfit]
    exact (ih _ (by rw [List.length_append]; omega)).trans
      (by simp only [List.flatMap_cons, id, List.append_assoc])

/-- The listing when the lines of `pre` are kept and the next line is not. -/
theorem list_show_spec_cut (B : Nat) (line : List Nat) (post : List (List Nat)) :
    ∀ (pre : List (List Nat)) (acc : List Nat),
      acc.length + (pre.flatMap id).length + 2 ≤ B →
      B < acc.length + (pre.flatMap id).length + line.length + 2 →
      list_show_spec B (pre ++ line :: post) acc = acc ++ pre.flatMap id ++ errormsg := by
  intro pre
  induction pre with
  | nil =>
    intro acc _ h2
    have hfit : ¬ (acc.length + line.length + 2 ≤ B) := by
      simp only [List.flatMap_nil, List.length_nil] at h2; omega
    simp [list_show_spec, hfit]
  | cons x pre ih =>
    intro acc h1 h2
    simp only [List.flatMap_cons, id, List.length_append] at h1 h2
    have hfit : acc.length + x.length + 2 ≤ B := by omega
    show (if acc.length + x.length + 2 ≤ B then
        list_show_spec B (pre ++ line :: post) (acc ++ x)
      else acc ++ errormsg) = _
    rw [if_pos hfit]
    exact (ih _ (by rw [List.length_append]; omega) (by rw [List.length_append]; omega)).trans
      (by simp only [List.flatMap_cons, id, List.append_assoc])

theorem list_lines_eq (K : Kernel) (V : Vsprintf) (s : State) (l : List hashtable_entry) :
    (l.map (list_line K V s)).flatMap id = list_lines K V s l := by
  induction l with
  | nil => rfl
  | cons e l ih => simp [list_lines, List.flatMap_cons] at ih ⊢; exact ih

/-- A sequence of registrations keeps the state reachable. -/
theorem reachable_foldl_insert (K : Kernel) (value : Nat) :
    ∀ (names : List (List Nat)) (s : State), Reachable K s →
      Reachable K (names.foldl
        (fun st name => (insert_packagelist_entry K (qstr_init K name) value st).2) s) := by
  intro names
  induction names with
  | nil => intro s h; exact h
  | cons name rest ih =>
    intro s h
    exact ih _ (Reachable.insert_packagelist_entry s name value h)

/-- A list split at one of its positions. -/
theorem list_split_at (l : List hashtable_entry) (n : Nat) (h : n < l.length) :
    l = l.take n ++ l.get ⟨n, h⟩ :: l.drop (n + 1) :=
  (List.take_append_drop n l).symm.trans
    (congrArg (fun t => l.take n ++ t) (List.drop_eq_getElem_cons h))

set_option maxRecDepth 1000000 in
/-- The store `list_show_store` holds 27 packages. -/
theorem list_show_store_entries_length :
    (hash_entries list_show_store.package_to_appid).length = 27 := by
  decide!

/-! ## Claims -/

/-- C1: after `insert_packagelist_entry` of (n, v) returns 0, `get_appid` of every
name equal to n up to case (same length, bytes equal after tolower) is v. -/
theorem get_appid_after_insert (K : Kernel) (s : State) (n n1 : List Nat) (v : Nat)
    (hok : (insert_packagelist_entry K (qstr_init K n) v s).1 = 0)
    (heq : qstr_case_eq K (qstr_init K n1) (qstr_init K n) = true) :
    get_appid K (insert_packagelist_entry K (qstr_init K n) v s).2 n1 = v := by
  have hh := qstr_init_hash_eq K n1 n heq
  have hp : (fun e : hashtable_entry => qstr_case_eq K (qstr_init K n1) e.key) =
      (fun e : hashtable_entry => qstr_case_eq K (qstr_init K n) e.key) :=
    funext fun e => qstr_case_eq_congr K n1 n heq e.key
  unfold get_appid __get_appid hash_possible
  rw [hh, hp]
  rcases insert_packagelist_entry_table K (qstr_init K n) v s with
    ⟨chain, hc, -, ht, -⟩ | ⟨-, -, ht⟩ | ⟨-, he, -⟩
  · obtain ⟨e, he, hv⟩ := hlist_set_first_find
      (fun e : hashtable_entry => qstr_case_eq K (qstr_init K n) e.key) v (fun _ _ => rfl) _ chain hc
    rw [ht, Function.update_same, he]
    exact hv
  · rw [ht, Function.update_same]
    simp [List.find?, qstr_case_eq_refl]
  · rw [he] at hok
    simp [ENOMEM] at hok

/-- Registering "Foo" with 10001 in the empty store succeeds, and looking up
"fOo" returns 10001. -/
theorem get_appid_after_insert_witness :
    (insert_packagelist_entry sample (qstr_init sample (cstr "Foo")) 10001 (State.init [])).1 = 0 ∧
    qstr_case_eq sample (qstr_init sample (cstr "fOo")) (qstr_init sample (cstr "Foo")) = true ∧
    get_appid sample
      (insert_packagelist_entry sample (qstr_init sample (cstr "Foo")) 10001 (State.init [])).2
      (cstr "fOo") = 10001 :=
  ⟨by decide, by decide,
    get_appid_after_insert sample (State.init []) (cstr "Foo") (cstr "fOo") 10001
      (by decide) (by decide)⟩

/-- C2: under a parent directory of the root permission class, a name that
equals "autorun.inf", ".android_secure" or "android_secure" up to case is
denied (0) for every caller uid (also 0), every mode, every store state and
every answer of the allow-list and policy layers. -/
theorem check_denies_sensitive_names_at_root (K : Kernel) (s : State) (caller_uid mode : Nat)
    (parent_node : inode) (name : qstr)
    (hroot : parent_node.data.perm = K.PERM_ROOT)
    (hname : qstr_case_eq K name (QSTR_LITERAL (cstr "autorun.inf")) = true ∨
      qstr_case_eq K name (QSTR_LITERAL (cstr ".android_secure")) = true ∨
      qstr_case_eq K name (QSTR_LITERAL (cstr "android_secure")) = true) :
    check_caller_access_to_name K s caller_uid (some parent_node) name mode = 0 := by
  have hg : sensitive_name_guard K (some parent_node) name = true := by
    simp only [sensitive_name_guard, hroot, beq_self_eq_true, Bool.true_and, Bool.or_eq_true]
    tauto
  simp [check_caller_access_to_name, hg]

/-- With uid 0, root-class parent and the name "AutoRun.INF" the check denies. -/
theorem check_denies_sensitive_names_at_root_witness :
    (inode.mk ⟨2, 0, false⟩ 0).data.perm = sample.PERM_ROOT ∧
    check_caller_access_to_name sample (State.init []) 0 (some (inode.mk ⟨2, 0, false⟩ 0))
      (QSTR_LITERAL (cstr "AutoRun.INF")) 0 = 0 :=
  ⟨by decide,
    check_denies_sensitive_names_at_root sample (State.init []) 0 0 (inode.mk ⟨2, 0, false⟩ 0)
      (QSTR_LITERAL (cstr "AutoRun.INF")) (by decide) (Or.inl (by decide))⟩

/-- C3: when the sensitive-name guard does not fire (the parent is NULL, or is
not of the root permission class, or the name is none of the three blocked
names), the check allows (1) the caller uid 0, whatever the allow-list and the
policy layers would answer. -/
theorem check_allows_root_caller (K : Kernel) (s : State) (mode : Nat)
    (parent_node : Option inode) (name : qstr)
    (hguard : parent_node = none ∨
      (∃ p, parent_node = some p ∧ p.data.perm ≠ K.PERM_ROOT) ∨
      (qstr_case_eq K name (QSTR_LITERAL (cstr "autorun.inf")) = false ∧
        qstr_case_eq K name (QSTR_LITERAL (cstr ".android_secure")) = false ∧
        qstr_case_eq K name (QSTR_LITERAL (cstr "android_secure")) = false)) :
    check_caller_access_to_name K s 0 parent_node name mode = 1 := by
  have hg : sensitive_name_guard K parent_node name = false := by
    rcases hguard with rfl | ⟨p, rfl, hp⟩ | ⟨h1, h2, h3⟩
    · rfl
    · simp [sensitive_name_guard, hp]
    · cases parent_node <;> simp [sensitive_name_guard, h1, h2, h3]
  simp [check_caller_access_to_name, hg]

/-- The name "autorun.inf" under a directory that is not of the root class is
allowed for uid 0. -/
theorem check_allows_root_caller_witness :
    (inode.mk ⟨3, 0, true⟩ 0).data.perm ≠ sample.PERM_ROOT ∧
    check_caller_access_to_name sample (State.init []) 0 (some (inode.mk ⟨3, 0, true⟩ 0))
      (QSTR_LITERAL (cstr "autorun.inf")) 2 = 1 :=
  ⟨by decide,
    check_allows_root_caller sample (State.init []) 2 (some (inode.mk ⟨3, 0, true⟩ 0))
      (QSTR_LITERAL (cstr "autorun.inf")) (Or.inr (Or.inl ⟨_, rfl, by decide⟩))⟩

/-- C5: in a reachable state whose extension table holds an entry x with a key
equal to e up to case, `insert_ext_gid_entry` of (e, g) returns -EINVAL for
every g, leaves the three tables as they were, and `get_ext_gid` of e (and of
every name equal to e up to case) still returns the value of x. -/
theorem insert_ext_gid_entry_rejects_mapped (K : Kernel) (s : State) (e : List Nat) (g : Nat)
    (x : hashtable_entry) (i : Fin HASH_SIZE) (hr : Reachable K s)
    (hx : x ∈ s.ext_to_groupid i) (hk : qstr_case_eq K (qstr_init K e) x.key = true) :
    (insert_ext_gid_entry K (qstr_init K e) g s).1 = -EINVAL ∧
    (insert_ext_gid_entry K (qstr_init K e) g s).2.ext_to_groupid = s.ext_to_groupid ∧
    (insert_ext_gid_entry K (qstr_init K e) g s).2.package_to_appid = s.package_to_appid ∧
    (insert_ext_gid_entry K (qstr_init K e) g s).2.package_to_userid = s.package_to_userid ∧
    (∀ e1, qstr_case_eq K (qstr_init K e1) (qstr_init K e) = true →
      get_ext_gid K (insert_ext_gid_entry K (qstr_init K e) g s).2 e1 = x.value ∧
      get_ext_gid K s e1 = x.value) := by
  have hinv := reachable_store_inv K s hr
  have hi := bucket_of_case_eq K _ hinv.ext_wf x i hx e hk
  subst hi
  have hany : (s.ext_to_groupid (K.hash_min (qstr_init K e).hash)).any
      (fun y => qstr_case_eq K (qstr_init K e) y.key) = true :=
    List.any_eq_true.2 ⟨x, hx, hk⟩
  obtain ⟨ha, hu, hcases⟩ := insert_ext_gid_entry_effect K (qstr_init K e) g s
  rcases hcases with ⟨-, herr, ht, -⟩ | ⟨hn, -, -⟩ | ⟨hn, -, -, -⟩
  · refine ⟨herr, ht, ha, hu, ?_⟩
    intro e1 he1
    have hk1 : qstr_case_eq K (qstr_init K e1) x.key = true := by
      rw [qstr_case_eq_congr K e1 e he1]; exact hk
    have hinv2 := reachable_store_inv K _ (Reachable.insert_ext_gid_entry s e g hr)
    exact ⟨get_ext_gid_of_mem K _ hinv2 x _ (by rw [ht]; exact hx) e1 hk1,
      get_ext_gid_of_mem K s hinv x _ hx e1 hk1⟩
  · rw [hany] at hn; exact Bool.noConfusion hn
  · rw [hany] at hn; exact Bool.noConfusion hn

/-- After "png" is registered with group 1003, registering "PNG" with 1004 is
rejected and "png" still maps to 1003. -/
theorem insert_ext_gid_entry_rejects_mapped_witness :
    (insert_ext_gid_entry sample (qstr_init sample (cstr "PNG")) 1004
      (insert_ext_gid_entry sample (qstr_init sample (cstr "png")) 1003 (State.init [])).2).1
        = -EINVAL ∧
    get_ext_gid sample (insert_ext_gid_entry sample (qstr_init sample (cstr "PNG")) 1004
      (insert_ext_gid_entry sample (qstr_init sample (cstr "png")) 1003 (State.init [])).2).2
        (cstr "png") = 1003 :=
  have h := insert_ext_gid_entry_rejects_mapped sample
    (insert_ext_gid_entry sample (qstr_init sample (cstr "png")) 1003 (State.init [])).2
    (cstr "PNG") 1004 { key := qstr_init sample (cstr "png"), value := 1003 }
    (sample.hash_min (qstr_init sample (cstr "png")).hash)
    (Reachable.insert_ext_gid_entry _ _ _ (Reachable.init []))
    (by decide) (by decide)
  ⟨h.1, (h.2.2.2.2 (cstr "png") (by decide)).1⟩

/-- C6: in a reachable state whose appid table holds an entry x with a key
equal to n up to case, `insert_packagelist_entry` of (n, v) returns 0 without
any allocation request (the only external calls are the lock, the fixup walks
and the unlock), and the appid table differs from the old one in the value of
x alone: x keeps its key and its place in its chain, every chain keeps its
length, and the other two tables are unchanged. -/
theorem insert_packagelist_entry_updates_in_place (K : Kernel) (s : State) (n : List Nat)
    (v : Nat) (x : hashtable_entry) (i : Fin HASH_SIZE) (hr : Reachable K s)
    (hx : x ∈ s.package_to_appid i) (hk : qstr_case_eq K (qstr_init K n) x.key = true) :
    (insert_packagelist_entry K (qstr_init K n) v s).1 = 0 ∧
    (insert_packagelist_entry K (qstr_init K n) v s).2.allocs = s.allocs ∧
    (insert_packagelist_entry K (qstr_init K n) v s).2.trace =
      s.trace ++ [Event.mutex_lock] ++
        (s.sdcardfs_super_list.filter (fun sbinfo => sbinfo.has_sdcard_magic)).map
          (fun sbinfo => Event.fixup_perms_recursive sbinfo.s_root
            { flags := BY_NAME, name := n, length := n.length, userid := 0 }) ++
        [Event.mutex_unlock] ∧
    (∃ pre post, s.package_to_appid i = pre ++ x :: post ∧
      (insert_packagelist_entry K (qstr_init K n) v s).2.package_to_appid =
        Function.update s.package_to_appid i (pre ++ { key := x.key, value := v } :: post)) ∧
    (∀ j, ((insert_packagelist_entry K (qstr_init K n) v s).2.package_to_appid j).length =
      (s.package_to_appid j).length) ∧
    (hash_entries (insert_packagelist_entry K (qstr_init K n) v s).2.package_to_appid).length =
      (hash_entries s.package_to_appid).length ∧
    (insert_packagelist_entry K (qstr_init K n) v s).2.package_to_userid = s.package_to_userid ∧
    (insert_packagelist_entry K (qstr_init K n) v s).2.ext_to_groupid = s.ext_to_groupid := by
  have hinv := reachable_store_inv K s hr
  have hi := bucket_of_case_eq K _ hinv.appid_wf x i hx n hk
  subst hi
  obtain ⟨pre, post, hl, hs⟩ := hlist_set_first_of_unique
    (fun y : hashtable_entry => qstr_case_eq K (qstr_init K n) y.key) v x hk _ hx
    (fun y hy hpy => keys_unique_eq K _ (hinv.appid_unique _) _ x y hx hy hk hpy)
  have hlen : ∀ j, (Function.update s.package_to_appid (K.hash_min (qstr_init K n).hash)
      (pre ++ { key := x.key, value := v } :: post) j).length = (s.package_to_appid j).length := by
    intro j
    by_cases hj : j = K.hash_min (qstr_init K n).hash
    · subst hj; simp [hl]
    · simp [Function.update_noteq hj]
  have hall : insert_packagelist_entry K (qstr_init K n) v s =
      (0, { s with
        package_to_appid := Function.update s.package_to_appid (K.hash_min (qstr_init K n).hash)
          (pre ++ { key := x.key, value := v } :: post)
        trace := s.trace ++ [Event.mutex_lock] ++
          (s.sdcardfs_super_list.filter (fun sbinfo => sbinfo.has_sdcard_magic)).map
            (fun sbinfo => Event.fixup_perms_recursive sbinfo.s_root
              { flags := BY_NAME, name := n, length := n.length, userid := 0 }) ++
          [Event.mutex_unlock]
        fixup_seen := s.fixup_seen ++
          (s.sdcardfs_super_list.filter (fun sbinfo => sbinfo.has_sdcard_magic)).map
            (fun _ =>
              { package_to_appid := Function.update s.package_to_appid
                  (K.hash_min (qstr_init K n).hash)
                  (pre ++ { key := x.key, value := v } :: post)
                package_to_userid := s.package_to_userid
                ext_to_groupid := s.ext_to_groupid }) }) := by
    unfold insert_packagelist_entry insert_packagelist_appid_entry_locked
    simp only [hash_possible, mutex_lock, hs]
    simp [mutex_unlock, fixup_all_perms_name, fixup_all, qstr_init, State.view]
  rw [hall]
  exact ⟨rfl, rfl, rfl, ⟨pre, post, hl, rfl⟩, hlen, flatMap_length_congr _ _ _ hlen, rfl, rfl⟩

/-- Re-registering "FOO" with 10002 over "Foo" with 10001 succeeds without
allocating. -/
theorem insert_packagelist_entry_updates_in_place_witness :
    (insert_packagelist_entry sample (qstr_init sample (cstr "FOO")) 10002
      (insert_packagelist_entry sample (qstr_init sample (cstr "Foo")) 10001 (State.init [])).2).1
        = 0 ∧
    (insert_packagelist_entry sample (qstr_init sample (cstr "FOO")) 10002
      (insert_packagelist_entry sample (qstr_init sample (cstr "Foo")) 10001
        (State.init [])).2).2.allocs =
      (insert_packagelist_entry sample (qstr_init sample (cstr "Foo")) 10001
        (State.init [])).2.allocs :=
  have h := insert_packagelist_entry_updates_in_place sample
    (insert_packagelist_entry sample (qstr_init sample (cstr "Foo")) 10001 (State.init [])).2
    (cstr "FOO") 10002 { key := qstr_init sample (cstr "Foo"), value := 10001 }
    (sample.hash_min (qstr_init sample (cstr "Foo")).hash)
    (Reachable.insert_packagelist_entry _ _ _ (Reachable.init []))
    (by decide) (by decide)
  ⟨h.1, h.2.1⟩

/-- C7: in a reachable state, after `remove_packagelist_entry` of p no entry of
the appid table and no entry of the exclusion table has a key equal to p up
to case; hence for every name p1 equal to p up to case `get_appid` returns 0
and `is_excluded` returns 0 for every user. -/
theorem remove_packagelist_entry_clears (K : Kernel) (s : State) (p : List Nat)
    (hr : Reachable K s) :
    (∀ i, ∀ e ∈ (remove_packagelist_entry K (qstr_init K p) s).package_to_appid i,
      qstr_case_eq K (qstr_init K p) e.key = false) ∧
    (∀ i, ∀ e ∈ (remove_packagelist_entry K (qstr_init K p) s).package_to_userid i,
      qstr_case_eq K (qstr_init K p) e.key = false) ∧
    (∀ p1, qstr_case_eq K (qstr_init K p1) (qstr_init K p) = true →
      get_appid K (remove_packagelist_entry K (qstr_init K p) s) p1 = 0 ∧
      ∀ u, is_excluded K (remove_packagelist_entry K (qstr_init K p) s) p1 u = 0) := by
  have hinv := reachable_store_inv K s hr
  obtain ⟨ha, hu, -⟩ := remove_packagelist_entry_effect K (qstr_init K p) s
  have hA : ∀ i, ∀ e ∈ (remove_packagelist_entry K (qstr_init K p) s).package_to_appid i,
      qstr_case_eq K (qstr_init K p) e.key = false := by
    intro i e he
    rw [ha] at he
    by_cases hi : i = K.hash_min (qstr_init K p).hash
    · subst hi
      rw [Function.update_same] at he
      exact eraseP_none_of_pairwise (fun y => qstr_case_eq K (qstr_init K p) y.key) _
        (fun a b h1 h2 => keys_unique_conflict K _ a b h1 h2) _ (hinv.appid_unique _) e he
    · rw [Function.update_noteq hi] at he
      by_contra hne
      exact hi (bucket_of_case_eq K _ hinv.appid_wf e i he p (by simpa using hne))
  have hU : ∀ i, ∀ e ∈ (remove_packagelist_entry K (qstr_init K p) s).package_to_userid i,
      qstr_case_eq K (qstr_init K p) e.key = false := by
    intro i e he
    rw [hu] at he
    by_cases hi : i = K.hash_min (qstr_init K p).hash
    · subst hi
      rw [Function.update_same] at he
      simpa using (List.mem_filter.1 he).2
    · rw [Function.update_noteq hi] at he
      by_contra hne
      exact hi (bucket_of_case_eq K _ hinv.userid_wf e i he p (by simpa using hne))
  refine ⟨hA, hU, ?_⟩
  intro p1 hp1
  constructor
  · unfold get_appid __get_appid hash_possible
    have hnone : ((remove_packagelist_entry K (qstr_init K p) s).package_to_appid
        (K.hash_min (qstr_init K p1).hash)).find?
          (fun e => qstr_case_eq K (qstr_init K p1) e.key) = none := by
      rw [List.find?_eq_none]
      intro e he
      rw [qstr_case_eq_congr K p1 p hp1, hA _ e he]
      simp
    rw [hnone]
  · intro u
    rw [is_excluded_eq_zero, List.any_eq_false]
    intro e he
    rw [qstr_case_eq_congr K p1 p hp1, hU _ e he]
    simp

/-- With "Foo" registered and excluded for the users 10 and 11, removing "FOO"
leaves no appid and no exclusion for "foo". -/
theorem remove_packagelist_entry_clears_witness :
    get_appid sample
      (insert_userid_exclude_entry sample (qstr_init sample (cstr "Foo")) 11
        (insert_userid_exclude_entry sample (qstr_init sample (cstr "Foo")) 10
          (insert_packagelist_entry sample (qstr_init sample (cstr "Foo")) 10001
            (State.init [])).2).2).2 (cstr "foo") = 10001 ∧
    is_excluded sample
      (insert_userid_exclude_entry sample (qstr_init sample (cstr "Foo")) 11
        (insert_userid_exclude_entry sample (qstr_init sample (cstr "Foo")) 10
          (insert_packagelist_entry sample (qstr_init sample (cstr "Foo")) 10001
            (State.init [])).2).2).2 (cstr "foo") 10 = 1 ∧
    get_appid sample (remove_packagelist_entry sample (qstr_init sample (cstr "FOO"))
      (insert_userid_exclude_entry sample (qstr_init sample (cstr "Foo")) 11
        (insert_userid_exclude_entry sample (qstr_init sample (cstr "Foo")) 10
          (insert_packagelist_entry sample (qstr_init sample (cstr "Foo")) 10001
            (State.init [])).2).2).2) (cstr "foo") = 0 ∧
    (∀ u, is_excluded sample (remove_packagelist_entry sample (qstr_init sample (cstr "FOO"))
      (insert_userid_exclude_entry sample (qstr_init sample (cstr "Foo")) 11
        (insert_userid_exclude_entry sample (qstr_init sample (cstr "Foo")) 10
          (insert_packagelist_entry sample (qstr_init sample (cstr "Foo")) 10001
            (State.init [])).2).2).2) (cstr "foo") u = 0) :=
  have h := (remove_packagelist_entry_clears sample _ (cstr "FOO")
    (Reachable.insert_userid_exclude_entry _ (cstr "Foo") 11
      (Reachable.insert_userid_exclude_entry _ (cstr "Foo") 10
        (Reachable.insert_packagelist_entry _ (cstr "Foo") 10001 (Reachable.init []))))).2.2
    (cstr "foo") (by decide)
  ⟨by decide, by decide, h.1, h.2⟩

/-- C8: in a reachable state, when the allocator grants the (at most two)
requests of the first call, two calls of `insert_userid_exclude_entry` with
(p, u) both return 0, the second leaves the three tables exactly as the first
left them, and the exclusion table then holds exactly one entry whose key
equals p up to case and whose value is u; and whenever such an entry is
already present, the call returns 0 and changes no table (whatever the
allocator would answer). -/
theorem insert_userid_exclude_entry_idempotent (K : Kernel) (s : State) (p : List Nat) (u : Nat)
    (hr : Reachable K s) :
    ((K.alloc_ok s.allocs = true ∧ K.alloc_ok (s.allocs + 1) = true) →
      (insert_userid_exclude_entry K (qstr_init K p) u s).1 = 0 ∧
      (insert_userid_exclude_entry K (qstr_init K p) u
        (insert_userid_exclude_entry K (qstr_init K p) u s).2).1 = 0 ∧
      (insert_userid_exclude_entry K (qstr_init K p) u
        (insert_userid_exclude_entry K (qstr_init K p) u s).2).2.package_to_userid =
        (insert_userid_exclude_entry K (qstr_init K p) u s).2.package_to_userid ∧
      (insert_userid_exclude_entry K (qstr_init K p) u
        (insert_userid_exclude_entry K (qstr_init K p) u s).2).2.package_to_appid =
        (insert_userid_exclude_entry K (qstr_init K p) u s).2.package_to_appid ∧
      (insert_userid_exclude_entry K (qstr_init K p) u
        (insert_userid_exclude_entry K (qstr_init K p) u s).2).2.ext_to_groupid =
        (insert_userid_exclude_entry K (qstr_init K p) u s).2.ext_to_groupid ∧
      (hash_entries (insert_userid_exclude_entry K (qstr_init K p) u
        (insert_userid_exclude_entry K (qstr_init K p) u s).2).2.package_to_userid).countP
          (fun e => qstr_case_eq K (qstr_init K p) e.key && e.value == u) = 1) ∧
    ((∃ i, ∃ x ∈ s.package_to_userid i,
        qstr_case_eq K (qstr_init K p) x.key = true ∧ x.value = u) →
      (insert_userid_exclude_entry K (qstr_init K p) u s).1 = 0 ∧
      (insert_userid_exclude_entry K (qstr_init K p) u s).2.package_to_userid =
        s.package_to_userid ∧
      (insert_userid_exclude_entry K (qstr_init K p) u s).2.package_to_appid =
        s.package_to_appid ∧
      (insert_userid_exclude_entry K (qstr_init K p) u s).2.ext_to_groupid =
        s.ext_to_groupid) := by
  -- a call on a state where the pair is found in its bucket
  have hfound : ∀ t : State,
      (t.package_to_userid (K.hash_min (qstr_init K p).hash)).any
        (fun e => e.value == u && qstr_case_eq K (qstr_init K p) e.key) = true →
      (insert_userid_exclude_entry K (qstr_init K p) u t).1 = 0 ∧
      (insert_userid_exclude_entry K (qstr_init K p) u t).2.package_to_userid =
        t.package_to_userid ∧
      (insert_userid_exclude_entry K (qstr_init K p) u t).2.package_to_appid =
        t.package_to_appid ∧
      (insert_userid_exclude_entry K (qstr_init K p) u t).2.ext_to_groupid =
        t.ext_to_groupid := by
    intro t hany
    obtain ⟨ha, he, hcases⟩ := insert_userid_exclude_entry_effect K (qstr_init K p) u t
    rcases hcases with ⟨-, herr, ht, -⟩ | ⟨hn, -, -⟩ | ⟨hn, -, -, -⟩
    · exact ⟨herr, ht, ha, he⟩
    · rw [hany] at hn; exact Bool.noConfusion hn
    · rw [hany] at hn; exact Bool.noConfusion hn
  -- after a successful call the pair is found in its bucket
  have hafter : (insert_userid_exclude_entry K (qstr_init K p) u s).1 = 0 →
      ((insert_userid_exclude_entry K (qstr_init K p) u s).2.package_to_userid
        (K.hash_min (qstr_init K p).hash)).any
          (fun e => e.value == u && qstr_case_eq K (qstr_init K p) e.key) = true := by
    intro hok
    obtain ⟨-, -, hcases⟩ := insert_userid_exclude_entry_effect K (qstr_init K p) u s
    rcases hcases with ⟨hany, -, ht, -⟩ | ⟨-, -, ht⟩ | ⟨-, -, herr, -⟩
    · rw [ht]; exact hany
    · rw [ht, Function.update_same]
      simp [qstr_case_eq_refl]
    · rw [herr] at hok; simp [ENOMEM] at hok
  constructor
  · intro halloc
    have hok : (insert_userid_exclude_entry K (qstr_init K p) u s).1 = 0 := by
      obtain ⟨-, -, hcases⟩ := insert_userid_exclude_entry_effect K (qstr_init K p) u s
      rcases hcases with ⟨-, herr, -, -⟩ | ⟨-, herr, -⟩ | ⟨-, hfail, -, -⟩
      · exact herr
      · exact herr
      · rcases hfail with h | h
        · rw [halloc.1] at h; exact Bool.noConfusion h
        · rw [halloc.2] at h; exact Bool.noConfusion h
    have hany := hafter hok
    obtain ⟨h1, h2, h3, h4⟩ := hfound _ hany
    refine ⟨hok, h1, h2, h3, h4, ?_⟩
    rw [h2]
    have hinv := reachable_store_inv K _ (Reachable.insert_userid_exclude_entry s p u hr)
    rw [countP_hash_entries _ _ (K.hash_min (qstr_init K p).hash)]
    · apply countP_one_of_pairwise _ _
        (fun a b h1 h2 => pairs_unique_conflict K (qstr_init K p) u a b h1 h2) _
        (hinv.userid_unique _)
      obtain ⟨x, hx, hqx⟩ := List.any_eq_true.1 hany
      refine ⟨x, hx, ?_⟩
      simp only [Bool.and_eq_true, beq_iff_eq] at hqx ⊢
      exact ⟨hqx.2, hqx.1⟩
    · intro j hj e he
      by_contra hne
      simp only [Bool.not_eq_false, Bool.and_eq_true] at hne
      exact hj (bucket_of_case_eq K _ hinv.userid_wf e j he p hne.1)
  · rintro ⟨i, x, hx, hk, hv⟩
    have hinv := reachable_store_inv K s hr
    have hi := bucket_of_case_eq K _ hinv.userid_wf x i hx p hk
    subst hi
    exact hfound s (List.any_eq_true.2 ⟨x, hx, by simp [hk, hv]⟩)

/-- In the empty store two calls with ("Foo", 10) succeed and leave one
entry for the pair. -/
theorem insert_userid_exclude_entry_idempotent_witness :
    (insert_userid_exclude_entry sample (qstr_init sample (cstr "Foo")) 10
      (insert_userid_exclude_entry sample (qstr_init sample (cstr "Foo")) 10
        (State.init [])).2).1 = 0 ∧
    (hash_entries (insert_userid_exclude_entry sample (qstr_init sample (cstr "Foo")) 10
      (insert_userid_exclude_entry sample (qstr_init sample (cstr "Foo")) 10
        (State.init [])).2).2.package_to_userid).countP
          (fun e => qstr_case_eq sample (qstr_init sample (cstr "Foo")) e.key && e.value == 10)
      = 1 :=
  have h := (insert_userid_exclude_entry_idempotent sample (State.init []) (cstr "Foo") 10
    (Reachable.init [])).1 ⟨rfl, rfl⟩
  ⟨h.2.1, h.2.2.2.2.2⟩

/-- C9: in a reachable state, when `insert_userid_exclude_entry` of (p, u)
returns 0, then after it and after any number k of further such calls
`is_excluded` of (p, u) is 1, and after one following
`remove_userid_exclude_entry` of (p, u) it is 0. -/
theorem exclusion_insert_then_remove (K : Kernel) (s : State) (p : List Nat) (u : Nat)
    (hr : Reachable K s)
    (hok : (insert_userid_exclude_entry K (qstr_init K p) u s).1 = 0) (k : Nat) :
    is_excluded K
      ((fun t => (insert_userid_exclude_entry K (qstr_init K p) u t).2)^[k]
        (insert_userid_exclude_entry K (qstr_init K p) u s).2) p u = 1 ∧
    is_excluded K (remove_userid_exclude_entry K (qstr_init K p) u
      ((fun t => (insert_userid_exclude_entry K (qstr_init K p) u t).2)^[k]
        (insert_userid_exclude_entry K (qstr_init K p) u s).2)) p u = 0 := by
  have hiter : ∀ k : Nat,
      Reachable K ((fun t => (insert_userid_exclude_entry K (qstr_init K p) u t).2)^[k]
        (insert_userid_exclude_entry K (qstr_init K p) u s).2) ∧
      is_excluded K ((fun t => (insert_userid_exclude_entry K (qstr_init K p) u t).2)^[k]
        (insert_userid_exclude_entry K (qstr_init K p) u s).2) p u = 1 := by
    intro k
    induction k with
    | zero =>
      refine ⟨Reachable.insert_userid_exclude_entry s p u hr, ?_⟩
      rw [Function.iterate_zero, id_eq, is_excluded_eq_one]
      obtain ⟨-, -, hcases⟩ := insert_userid_exclude_entry_effect K (qstr_init K p) u s
      rcases hcases with ⟨hany, -, ht, -⟩ | ⟨-, -, ht⟩ | ⟨-, -, herr, -⟩
      · rw [ht]; exact hany
      · rw [ht, Function.update_same]
        simp [qstr_case_eq_refl]
      · rw [herr] at hok; simp [ENOMEM] at hok
    | succ k ih =>
      rw [Function.iterate_succ_apply']
      refine ⟨Reachable.insert_userid_exclude_entry _ p u ih.1, ?_⟩
      have hany := (is_excluded_eq_one K _ p u).1 ih.2
      rw [is_excluded_eq_one]
      obtain ⟨-, -, hcases⟩ := insert_userid_exclude_entry_effect K (qstr_init K p) u
        ((fun t => (insert_userid_exclude_entry K (qstr_init K p) u t).2)^[k]
          (insert_userid_exclude_entry K (qstr_init K p) u s).2)
      rcases hcases with ⟨-, -, ht, -⟩ | ⟨hn, -, -⟩ | ⟨hn, -, -, -⟩
      · rw [ht]; exact hany
      · rw [hany] at hn; exact Bool.noConfusion hn
      · rw [hany] at hn; exact Bool.noConfusion hn
  refine ⟨(hiter k).2, ?_⟩
  have hinv := reachable_store_inv K _ (hiter k).1
  obtain ⟨-, -, ht⟩ := remove_userid_exclude_entry_effect K (qstr_init K p) u
    ((fun t => (insert_userid_exclude_entry K (qstr_init K p) u t).2)^[k]
      (insert_userid_exclude_entry K (qstr_init K p) u s).2)
  rw [is_excluded_eq_zero, ht, Function.update_same, List.any_eq_false]
  intro e he
  have := eraseP_none_of_pairwise
    (fun y : hashtable_entry => qstr_case_eq K (qstr_init K p) y.key && y.value == u) _
    (fun a b h1 h2 => pairs_unique_conflict K (qstr_init K p) u a b h1 h2) _
    (hinv.userid_unique _) e he
  simp only [Bool.and_eq_false_iff, beq_eq_false_iff_ne, ne_eq] at this
  simp only [Bool.and_eq_true, beq_iff_eq, not_and, Bool.not_eq_true]
  intro hv
  rcases this with h | h
  · exact h
  · exact absurd hv h

/-- In the empty store ("Foo", 10) is inserted three times and removed once:
the pair is excluded before the removal and not after it. -/
theorem exclusion_insert_then_remove_witness :
    (insert_userid_exclude_entry sample (qstr_init sample (cstr "Foo")) 10 (State.init [])).1 = 0 ∧
    is_excluded sample
      ((fun t => (insert_userid_exclude_entry sample (qstr_init sample (cstr "Foo")) 10 t).2)^[2]
        (insert_userid_exclude_entry sample (qstr_init sample (cstr "Foo")) 10
          (State.init [])).2) (cstr "Foo") 10 = 1 ∧
    is_excluded sample (remove_userid_exclude_entry sample (qstr_init sample (cstr "Foo")) 10
      ((fun t => (insert_userid_exclude_entry sample (qstr_init sample (cstr "Foo")) 10 t).2)^[2]
        (insert_userid_exclude_entry sample (qstr_init sample (cstr "Foo")) 10
          (State.init [])).2)) (cstr "Foo") 10 = 0 :=
  ⟨by decide,
    exclusion_insert_then_remove sample (State.init []) (cstr "Foo") 10 (Reachable.init [])
      (by decide) 2⟩

/-- C10: for every state and user U, after `remove_userid_all_entry` of U no
entry of the exclusion table has the value U and `is_excluded` of (p, U) is 0
for every package p, while for every other user V the entries with value V
are as before and `is_excluded` of (p, V) is unchanged for every p; the other
two tables are unchanged. -/
theorem remove_userid_all_entry_only_that_user (K : Kernel) (s : State) (U : Nat) :
    (∀ i, ∀ e ∈ (remove_userid_all_entry U s).package_to_userid i, e.value ≠ U) ∧
    (∀ p, is_excluded K (remove_userid_all_entry U s) p U = 0) ∧
    (∀ V, V ≠ U → ∀ i,
      ((remove_userid_all_entry U s).package_to_userid i).filter (fun e => e.value == V) =
        (s.package_to_userid i).filter (fun e => e.value == V)) ∧
    (∀ V, V ≠ U → ∀ p,
      is_excluded K (remove_userid_all_entry U s) p V = is_excluded K s p V) ∧
    (remove_userid_all_entry U s).package_to_appid = s.package_to_appid ∧
    (remove_userid_all_entry U s).ext_to_groupid = s.ext_to_groupid := by
  obtain ⟨ha, he, hu⟩ := remove_userid_all_entry_effect U s
  refine ⟨?_, ?_, ?_, ?_, ha, he⟩
  · intro i e hmem
    rw [hu] at hmem
    simpa using (List.mem_filter.1 hmem).2
  · intro p
    rw [is_excluded_eq_zero, hu, List.any_eq_false]
    intro e hmem
    have hne : e.value ≠ U := by simpa using (List.mem_filter.1 hmem).2
    simp [hne]
  · intro V hV i
    rw [hu, List.filter_filter]
    congr 1
    funext e
    by_cases h : e.value = V
    · simp [h, hV]
    · simp [h]
  · intro V hV p
    unfold is_excluded __is_excluded hash_possible
    rw [hu]
    have : ((s.package_to_userid (K.hash_min (qstr_init K p).hash)).filter
          (fun e => !(e.value == U))).any
          (fun e => e.value == V && qstr_case_eq K (qstr_init K p) e.key) =
        (s.package_to_userid (K.hash_min (qstr_init K p).hash)).any
          (fun e => e.value == V && qstr_case_eq K (qstr_init K p) e.key) := by
      rw [List.any_filter]
      congr 1
      funext e
      by_cases h : e.value = V
      · simp [h, hV]
      · simp [h]
    rw [this]

/-- With exclusions (A, 10), (B, 10) and (C, 11), removing all entries of user
10: (A, 10) and (B, 10) are gone and (C, 11) is still there. -/
theorem remove_userid_all_entry_only_that_user_witness :
    is_excluded sample (remove_userid_all_entry 10
      (insert_userid_exclude_entry sample (qstr_init sample (cstr "C")) 11
        (insert_userid_exclude_entry sample (qstr_init sample (cstr "B")) 10
          (insert_userid_exclude_entry sample (qstr_init sample (cstr "A")) 10
            (State.init [])).2).2).2) (cstr "A") 10 = 0 ∧
    is_excluded sample (remove_userid_all_entry 10
      (insert_userid_exclude_entry sample (qstr_init sample (cstr "C")) 11
        (insert_userid_exclude_entry sample (qstr_init sample (cstr "B")) 10
          (insert_userid_exclude_entry sample (qstr_init sample (cstr "A")) 10
            (State.init [])).2).2).2) (cstr "B") 10 = 0 ∧
    is_excluded sample (remove_userid_all_entry 10
      (insert_userid_exclude_entry sample (qstr_init sample (cstr "C")) 11
        (insert_userid_exclude_entry sample (qstr_init sample (cstr "B")) 10
          (insert_userid_exclude_entry sample (qstr_init sample (cstr "A")) 10
            (State.init [])).2).2).2) (cstr "C") 11 = 1 :=
  have h := remove_userid_all_entry_only_that_user sample
    (insert_userid_exclude_entry sample (qstr_init sample (cstr "C")) 11
      (insert_userid_exclude_entry sample (qstr_init sample (cstr "B")) 10
        (insert_userid_exclude_entry sample (qstr_init sample (cstr "A")) 10
          (State.init [])).2).2).2 10
  ⟨h.2.1 (cstr "A"), h.2.1 (cstr "B"),
    (h.2.2.2.1 11 (by decide) (cstr "C")).trans (by decide)⟩

/-- C11: in a reachable state `remove_ext_gid_entry` of (e, g) unlinks the
entry x whose key equals e up to case exactly when the value of x is g: then
x alone leaves its chain, no entry for e is left and `get_ext_gid` of e is 0.
When no entry for e has the value g (the value differs, or there is no
entry) the extension table is unchanged and `get_ext_gid` returns what it
returned before. The other two tables are never changed. -/
theorem remove_ext_gid_entry_only_matching_value (K : Kernel) (s : State) (e : List Nat)
    (g : Nat) (hr : Reachable K s) :
    (∀ i, ∀ x ∈ s.ext_to_groupid i, qstr_case_eq K (qstr_init K e) x.key = true → x.value = g →
      (∃ pre post, s.ext_to_groupid i = pre ++ x :: post ∧
        (remove_ext_gid_entry K (qstr_init K e) g s).ext_to_groupid =
          Function.update s.ext_to_groupid i (pre ++ post)) ∧
      (∀ j, ∀ y ∈ (remove_ext_gid_entry K (qstr_init K e) g s).ext_to_groupid j,
        qstr_case_eq K (qstr_init K e) y.key = false) ∧
      get_ext_gid K (remove_ext_gid_entry K (qstr_init K e) g s) e = 0) ∧
    ((∀ i, ∀ x ∈ s.ext_to_groupid i, qstr_case_eq K (qstr_init K e) x.key = true → x.value ≠ g) →
      (remove_ext_gid_entry K (qstr_init K e) g s).ext_to_groupid = s.ext_to_groupid ∧
      ∀ e1, get_ext_gid K (remove_ext_gid_entry K (qstr_init K e) g s) e1 = get_ext_gid K s e1) ∧
    (remove_ext_gid_entry K (qstr_init K e) g s).package_to_appid = s.package_to_appid ∧
    (remove_ext_gid_entry K (qstr_init K e) g s).package_to_userid = s.package_to_userid := by
  have hinv := reachable_store_inv K s hr
  obtain ⟨ha, hu, he⟩ := remove_ext_gid_entry_effect K (qstr_init K e) g s
  refine ⟨?_, ?_, ha, hu⟩
  · intro i x hx hk hv
    have hi := bucket_of_case_eq K _ hinv.ext_wf x i hx e hk
    subst hi
    obtain ⟨pre, post, hl, her⟩ := eraseP_of_unique
      (fun y : hashtable_entry => qstr_case_eq K (qstr_init K e) y.key && y.value == g) _ x hx
      (by simp [hk, hv])
      (fun y hy hpy => keys_unique_eq K _ (hinv.ext_unique _) _ x y hx hy hk
        (by simp only [Bool.and_eq_true] at hpy; exact hpy.1))
    have hnone : ∀ j, ∀ y ∈ (remove_ext_gid_entry K (qstr_init K e) g s).ext_to_groupid j,
        qstr_case_eq K (qstr_init K e) y.key = false := by
      intro j y hy
      rw [he] at hy
      by_cases hj : j = K.hash_min (qstr_init K e).hash
      · subst hj
        rw [Function.update_same, her] at hy
        exact keys_unique_split K _ x pre post (hl ▸ hinv.ext_unique _) hk y hy
      · rw [Function.update_noteq hj] at hy
        by_contra hne
        exact hj (bucket_of_case_eq K _ hinv.ext_wf y j hy e (by simpa using hne))
    refine ⟨⟨pre, post, hl, by rw [he, her]⟩, hnone, ?_⟩
    unfold get_ext_gid __get_ext_gid hash_possible
    have hf : ((remove_ext_gid_entry K (qstr_init K e) g s).ext_to_groupid
        (K.hash_min (qstr_init K e).hash)).find?
          (fun y => qstr_case_eq K (qstr_init K e) y.key) = none := by
      rw [List.find?_eq_none]
      intro y hy
      simp [hnone _ y hy]
    rw [hf]
  · intro hno
    have ht : (remove_ext_gid_entry K (qstr_init K e) g s).ext_to_groupid = s.ext_to_groupid := by
      rw [he, List.eraseP_of_forall_not, Function.update_eq_self]
      intro y hy hpy
      simp only [Bool.and_eq_true, beq_iff_eq] at hpy
      exact hno _ y hy hpy.1 hpy.2
    exact ⟨ht, fun e1 => get_ext_gid_congr K s _ e1 ht⟩

/-- With "png" mapped to 1003: removing ("PNG", 1004) changes nothing and "png"
still maps to 1003; removing ("PNG", 1003) leaves no mapping. -/
theorem remove_ext_gid_entry_only_matching_value_witness :
    get_ext_gid sample (remove_ext_gid_entry sample (qstr_init sample (cstr "PNG")) 1004
      (insert_ext_gid_entry sample (qstr_init sample (cstr "png")) 1003 (State.init [])).2)
      (cstr "png") = 1003 ∧
    get_ext_gid sample (remove_ext_gid_entry sample (qstr_init sample (cstr "PNG")) 1003
      (insert_ext_gid_entry sample (qstr_init sample (cstr "png")) 1003 (State.init [])).2)
      (cstr "PNG") = 0 :=
  ⟨by decide,
    ((remove_ext_gid_entry_only_matching_value sample
      (insert_ext_gid_entry sample (qstr_init sample (cstr "png")) 1003 (State.init [])).2
      (cstr "PNG") 1003 (Reachable.insert_ext_gid_entry _ _ _ (Reachable.init []))).1
      (sample.hash_min (qstr_init sample (cstr "png")).hash)
      { key := qstr_init sample (cstr "png"), value := 1003 }
      (by decide) (by decide) rfl).2.2⟩

/-- C12: in a reachable state `is_excluded` of (p, u) is 1 exactly when some
bucket of the exclusion table holds an entry whose key equals p up to case and
whose value is u, and 0 otherwise; every such entry is linked in the bucket
selected by the case-folded hash of p, the one bucket the function walks. -/
theorem is_excluded_iff_pair_present (K : Kernel) (s : State) (p : List Nat) (u : Nat)
    (hr : Reachable K s) :
    (is_excluded K s p u = 1 ↔
      ∃ i, ∃ x ∈ s.package_to_userid i,
        qstr_case_eq K (qstr_init K p) x.key = true ∧ x.value = u) ∧
    (is_excluded K s p u = 0 ↔
      ¬ ∃ i, ∃ x ∈ s.package_to_userid i,
        qstr_case_eq K (qstr_init K p) x.key = true ∧ x.value = u) ∧
    (∀ i, ∀ x ∈ s.package_to_userid i, qstr_case_eq K (qstr_init K p) x.key = true →
      i = K.hash_min (qstr_init K p).hash) := by
  have hinv := reachable_store_inv K s hr
  have hb : ∀ i, ∀ x ∈ s.package_to_userid i, qstr_case_eq K (qstr_init K p) x.key = true →
      i = K.hash_min (qstr_init K p).hash :=
    fun i x hx hk => bucket_of_case_eq K _ hinv.userid_wf x i hx p hk
  have h1 : is_excluded K s p u = 1 ↔
      ∃ i, ∃ x ∈ s.package_to_userid i,
        qstr_case_eq K (qstr_init K p) x.key = true ∧ x.value = u := by
    rw [is_excluded_eq_one, List.any_eq_true]
    constructor
    · rintro ⟨x, hx, hq⟩
      simp only [Bool.and_eq_true, beq_iff_eq] at hq
      exact ⟨_, x, hx, hq.2, hq.1⟩
    · rintro ⟨i, x, hx, hk, hv⟩
      have hi := hb i x hx hk
      subst hi
      exact ⟨x, hx, by simp [hk, hv]⟩
  refine ⟨h1, ?_, hb⟩
  rw [← h1]
  unfold is_excluded __is_excluded
  split <;> simp

/-- After ("Foo", 10) is inserted, ("FOO", 10) is excluded and ("FOO", 11) is not. -/
theorem is_excluded_iff_pair_present_witness :
    is_excluded sample
      (insert_userid_exclude_entry sample (qstr_init sample (cstr "Foo")) 10 (State.init [])).2
      (cstr "FOO") 10 = 1 ∧
    is_excluded sample
      (insert_userid_exclude_entry sample (qstr_init sample (cstr "Foo")) 10 (State.init [])).2
      (cstr "FOO") 11 = 0 :=
  ⟨((is_excluded_iff_pair_present sample
      (insert_userid_exclude_entry sample (qstr_init sample (cstr "Foo")) 10 (State.init [])).2
      (cstr "FOO") 10 (Reachable.insert_userid_exclude_entry _ _ _ (Reachable.init []))).1).2
      ⟨sample.hash_min (qstr_init sample (cstr "Foo")).hash,
        { key := qstr_init sample (cstr "Foo"), value := 10 }, by decide, by decide, rfl⟩,
    by decide⟩

/-- C13: for every state and name, `get_appid` returns 0 when no entry of the
appid table has a key equal to the name up to case, and `get_ext_gid` returns
0 when no entry of the extension table has; each lookup always returns
either 0 or the value of an entry of the walked bucket whose key equals the
name up to case. The lookups only read: they are functions of the state that
return the id and no new state. -/
theorem lookups_return_zero_when_absent (K : Kernel) (s : State) (n : List Nat) :
    ((∀ i, ∀ x ∈ s.package_to_appid i, qstr_case_eq K (qstr_init K n) x.key = false) →
      get_appid K s n = 0) ∧
    ((∀ i, ∀ x ∈ s.ext_to_groupid i, qstr_case_eq K (qstr_init K n) x.key = false) →
      get_ext_gid K s n = 0) ∧
    (get_appid K s n = 0 ∨
      ∃ x ∈ s.package_to_appid (K.hash_min (qstr_init K n).hash),
        qstr_case_eq K (qstr_init K n) x.key = true ∧ get_appid K s n = x.value) ∧
    (get_ext_gid K s n = 0 ∨
      ∃ x ∈ s.ext_to_groupid (K.hash_min (qstr_init K n).hash),
        qstr_case_eq K (qstr_init K n) x.key = true ∧ get_ext_gid K s n = x.value) := by
  refine ⟨?_, ?_, ?_, ?_⟩
  · intro h
    unfold get_appid __get_appid hash_possible
    have hf : (s.package_to_appid (K.hash_min (qstr_init K n).hash)).find?
        (fun y => qstr_case_eq K (qstr_init K n) y.key) = none := by
      rw [List.find?_eq_none]
      intro y hy
      simp [h _ y hy]
    rw [hf]
  · intro h
    unfold get_ext_gid __get_ext_gid hash_possible
    have hf : (s.ext_to_groupid (K.hash_min (qstr_init K n).hash)).find?
        (fun y => qstr_case_eq K (qstr_init K n) y.key) = none := by
      rw [List.find?_eq_none]
      intro y hy
      simp [h _ y hy]
    rw [hf]
  · unfold get_appid __get_appid hash_possible
    rcases hf : (s.package_to_appid (K.hash_min (qstr_init K n).hash)).find?
        (fun y => qstr_case_eq K (qstr_init K n) y.key) with _ | x
    · left
      rw [hf]
    · right
      rw [hf]
      exact ⟨x, List.mem_of_find?_eq_some hf,
        List.find?_some (p := fun y : hashtable_entry => qstr_case_eq K (qstr_init K n) y.key) hf,
        rfl⟩
  · unfold get_ext_gid __get_ext_gid hash_possible
    rcases hf : (s.ext_to_groupid (K.hash_min (qstr_init K n).hash)).find?
        (fun y => qstr_case_eq K (qstr_init K n) y.key) with _ | x
    · left
      rw [hf]
    · right
      rw [hf]
      exact ⟨x, List.mem_of_find?_eq_some hf,
        List.find?_some (p := fun y : hashtable_entry => qstr_case_eq K (qstr_init K n) y.key) hf,
        rfl⟩

/-- In the empty store both lookups of "Foo" return 0. -/
theorem lookups_return_zero_when_absent_witness :
    get_appid sample (State.init []) (cstr "Foo") = 0 ∧
    get_ext_gid sample (State.init []) (cstr "Foo") = 0 :=
  ⟨(lookups_return_zero_when_absent sample (State.init []) (cstr "Foo")).1
      (fun _ _ hx => by simp [State.init, hash_empty] at hx),
    (lookups_return_zero_when_absent sample (State.init []) (cstr "Foo")).2.1
      (fun _ _ hx => by simp [State.init, hash_empty] at hx)⟩

/-- C14: in every state reachable from the empty store by the seven mutation
entry points (whatever the allocator answers), the appid table holds at most
one entry per package name up to case, the extension table at most one entry
per extension up to case, and the exclusion table at most one entry per pair
of a package name up to case and a user. -/
theorem reachable_keys_unique (K : Kernel) (s : State) (hr : Reachable K s) :
    (∀ n, (hash_entries s.package_to_appid).countP
      (fun e => qstr_case_eq K (qstr_init K n) e.key) ≤ 1) ∧
    (∀ n, (hash_entries s.ext_to_groupid).countP
      (fun e => qstr_case_eq K (qstr_init K n) e.key) ≤ 1) ∧
    (∀ n u, (hash_entries s.package_to_userid).countP
      (fun e => qstr_case_eq K (qstr_init K n) e.key && e.value == u) ≤ 1) := by
  have hinv := reachable_store_inv K s hr
  refine ⟨?_, ?_, ?_⟩
  · intro n
    rw [countP_hash_entries _ _ (K.hash_min (qstr_init K n).hash)]
    · exact countP_le_one_of_pairwise _ _
        (fun a b h1 h2 => keys_unique_conflict K (qstr_init K n) a b h1 h2) _
        (hinv.appid_unique _)
    · intro j hj e he
      by_contra hne
      exact hj (bucket_of_case_eq K _ hinv.appid_wf e j he n (by simpa using hne))
  · intro n
    rw [countP_hash_entries _ _ (K.hash_min (qstr_init K n).hash)]
    · exact countP_le_one_of_pairwise _ _
        (fun a b h1 h2 => keys_unique_conflict K (qstr_init K n) a b h1 h2) _
        (hinv.ext_unique _)
    · intro j hj e he
      by_contra hne
      exact hj (bucket_of_case_eq K _ hinv.ext_wf e j he n (by simpa using hne))
  · intro n u
    rw [countP_hash_entries _ _ (K.hash_min (qstr_init K n).hash)]
    · exact countP_le_one_of_pairwise _ _
        (fun a b h1 h2 => pairs_unique_conflict K (qstr_init K n) u a b h1 h2) _
        (hinv.userid_unique _)
    · intro j hj e he
      by_contra hne
      simp only [Bool.not_eq_false, Bool.and_eq_true] at hne
      exact hj (bucket_of_case_eq K _ hinv.userid_wf e j he n hne.1)

/-- A kernel whose allocator refuses the third request: after "Foo", "FOO"
and a refused "Bar" are registered, the appid table holds one entry for
"foo". -/
theorem reachable_keys_unique_witness :
    (hash_entries
      (insert_packagelist_entry { sample with alloc_ok := fun n => n != 2 }
        (qstr_init { sample with alloc_ok := fun n => n != 2 } (cstr "Bar")) 10003
        (insert_packagelist_entry { sample with alloc_ok := fun n => n != 2 }
          (qstr_init { sample with alloc_ok := fun n => n != 2 } (cstr "FOO")) 10002
          (insert_packagelist_entry { sample with alloc_ok := fun n => n != 2 }
            (qstr_init { sample with alloc_ok := fun n => n != 2 } (cstr "Foo")) 10001
            (State.init [])).2).2).2.package_to_appid).countP
      (fun e => qstr_case_eq { sample with alloc_ok := fun n => n != 2 }
        (qstr_init { sample with alloc_ok := fun n => n != 2 } (cstr "foo")) e.key) ≤ 1 :=
  (reachable_keys_unique { sample with alloc_ok := fun n => n != 2 } _
    (Reachable.insert_packagelist_entry _ (cstr "Bar") 10003
      (Reachable.insert_packagelist_entry _ (cstr "FOO") 10002
        (Reachable.insert_packagelist_entry _ (cstr "Foo") 10001 (Reachable.init []))))).1
    (cstr "foo")

/-- C15: `packagelist_destroy` empties every bucket of the appid table and of
the exclusion table, for every state, but it does not walk `ext_to_groupid`:
the extension table is left as it was. With "png" mapped to 1003, after
`packagelist_destroy` the extension table still holds the entry and
`get_ext_gid` of "png" still returns 1003. -/
theorem packagelist_destroy_leaves_ext_to_groupid :
    (∀ s : State,
      (∀ i, (packagelist_destroy s).package_to_appid i = []) ∧
      (∀ i, (packagelist_destroy s).package_to_userid i = []) ∧
      (packagelist_destroy s).ext_to_groupid = s.ext_to_groupid) ∧
    (packagelist_destroy
      (insert_ext_gid_entry sample (qstr_init sample (cstr "png")) 1003
        (State.init [])).2).ext_to_groupid (sample.hash_min (qstr_init sample (cstr "png")).hash) =
      [{ key := qstr_init sample (cstr "png"), value := 1003 }] ∧
    get_ext_gid sample (packagelist_destroy
      (insert_ext_gid_entry sample (qstr_init sample (cstr "png")) 1003 (State.init [])).2)
      (cstr "png") = 1003 := by
  refine ⟨?_, by decide, by decide⟩
  intro s
  refine ⟨?_, ?_, ?_⟩
  · intro i
    simp [packagelist_destroy, mutex_lock, mutex_unlock, reclaim, destroy_fold, List.mem_finRange]
  · intro i
    simp [packagelist_destroy, mutex_lock, mutex_unlock, reclaim, destroy_fold, List.mem_finRange]
  · simp [packagelist_destroy, mutex_lock, mutex_unlock, reclaim]

set_option maxRecDepth 100000 in
/-- C16: (code bug) the scan of the allow-list layer has no bound of its own:
it ends at the first NULL slot of `s_locker_wl`. For a parent directory under
the locker scope and an allow-list whose first slot is not NULL, when the
array holds a NULL slot every read of the scan is inside the array and the
layer returns 1 exactly when the caller uid is `multiuser_get_uid(userid of
the parent, a)` for an appid a resolved from an entry of the configured list
or of the two internal test packages, and 0 for every other caller. When the
array holds no NULL slot and no configured entry resolves to the caller, the
scan reads the index after the last slot. Such a state is the one after
`packages_locker_wl_store` of the 10 entries "10001" to "10010" (it returns
its count, 59): there, for the caller 1010077 under a locker directory of
user 10, whom no entry resolves to, the scan reads the indices 0 to 10, and
10 is not below `LOCKER_MAX_WL`. -/
theorem locker_check_scan_reads_past_array :
    (∀ (K : Kernel) (s : State) (caller_uid : Nat) (parent_node : inode) (name : qstr),
      parent_node.data.under_locker = true →
      (s.s_locker_wl.headD none).isSome = true →
      none ∈ s.s_locker_wl →
      (∀ j ∈ (locker_wl_scan K s caller_uid parent_node.data.userid s.s_locker_wl 0).2,
        j < s.s_locker_wl.length) ∧
      (locker_check_caller_access_to_name_by_uid K s caller_uid (some parent_node) name = 1 ↔
        ∃ entry ∈ locker_wl_entries s ++ s_locker_wl_internal,
          ∃ a, locker_wl_resolve K s entry = some a ∧
            caller_uid = K.multiuser_get_uid parent_node.data.userid a) ∧
      (locker_check_caller_access_to_name_by_uid K s caller_uid (some parent_node) name = 0 ↔
        ¬ ∃ entry ∈ locker_wl_entries s ++ s_locker_wl_internal,
          ∃ a, locker_wl_resolve K s entry = some a ∧
            caller_uid = K.multiuser_get_uid parent_node.data.userid a)) ∧
    (∀ (K : Kernel) (s : State) (caller_uid userid : Nat),
      none ∉ s.s_locker_wl →
      (¬ ∃ entry ∈ locker_wl_entries s,
        ∃ a, locker_wl_resolve K s entry = some a ∧
          caller_uid = K.multiuser_get_uid userid a) →
      s.s_locker_wl.length ∈ (locker_wl_scan K s caller_uid userid s.s_locker_wl 0).2) ∧
    (packages_locker_wl_store sample
      (cstr "10001;10002;10003;10004;10005;10006;10007;10008;10009;10010") 59
      (State.init [])).1 = 59 ∧
    (packages_locker_wl_store sample
      (cstr "10001;10002;10003;10004;10005;10006;10007;10008;10009;10010") 59
      (State.init [])).2.1.s_locker_wl.length = LOCKER_MAX_WL ∧
    ((packages_locker_wl_store sample
      (cstr "10001;10002;10003;10004;10005;10006;10007;10008;10009;10010") 59
      (State.init [])).2.1.s_locker_wl.headD none).isSome = true ∧
    (∀ entry ∈ locker_wl_entries (packages_locker_wl_store sample
        (cstr "10001;10002;10003;10004;10005;10006;10007;10008;10009;10010") 59
        (State.init [])).2.1 ++ s_locker_wl_internal,
      locker_wl_match sample (packages_locker_wl_store sample
        (cstr "10001;10002;10003;10004;10005;10006;10007;10008;10009;10010") 59
        (State.init [])).2.1 1010077 10 entry = false) ∧
    locker_wl_scan sample (packages_locker_wl_store sample
        (cstr "10001;10002;10003;10004;10005;10006;10007;10008;10009;10010") 59
        (State.init [])).2.1 1010077 10
      (packages_locker_wl_store sample
        (cstr "10001;10002;10003;10004;10005;10006;10007;10008;10009;10010") 59
        (State.init [])).2.1.s_locker_wl 0 = (false, [0, 1, 2, 3, 4, 5, 6, 7, 8, 9, 10]) ∧
    ¬ (10 < LOCKER_MAX_WL) := by
  refine ⟨?_, ?_, by decide, by decide, by decide, by decide, by decide, by decide⟩
  · intro K s caller_uid parent_node name hunder hconf hterm
    have hnone : (s.s_locker_wl.headD none).isNone = false := by
      cases h : s.s_locker_wl.headD none <;> simp_all
    have hex : (∃ entry ∈ locker_wl_entries s ++ s_locker_wl_internal,
          ∃ a, locker_wl_resolve K s entry = some a ∧
            caller_uid = K.multiuser_get_uid parent_node.data.userid a) ↔
        ((locker_wl_entries s).any
            (locker_wl_match K s caller_uid parent_node.data.userid) = true ∨
          s_locker_wl_internal.any
            (locker_wl_match K s caller_uid parent_node.data.userid) = true) := by
      simp only [List.any_eq_true, List.mem_append, locker_wl_match_iff]
      constructor
      · rintro ⟨entry, h | h, hr⟩
        · exact Or.inl ⟨entry, h, hr⟩
        · exact Or.inr ⟨entry, h, hr⟩
      · rintro (⟨entry, h, hr⟩ | ⟨entry, h, hr⟩)
        · exact ⟨entry, Or.inl h, hr⟩
        · exact ⟨entry, Or.inr h, hr⟩
    refine ⟨fun j hj => ?_, ?_⟩
    · have := locker_wl_scan_inside K s caller_uid parent_node.data.userid s.s_locker_wl 0
        hterm j hj
      omega
    rw [hex]
    unfold locker_check_caller_access_to_name_by_uid
    simp only [hnone, Bool.false_eq_true, if_false, hunder, Bool.true_or, if_true]
    rw [locker_wl_scan_fst]
    change ((if (locker_wl_entries s).any
        (locker_wl_match K s caller_uid parent_node.data.userid) = true then (1 : Int)
      else if s_locker_wl_internal.any
        (locker_wl_match K s caller_uid parent_node.data.userid) = true then 1 else 0) = 1 ↔ _) ∧
      ((if (locker_wl_entries s).any
        (locker_wl_match K s caller_uid parent_node.data.userid) = true then (1 : Int)
      else if s_locker_wl_internal.any
        (locker_wl_match K s caller_uid parent_node.data.userid) = true then 1 else 0) = 0 ↔ _)
    by_cases h1 : (locker_wl_entries s).any
        (locker_wl_match K s caller_uid parent_node.data.userid) = true <;>
      by_cases h2 : s_locker_wl_internal.any
        (locker_wl_match K s caller_uid parent_node.data.userid) = true <;>
      simp [h1, h2]
  · intro K s caller_uid userid hterm hno
    have h := locker_wl_scan_outside K s caller_uid userid s.s_locker_wl 0 hterm
      (by
        rw [locker_wl_scan_fst]
        by_contra hc
        have hc1 : (locker_wl_entries s).any (locker_wl_match K s caller_uid userid) = true := by
          simpa [locker_wl_entries] using hc
        rw [List.any_eq_true] at hc1
        obtain ⟨entry, he, hm⟩ := hc1
        exact hno ⟨entry, he, (locker_wl_match_iff K s caller_uid userid entry).1 hm⟩)
    simpa using h

set_option maxRecDepth 20000 in
/-- With "Foo" registered as 10001 and the allow-list ["foo", "10077", "bar"]
in an array that holds a NULL slot, under a locker directory of user 10 the
callers 1010001 and 1010077 are allowed and the caller 1010002 is denied. -/
theorem locker_check_scan_reads_past_array_witness :
    locker_check_caller_access_to_name_by_uid sample
      { (insert_packagelist_entry sample (qstr_init sample (cstr "Foo")) 10001
          (State.init [])).2 with
        s_locker_wl := [some (cstr "foo"), some (cstr "10077"), some (cstr "bar"), none] }
      1010001 (some (inode.mk ⟨3, 10, true⟩ 0)) (QSTR_LITERAL (cstr "x")) = 1 ∧
    locker_check_caller_access_to_name_by_uid sample
      { (insert_packagelist_entry sample (qstr_init sample (cstr "Foo")) 10001
          (State.init [])).2 with
        s_locker_wl := [some (cstr "foo"), some (cstr "10077"), some (cstr "bar"), none] }
      1010077 (some (inode.mk ⟨3, 10, true⟩ 0)) (QSTR_LITERAL (cstr "x")) = 1 ∧
    locker_check_caller_access_to_name_by_uid sample
      { (insert_packagelist_entry sample (qstr_init sample (cstr "Foo")) 10001
          (State.init [])).2 with
        s_locker_wl := [some (cstr "foo"), some (cstr "10077"), some (cstr "bar"), none] }
      1010002 (some (inode.mk ⟨3, 10, true⟩ 0)) (QSTR_LITERAL (cstr "x")) = 0 :=
  ⟨((locker_check_scan_reads_past_array.1 sample
      { (insert_packagelist_entry sample (qstr_init sample (cstr "Foo")) 10001
          (State.init [])).2 with
        s_locker_wl := [some (cstr "foo"), some (cstr "10077"), some (cstr "bar"), none] }
      1010001 (inode.mk ⟨3, 10, true⟩ 0) (QSTR_LITERAL (cstr "x")) rfl rfl
      (by decide)).2.1).2
      ⟨cstr "foo", by decide, 10001, by decide, by decide⟩,
    by decide, by decide⟩

/-- C17: when the first slot of `s_locker_wl` is NULL the allow-list layer
returns 1 for every parent directory (NULL, under the locker scope or not),
every name and every caller uid, and `check_caller_access_to_name` returns
what it returns in a build without the allow-list layer. -/
theorem locker_check_noop_when_unconfigured (K : Kernel) (s : State) (caller_uid mode : Nat)
    (parent_node : Option inode) (name : qstr)
    (hempty : s.s_locker_wl.headD none = none) :
    locker_check_caller_access_to_name_by_uid K s caller_uid parent_node name = 1 ∧
    check_caller_access_to_name K s caller_uid parent_node name mode =
      check_caller_access_to_name { K with CONFIG_SDCARD_FS_LOCKER := false } s caller_uid
        parent_node name mode := by
  have h1 : locker_check_caller_access_to_name_by_uid K s caller_uid parent_node name = 1 := by
    unfold locker_check_caller_access_to_name_by_uid
    cases parent_node with
    | none => rfl
    | some p => simp only [hempty, Option.isNone_none, if_true]
  refine ⟨h1, ?_⟩
  unfold check_caller_access_to_name
  have hg : sensitive_name_guard { K with CONFIG_SDCARD_FS_LOCKER := false } parent_node name =
      sensitive_name_guard K parent_node name := rfl
  rw [hg, h1]
  simp

/-- In the initial state the allow-list is empty: a caller that is on no list
is allowed under a locker directory. -/
theorem locker_check_noop_when_unconfigured_witness :
    (State.init []).s_locker_wl.headD none = none ∧
    locker_check_caller_access_to_name_by_uid sample (State.init []) 1010002
      (some (inode.mk ⟨3, 10, true⟩ 0)) (QSTR_LITERAL (cstr "x")) = 1 :=
  ⟨rfl, (locker_check_noop_when_unconfigured sample (State.init []) 1010002 0
    (some (inode.mk ⟨3, 10, true⟩ 0)) (QSTR_LITERAL (cstr "x")) rfl).1⟩

/-- C18: for every state, when `insert_packagelist_entry` or
`insert_userid_exclude_entry` returns an error, the error is -ENOMEM, one of
the two allocation requests of the call was refused, and the three tables
are as before the call; when `insert_ext_gid_entry` returns an error, the
error is -EINVAL or (after a refused allocation request) -ENOMEM, and the
three tables are as before the call. -/
theorem failed_insert_leaves_tables (K : Kernel) (s : State) (key : qstr) (value : Nat) :
    ((insert_packagelist_entry K key value s).1 ≠ 0 →
      (insert_packagelist_entry K key value s).1 = -ENOMEM ∧
      (K.alloc_ok s.allocs = false ∨ K.alloc_ok (s.allocs + 1) = false) ∧
      (insert_packagelist_entry K key value s).2.package_to_appid = s.package_to_appid ∧
      (insert_packagelist_entry K key value s).2.package_to_userid = s.package_to_userid ∧
      (insert_packagelist_entry K key value s).2.ext_to_groupid = s.ext_to_groupid) ∧
    ((insert_userid_exclude_entry K key value s).1 ≠ 0 →
      (insert_userid_exclude_entry K key value s).1 = -ENOMEM ∧
      (K.alloc_ok s.allocs = false ∨ K.alloc_ok (s.allocs + 1) = false) ∧
      (insert_userid_exclude_entry K key value s).2.package_to_appid = s.package_to_appid ∧
      (insert_userid_exclude_entry K key value s).2.package_to_userid = s.package_to_userid ∧
      (insert_userid_exclude_entry K key value s).2.ext_to_groupid = s.ext_to_groupid) ∧
    ((insert_ext_gid_entry K key value s).1 ≠ 0 →
      ((insert_ext_gid_entry K key value s).1 = -EINVAL ∨
        ((insert_ext_gid_entry K key value s).1 = -ENOMEM ∧
          (K.alloc_ok s.allocs = false ∨ K.alloc_ok (s.allocs + 1) = false))) ∧
      (insert_ext_gid_entry K key value s).2.package_to_appid = s.package_to_appid ∧
      (insert_ext_gid_entry K key value s).2.package_to_userid = s.package_to_userid ∧
      (insert_ext_gid_entry K key value s).2.ext_to_groupid = s.ext_to_groupid) := by
  refine ⟨?_, ?_, ?_⟩
  · intro herr
    obtain ⟨h1, h2, h3⟩ := insert_packagelist_entry_error K key value s herr
    obtain ⟨hu, he⟩ := insert_packagelist_entry_frame K key value s
    exact ⟨h1, h2, h3, hu, he⟩
  · intro herr
    obtain ⟨ha, he, hcases⟩ := insert_userid_exclude_entry_effect K key value s
    rcases hcases with ⟨-, h0, -, -⟩ | ⟨-, h0, -⟩ | ⟨-, hfail, h1, ht⟩
    · exact absurd h0 herr
    · exact absurd h0 herr
    · exact ⟨h1, hfail, ha, ht, he⟩
  · intro herr
    obtain ⟨ha, hu, hcases⟩ := insert_ext_gid_entry_effect K key value s
    rcases hcases with ⟨-, h1, ht, -⟩ | ⟨-, h0, -⟩ | ⟨-, hfail, h1, ht⟩
    · exact ⟨Or.inl h1, ha, hu, ht⟩
    · exact absurd h0 herr
    · exact ⟨Or.inr ⟨h1, hfail⟩, ha, hu, ht⟩

/-- With an allocator that refuses the second request (the `kstrdup`),
registering "Foo" in the empty store returns -ENOMEM and leaves the appid
table empty. -/
theorem failed_insert_leaves_tables_witness :
    (insert_packagelist_entry { sample with alloc_ok := fun n => n != 1 }
      (qstr_init sample (cstr "Foo")) 10001 (State.init [])).1 = -ENOMEM ∧
    (insert_packagelist_entry { sample with alloc_ok := fun n => n != 1 }
      (qstr_init sample (cstr "Foo")) 10001 (State.init [])).2.package_to_appid = hash_empty :=
  have h := (failed_insert_leaves_tables { sample with alloc_ok := fun n => n != 1 }
    (State.init []) (qstr_init sample (cstr "Foo")) 10001).1 (by decide)
  ⟨h.1, h.2.2.1⟩

/-- C19: for every state, a call of `insert_packagelist_entry` (n, v) that
returns 0 and every call of `remove_packagelist_entry` (n) dispatch the fixup
with scope ByName n; a call of `insert_userid_exclude_entry` (n, u) that
returns 0 and every call of `remove_userid_exclude_entry` (n, u) dispatch it
with scope ByNameAndUser n u; `remove_userid_all_entry` (u) dispatches it with
scope ByUser u. In each case the walker is called once for each mount of the
super list that has the sdcardfs magic, after `mutex_lock` and the allocator
and reclaim calls of the table operation and before `mutex_unlock`, and each
of these calls finds the tables as the locked table operation has left them,
which are the tables the whole call leaves. An insert that returns an error
calls the walker for no mount. -/
theorem fixup_dispatched_with_scope (K : Kernel) (s : State) (n : List Nat) (v u : Nat) :
    ((insert_packagelist_entry K (qstr_init K n) v s).1 = 0 →
      (insert_packagelist_entry K (qstr_init K n) v s).2 =
        mutex_unlock (fixup_all (ScopeFilter.ByName n).limit
          (insert_packagelist_appid_entry_locked K (qstr_init K n) v (mutex_lock s)).2) ∧
      (∃ mid, mid.all Event.is_memory = true ∧
        (insert_packagelist_entry K (qstr_init K n) v s).2.trace =
          s.trace ++ [Event.mutex_lock] ++ mid ++
            fixup_dispatch s.sdcardfs_super_list (ScopeFilter.ByName n) ++
            [Event.mutex_unlock]) ∧
      (insert_packagelist_entry K (qstr_init K n) v s).2.fixup_seen =
        s.fixup_seen ++ (fixup_dispatch s.sdcardfs_super_list (ScopeFilter.ByName n)).map
          (fun _ =>
            (insert_packagelist_appid_entry_locked K (qstr_init K n) v (mutex_lock s)).2.view) ∧
      (insert_packagelist_entry K (qstr_init K n) v s).2.view =
        (insert_packagelist_appid_entry_locked K (qstr_init K n) v (mutex_lock s)).2.view) ∧
    ((insert_packagelist_entry K (qstr_init K n) v s).1 ≠ 0 →
      (∃ mid, mid.all Event.is_memory = true ∧
        (insert_packagelist_entry K (qstr_init K n) v s).2.trace =
          s.trace ++ [Event.mutex_lock] ++ mid ++ [Event.mutex_unlock]) ∧
      (insert_packagelist_entry K (qstr_init K n) v s).2.fixup_seen = s.fixup_seen) ∧
    (remove_packagelist_entry K (qstr_init K n) s =
        mutex_unlock (fixup_all (ScopeFilter.ByName n).limit
          (remove_packagelist_entry_locked K (qstr_init K n) (mutex_lock s))) ∧
      (∃ mid, mid.all Event.is_memory = true ∧
        (remove_packagelist_entry K (qstr_init K n) s).trace =
          s.trace ++ [Event.mutex_lock] ++ mid ++
            fixup_dispatch s.sdcardfs_super_list (ScopeFilter.ByName n) ++
            [Event.mutex_unlock]) ∧
      (remove_packagelist_entry K (qstr_init K n) s).fixup_seen =
        s.fixup_seen ++ (fixup_dispatch s.sdcardfs_super_list (ScopeFilter.ByName n)).map
          (fun _ => (remove_packagelist_entry_locked K (qstr_init K n) (mutex_lock s)).view) ∧
      (remove_packagelist_entry K (qstr_init K n) s).view =
        (remove_packagelist_entry_locked K (qstr_init K n) (mutex_lock s)).view) ∧
    ((insert_userid_exclude_entry K (qstr_init K n) u s).1 = 0 →
      (insert_userid_exclude_entry K (qstr_init K n) u s).2 =
        mutex_unlock (fixup_all (ScopeFilter.ByNameAndUser n u).limit
          (insert_userid_exclude_entry_locked K (qstr_init K n) u (mutex_lock s)).2) ∧
      (∃ mid, mid.all Event.is_memory = true ∧
        (insert_userid_exclude_entry K (qstr_init K n) u s).2.trace =
          s.trace ++ [Event.mutex_lock] ++ mid ++
            fixup_dispatch s.sdcardfs_super_list (ScopeFilter.ByNameAndUser n u) ++
            [Event.mutex_unlock]) ∧
      (insert_userid_exclude_entry K (qstr_init K n) u s).2.fixup_seen =
        s.fixup_seen ++
          (fixup_dispatch s.sdcardfs_super_list (ScopeFilter.ByNameAndUser n u)).map
            (fun _ =>
              (insert_userid_exclude_entry_locked K (qstr_init K n) u (mutex_lock s)).2.view) ∧
      (insert_userid_exclude_entry K (qstr_init K n) u s).2.view =
        (insert_userid_exclude_entry_locked K (qstr_init K n) u (mutex_lock s)).2.view) ∧
    ((insert_userid_exclude_entry K (qstr_init K n) u s).1 ≠ 0 →
      (∃ mid, mid.all Event.is_memory = true ∧
        (insert_userid_exclude_entry K (qstr_init K n) u s).2.trace =
          s.trace ++ [Event.mutex_lock] ++ mid ++ [Event.mutex_unlock]) ∧
      (insert_userid_exclude_entry K (qstr_init K n) u s).2.fixup_seen = s.fixup_seen) ∧
    (remove_userid_exclude_entry K (qstr_init K n) u s =
        mutex_unlock (fixup_all (ScopeFilter.ByNameAndUser n u).limit
          (remove_userid_exclude_entry_locked K (qstr_init K n) u (mutex_lock s))) ∧
      (∃ mid, mid.all Event.is_memory = true ∧
        (remove_userid_exclude_entry K (qstr_init K n) u s).trace =
          s.trace ++ [Event.mutex_lock] ++ mid ++
            fixup_dispatch s.sdcardfs_super_list (ScopeFilter.ByNameAndUser n u) ++
            [Event.mutex_unlock]) ∧
      (remove_userid_exclude_entry K (qstr_init K n) u s).fixup_seen =
        s.fixup_seen ++
          (fixup_dispatch s.sdcardfs_super_list (ScopeFilter.ByNameAndUser n u)).map
            (fun _ =>
              (remove_userid_exclude_entry_locked K (qstr_init K n) u (mutex_lock s)).view) ∧
      (remove_userid_exclude_entry K (qstr_init K n) u s).view =
        (remove_userid_exclude_entry_locked K (qstr_init K n) u (mutex_lock s)).view) ∧
    (remove_userid_all_entry u s =
        mutex_unlock (fixup_all (ScopeFilter.ByUser u).limit
          (remove_userid_all_entry_locked u (mutex_lock s))) ∧
      (∃ mid, mid.all Event.is_memory = true ∧
        (remove_userid_all_entry u s).trace =
          s.trace ++ [Event.mutex_lock] ++ mid ++
            fixup_dispatch s.sdcardfs_super_list (ScopeFilter.ByUser u) ++
            [Event.mutex_unlock]) ∧
      (remove_userid_all_entry u s).fixup_seen =
        s.fixup_seen ++ (fixup_dispatch s.sdcardfs_super_list (ScopeFilter.ByUser u)).map
          (fun _ => (remove_userid_all_entry_locked u (mutex_lock s)).view) ∧
      (remove_userid_all_entry u s).view =
        (remove_userid_all_entry_locked u (mutex_lock s)).view) := by
  refine ⟨?_, ?_, ?_, ?_, ?_, ?_, ?_⟩
  · intro hok
    obtain ⟨h1, h2⟩ := insert_packagelist_entry_unfold K (qstr_init K n) v s
    rw [h1] at hok
    rw [h2, if_pos hok]
    obtain ⟨mid, hm, ht, hs⟩ :=
      insert_packagelist_appid_entry_locked_trace K (qstr_init K n) v (mutex_lock s)
    obtain ⟨hseen, hview⟩ := dispatch_seen (ScopeFilter.ByName n) s _
      (insert_packagelist_appid_entry_locked_seen K (qstr_init K n) v (mutex_lock s)) hs
    exact ⟨rfl, ⟨mid, hm, dispatch_trace (ScopeFilter.ByName n) s _ mid ht hs⟩, hseen, hview⟩
  · intro herr
    obtain ⟨h1, h2⟩ := insert_packagelist_entry_unfold K (qstr_init K n) v s
    rw [h1] at herr
    rw [h2, if_neg herr]
    obtain ⟨mid, hm, ht, -⟩ :=
      insert_packagelist_appid_entry_locked_trace K (qstr_init K n) v (mutex_lock s)
    exact ⟨⟨mid, hm, by simp only [mutex_unlock]; rw [ht]; simp [mutex_lock]⟩,
      insert_packagelist_appid_entry_locked_seen K (qstr_init K n) v (mutex_lock s)⟩
  · obtain ⟨mid, hm, ht, hs⟩ :=
      remove_packagelist_entry_locked_trace K (qstr_init K n) (mutex_lock s)
    obtain ⟨hseen, hview⟩ := dispatch_seen (ScopeFilter.ByName n) s
      (remove_packagelist_entry_locked K (qstr_init K n) (mutex_lock s)) rfl hs
    exact ⟨rfl, ⟨mid, hm, dispatch_trace (ScopeFilter.ByName n) s _ mid ht hs⟩, hseen, hview⟩
  · intro hok
    obtain ⟨h1, h2⟩ := insert_userid_exclude_entry_unfold K (qstr_init K n) u s
    rw [h1] at hok
    rw [h2, if_pos hok]
    obtain ⟨mid, hm, ht, hs⟩ :=
      insert_userid_exclude_entry_locked_trace K (qstr_init K n) u (mutex_lock s)
    obtain ⟨hseen, hview⟩ := dispatch_seen (ScopeFilter.ByNameAndUser n u) s _
      (insert_userid_exclude_entry_locked_seen K (qstr_init K n) u (mutex_lock s)) hs
    exact ⟨rfl, ⟨mid, hm, dispatch_trace (ScopeFilter.ByNameAndUser n u) s _ mid ht hs⟩,
      hseen, hview⟩
  · intro herr
    obtain ⟨h1, h2⟩ := insert_userid_exclude_entry_unfold K (qstr_init K n) u s
    rw [h1] at herr
    rw [h2, if_neg herr]
    obtain ⟨mid, hm, ht, -⟩ :=
      insert_userid_exclude_entry_locked_trace K (qstr_init K n) u (mutex_lock s)
    exact ⟨⟨mid, hm, by simp only [mutex_unlock]; rw [ht]; simp [mutex_lock]⟩,
      insert_userid_exclude_entry_locked_seen K (qstr_init K n) u (mutex_lock s)⟩
  · obtain ⟨mid, hm, ht, hs⟩ :=
      remove_userid_exclude_entry_locked_trace K (qstr_init K n) u (mutex_lock s)
    obtain ⟨hseen, hview⟩ := dispatch_seen (ScopeFilter.ByNameAndUser n u) s
      (remove_userid_exclude_entry_locked K (qstr_init K n) u (mutex_lock s)) rfl hs
    exact ⟨rfl, ⟨mid, hm, dispatch_trace (ScopeFilter.ByNameAndUser n u) s _ mid ht hs⟩,
      hseen, hview⟩
  · obtain ⟨mid, hm, ht, hs⟩ := remove_userid_all_entry_locked_trace u (mutex_lock s)
    obtain ⟨hseen, hview⟩ := dispatch_seen (ScopeFilter.ByUser u) s
      (remove_userid_all_entry_locked u (mutex_lock s))
      (remove_userid_all_entry_locked_seen u (mutex_lock s)) hs
    exact ⟨rfl, ⟨mid, hm, dispatch_trace (ScopeFilter.ByUser u) s _ mid ht hs⟩, hseen, hview⟩

set_option maxRecDepth 20000 in
/-- With two mounts, of which the first has the sdcardfs magic, registering
"Foo" in the initial state makes one call of the walker, for the root 7, with
the flag BY_NAME and the name "Foo", between the lock and the unlock; the
call finds "Foo" registered as 10001 in the bucket that was empty before, and
the call made by a later registration of "FOO" as 10002 finds the value 10002. -/
theorem fixup_dispatched_with_scope_witness :
    (insert_packagelist_entry sample (qstr_init sample (cstr "Foo")) 10001
      (State.init [⟨true, 7⟩, ⟨false, 8⟩])).2.trace =
      [Event.mutex_lock, Event.kmem_cache_alloc true, Event.kstrdup true,
        Event.fixup_perms_recursive 7
          { flags := 1, name := cstr "Foo", length := 3, userid := 0 },
        Event.mutex_unlock] ∧
    (State.init [⟨true, 7⟩, ⟨false, 8⟩]).package_to_appid
      (sample.hash_min (qstr_init sample (cstr "Foo")).hash) = [] ∧
    (insert_packagelist_entry sample (qstr_init sample (cstr "Foo")) 10001
      (State.init [⟨true, 7⟩, ⟨false, 8⟩])).2.fixup_seen.map
        (fun w => w.package_to_appid (sample.hash_min (qstr_init sample (cstr "Foo")).hash)) =
      [[{ key := qstr_init sample (cstr "Foo"), value := 10001 }]] ∧
    (insert_packagelist_entry sample (qstr_init sample (cstr "FOO")) 10002
      (insert_packagelist_entry sample (qstr_init sample (cstr "Foo")) 10001
        (State.init [⟨true, 7⟩, ⟨false, 8⟩])).2).2.fixup_seen.map
        (fun w => (w.package_to_appid
          (sample.hash_min (qstr_init sample (cstr "Foo")).hash)).map (fun e => e.value)) =
      [[10001], [10002]] ∧
    (insert_packagelist_entry sample (qstr_init sample (cstr "Foo")) 10001
      (State.init [⟨true, 7⟩, ⟨false, 8⟩])).2 =
      mutex_unlock (fixup_all (ScopeFilter.ByName (cstr "Foo")).limit
        (insert_packagelist_appid_entry_locked sample (qstr_init sample (cstr "Foo")) 10001
          (mutex_lock (State.init [⟨true, 7⟩, ⟨false, 8⟩]))).2) :=
  ⟨by decide, by decide, by decide, by decide,
    ((fixup_dispatched_with_scope sample (State.init [⟨true, 7⟩, ⟨false, 8⟩]) (cstr "Foo")
      10001 0).1 (by decide)).1⟩

/-- C20: for every state and arguments, `insert_ext_gid_entry` and
`remove_ext_gid_entry` call only the lock, the allocator or reclaim functions
and the unlock, never the fixup walker, whether they succeed or fail, and
they leave the appid table and the exclusion table unchanged. -/
theorem ext_gid_mutations_dispatch_no_fixup (K : Kernel) (s : State) (key : qstr)
    (value group : Nat) :
    (∃ mid, mid.all Event.is_memory = true ∧
      (insert_ext_gid_entry K key value s).2.trace =
        s.trace ++ [Event.mutex_lock] ++ mid ++ [Event.mutex_unlock]) ∧
    (∀ ev ∈ (insert_ext_gid_entry K key value s).2.trace.drop s.trace.length,
      ev.is_fixup = false) ∧
    (insert_ext_gid_entry K key value s).2.package_to_appid = s.package_to_appid ∧
    (insert_ext_gid_entry K key value s).2.package_to_userid = s.package_to_userid ∧
    (∃ mid, mid.all Event.is_memory = true ∧
      (remove_ext_gid_entry K key group s).trace =
        s.trace ++ [Event.mutex_lock] ++ mid ++ [Event.mutex_unlock]) ∧
    (∀ ev ∈ (remove_ext_gid_entry K key group s).trace.drop s.trace.length,
      ev.is_fixup = false) ∧
    (remove_ext_gid_entry K key group s).package_to_appid = s.package_to_appid ∧
    (remove_ext_gid_entry K key group s).package_to_userid = s.package_to_userid := by
  obtain ⟨ha, hu, -⟩ := insert_ext_gid_entry_effect K key value s
  obtain ⟨ha2, hu2, -⟩ := remove_ext_gid_entry_effect K key group s
  have hi : ∃ mid, mid.all Event.is_memory = true ∧
      (insert_ext_gid_entry K key value s).2.trace =
        s.trace ++ [Event.mutex_lock] ++ mid ++ [Event.mutex_unlock] := by
    obtain ⟨-, h2⟩ := insert_ext_gid_entry_unfold K key value s
    obtain ⟨mid, hm, ht⟩ := insert_ext_gid_entry_locked_trace K key value (mutex_lock s)
    exact ⟨mid, hm, by rw [h2]; simp only [mutex_unlock]; rw [ht]; simp [mutex_lock]⟩
  have hr : ∃ mid, mid.all Event.is_memory = true ∧
      (remove_ext_gid_entry K key group s).trace =
        s.trace ++ [Event.mutex_lock] ++ mid ++ [Event.mutex_unlock] := by
    obtain ⟨mid, hm, ht⟩ := remove_ext_gid_entry_locked_trace K key group (mutex_lock s)
    exact ⟨mid, hm, by simp only [remove_ext_gid_entry, mutex_unlock]; rw [ht]; simp [mutex_lock]⟩
  obtain ⟨mid1, hm1, ht1⟩ := hi
  obtain ⟨mid2, hm2, ht2⟩ := hr
  exact ⟨⟨mid1, hm1, ht1⟩, no_fixup_between _ _ mid1 hm1 ht1, ha, hu,
    ⟨mid2, hm2, ht2⟩, no_fixup_between _ _ mid2 hm2 ht2, ha2, hu2⟩

/-- With a mounted instance, mapping "png" to 1003 and unmapping it again make
no call of the walker. -/
theorem ext_gid_mutations_dispatch_no_fixup_witness :
    (insert_ext_gid_entry sample (qstr_init sample (cstr "png")) 1003
      (State.init [⟨true, 7⟩])).2.trace =
      [Event.mutex_lock, Event.kmem_cache_alloc true, Event.kstrdup true, Event.mutex_unlock] ∧
    ∀ ev ∈ (remove_ext_gid_entry sample (qstr_init sample (cstr "png")) 1003
      (insert_ext_gid_entry sample (qstr_init sample (cstr "png")) 1003
        (State.init [⟨true, 7⟩])).2).trace.drop 4, ev.is_fixup = false :=
  ⟨by decide,
    (ext_gid_mutations_dispatch_no_fixup sample
      (insert_ext_gid_entry sample (qstr_init sample (cstr "png")) 1003
        (State.init [⟨true, 7⟩])).2 (qstr_init sample (cstr "png")) 0 1003).2.2.2.2.2.1⟩

/-- C21: (amended) for a page of `PAGE_SIZE` bytes (at least the marker and two
more bytes, at most `INT_MAX`) and every store state, every store of
`packages_list_show` lies inside the page and the returned count is between 0
and `PAGE_SIZE`. A line is kept only when, after the text returned so far,
the line and one NUL, at least one more byte of the budget `PAGE_SIZE` minus
`sizeof(errormsg)` is left: if the lines of the packages `pre` listed first
meet this and the line of the next package `e` does not (so also when that
line would fill the budget exactly), the returned output is the complete
lines of `pre` followed by the marker "<truncated>\n"; and if the lines of
all packages meet it, the returned output is all of them. The line of a
package is its name, its appid and the user ids of the entries of its
exclusion bucket whose key equals the name up to case. -/
theorem packages_list_show_truncation (K : Kernel) (V : Vsprintf) (s : State) (page : Page)
    (hmin : sizeof_errormsg + 2 ≤ V.PAGE_SIZE) (hP : V.PAGE_SIZE ≤ 2147483647)
    (hlen : page.bytes.length = V.PAGE_SIZE) (hin : Page.inside V page) :
    Page.inside V (packages_list_show K V s page).1 ∧
    0 ≤ (packages_list_show K V s page).2 ∧
    (packages_list_show K V s page).2 ≤ (V.PAGE_SIZE : Int) ∧
    (∀ (pre : List hashtable_entry) (e : hashtable_entry) (post : List hashtable_entry),
      hash_entries s.package_to_appid = pre ++ e :: post →
      (list_lines K V s pre).length + 2 ≤ V.PAGE_SIZE - sizeof_errormsg →
      V.PAGE_SIZE - sizeof_errormsg <
        (list_lines K V s pre).length + (list_line K V s e).length + 2 →
      (packages_list_show K V s page).2 =
        (((list_lines K V s pre ++ errormsg).length : Nat) : Int) ∧
      (packages_list_show K V s page).1.bytes.take (list_lines K V s pre ++ errormsg).length =
        list_lines K V s pre ++ errormsg) ∧
    ((list_lines K V s (hash_entries s.package_to_appid)).length + 2 ≤
        V.PAGE_SIZE - sizeof_errormsg →
      (packages_list_show K V s page).2 =
        (((list_lines K V s (hash_entries s.package_to_appid)).length : Nat) : Int) ∧
      (packages_list_show K V s page).1.bytes.take
          (list_lines K V s (hash_entries s.package_to_appid)).length =
        list_lines K V s (hash_entries s.package_to_appid)) := by
  rw [sizeof_errormsg_eq] at hmin
  simp only [sizeof_errormsg_eq]
  obtain ⟨hc, ht, hins, -⟩ := list_show_loop_spec K V s hP (hash_entries s.package_to_appid)
    page [] hlen rfl hin (by simp only [List.length_nil]; omega)
  have h0 : ((([] : List Nat).length : Nat) : Int) = 0 := rfl
  rw [h0] at hc ht hins
  have hle := list_show_spec_length_le (V.PAGE_SIZE - 13)
    ((hash_entries s.package_to_appid).map (list_line K V s)) []
    (by simp only [List.length_nil]; omega)
  unfold packages_list_show
  refine ⟨hins, ?_, ?_, ?_, ?_⟩
  · rw [hc]; exact Int.natCast_nonneg _
  · rw [hc]; omega
  · intro pre e post he h1 h2
    have hcut := list_show_spec_cut (V.PAGE_SIZE - 13) (list_line K V s e)
      (post.map (list_line K V s)) (pre.map (list_line K V s)) []
      (by rw [list_lines_eq]; simpa using h1) (by rw [list_lines_eq]; simpa using h2)
    rw [he, List.map_append, List.map_cons, hcut, list_lines_eq, List.nil_append] at hc ht
    rw [he]
    exact ⟨hc, ht⟩
  · intro h1
    have hall := list_show_spec_all (V.PAGE_SIZE - 13)
      ((hash_entries s.package_to_appid).map (list_line K V s)) []
      (by rw [list_lines_eq]; simpa using h1)
    rw [hall, list_lines_eq, List.nil_append] at hc ht
    exact ⟨hc, ht⟩

set_option maxRecDepth 1000000 in
/-- With the 27 packages of `list_show_store` and a page of 4096 bytes, the
lines of the first 25 packages are kept and the line of the 26th is replaced
by the marker: 3937 bytes are returned. -/
theorem packages_list_show_truncation_witness :
    sizeof_errormsg + 2 ≤ sample_vsprintf.PAGE_SIZE ∧
    (packages_list_show sample sample_vsprintf list_show_store
      (Page.zeroed sample_vsprintf)).2 =
      (((list_lines sample sample_vsprintf list_show_store
        ((hash_entries list_show_store.package_to_appid).take 25) ++ errormsg).length : Nat) :
        Int) ∧
    (packages_list_show sample sample_vsprintf list_show_store
      (Page.zeroed sample_vsprintf)).1.bytes.take
        (list_lines sample sample_vsprintf list_show_store
          ((hash_entries list_show_store.package_to_appid).take 25) ++ errormsg).length =
      list_lines sample sample_vsprintf list_show_store
        ((hash_entries list_show_store.package_to_appid).take 25) ++ errormsg ∧
    (list_lines sample sample_vsprintf list_show_store
      ((hash_entries list_show_store.package_to_appid).take 25) ++ errormsg).length = 3937 :=
  have h := (packages_list_show_truncation sample sample_vsprintf list_show_store
    (Page.zeroed sample_vsprintf) (by decide) (by decide) (List.length_replicate _ _)
    (fun st hst => nomatch hst)).2.2.2.1 _ _ _
    (list_split_at (hash_entries list_show_store.package_to_appid) 25
      (lt_of_lt_of_eq (by decide : 25 < 27) list_show_store_entries_length.symm))
    (by decide!) (by decide!)
  ⟨by decide, h.1, h.2, by decide!⟩

set_option maxRecDepth 1000000 in
/-- C21 (as stated) fails: `list_show_store` is reachable and holds 27
packages whose lines have 157 bytes each. The lines of 26 packages and a NUL
take 4083 bytes, the budget of a page of 4096 bytes less the 13 bytes of the
marker, so the line of the 27th listed package is the first that does not
fit, and the property as stated asks for the 26 lines before it followed by the marker,
4094 bytes. The function returns 3937 bytes, the lines of 25 packages
followed by the marker: the line of the 26th package, which fits, is dropped. -/
theorem packages_list_show_drops_complete_line :
    Reachable sample list_show_store ∧
    (hash_entries list_show_store.package_to_appid).length = 27 ∧
    (∀ e ∈ hash_entries list_show_store.package_to_appid,
      (list_line sample sample_vsprintf list_show_store e).length = 157) ∧
    26 * 157 + 1 ≤ sample_vsprintf.PAGE_SIZE - sizeof_errormsg ∧
    sample_vsprintf.PAGE_SIZE - sizeof_errormsg < 26 * 157 + 157 ∧
    (packages_list_show sample sample_vsprintf list_show_store
      (Page.zeroed sample_vsprintf)).2 = 25 * 157 + 12 ∧
    (packages_list_show sample sample_vsprintf list_show_store
      (Page.zeroed sample_vsprintf)).2 ≠ 26 * 157 + 12 :=
  ⟨reachable_foldl_insert sample 10000 list_show_names (State.init []) (Reachable.init []),
    by decide!⟩

/-- C23: for two names of the same length whose bytes are pairwise equal after
`tolower`, `full_name_case_hash` returns the same value; `full_name_case_hash`
of a name is `end_name_hash` of the fold of `partial_name_hash`, started at
`init_name_hash()`, over the lower-cased name; and `qstr_init` gives the two
names keys that compare equal, the same hash and the same bucket. -/
theorem full_name_case_hash_agrees_with_case_eq (K : Kernel) (a b : List Nat)
    (hlen : a.length = b.length)
    (hbytes : ∀ i, i < a.length → K.tolower (a.getD i 0) = K.tolower (b.getD i 0)) :
    full_name_case_hash K a a.length = full_name_case_hash K b b.length ∧
    full_name_case_hash K a a.length =
      K.end_name_hash
        ((a.map K.tolower).foldl (fun hash c => K.partial_name_hash c hash) K.init_name_hash) ∧
    qstr_case_eq K (qstr_init K a) (qstr_init K b) = true ∧
    (qstr_init K a).hash = (qstr_init K b).hash ∧
    K.hash_min (qstr_init K a).hash = K.hash_min (qstr_init K b).hash := by
  have hmap : a.map K.tolower = b.map K.tolower := by
    apply List.ext_getElem
    · simp [hlen]
    · intro i h1 h2
      simp only [List.length_map] at h1 h2
      have := hbytes i h1
      simpa [List.getD_eq_getElem?_getD, List.getElem?_eq_getElem h1,
        List.getElem?_eq_getElem h2] using this
  have heq := (qstr_case_eq_init K a b).2 hmap
  have hh := qstr_init_hash_eq K a b heq
  refine ⟨hh, ?_, heq, hh, by rw [hh]⟩
  simp only [full_name_case_hash, full_name_case_hash_loop_eq_foldl]

/-- The names "Foo" and "fOO" get the same hash and bucket. -/
theorem full_name_case_hash_agrees_with_case_eq_witness :
    (cstr "Foo").length = (cstr "fOO").length ∧
    full_name_case_hash sample (cstr "Foo") 3 = full_name_case_hash sample (cstr "fOO") 3 ∧
    sample.hash_min (qstr_init sample (cstr "Foo")).hash =
      sample.hash_min (qstr_init sample (cstr "fOO")).hash :=
  have h := full_name_case_hash_agrees_with_case_eq sample (cstr "Foo") (cstr "fOO")
    (by decide) (by decide)
  ⟨by decide, h.1, h.2.2.2.2⟩

set_option maxRecDepth 100000 in
/-- C24: (code bug) on the input "a;b;c;d;e;f;g;h;i;j;k" (11 non-empty tokens,
count 21) in the state of a freshly loaded module, `packages_locker_wl_store`
returns 21 after it stored to the indices 0 to 10 of `s_locker_wl`: the index
10 is not below `LOCKER_MAX_WL`, the number of slots. The 10 slots of the
array then hold the first 10 tokens and none of them is NULL. -/
theorem packages_locker_wl_store_writes_past_array :
    (packages_locker_wl_store sample (cstr "a;b;c;d;e;f;g;h;i;j;k") 21 (State.init [])).1 = 21 ∧
    (packages_locker_wl_store sample (cstr "a;b;c;d;e;f;g;h;i;j;k") 21 (State.init [])).2.2 =
      [0, 1, 2, 3, 4, 5, 6, 7, 8, 9, 10] ∧
    ¬ (10 < LOCKER_MAX_WL) ∧
    (State.init []).s_locker_wl.length = LOCKER_MAX_WL ∧
    (packages_locker_wl_store sample (cstr "a;b;c;d;e;f;g;h;i;j;k") 21
      (State.init [])).2.1.s_locker_wl =
      [some (cstr "a"), some (cstr "b"), some (cstr "c"), some (cstr "d"), some (cstr "e"),
        some (cstr "f"), some (cstr "g"), some (cstr "h"), some (cstr "i"), some (cstr "j")] ∧
    none ∉ (packages_locker_wl_store sample (cstr "a;b;c;d;e;f;g;h;i;j;k") 21
      (State.init [])).2.1.s_locker_wl := by
  decide

set_option maxRecDepth 100000 in
/-- C25: (code bug) with the empty allow-list of a freshly loaded module and a
page of 4096 bytes, `packages_locker_wl_show` stores one byte at offset 0 and
then one byte at offset -1, the byte before the start of the page, so not
every store lies inside the page; it returns 1 and the byte it returns is the
NUL at offset 0, not a newline. With the allow-list "foo", "bar" it returns
9: the 8 bytes "foo;bar\n" and the NUL after them. -/
theorem packages_locker_wl_show_writes_before_page :
    locker_wl_entries (State.init []) = [] ∧
    (packages_locker_wl_show (State.init []) (Page.zeroed sample_vsprintf)).1.stores =
      [(0, 1), (-1, 1)] ∧
    ¬ Page.inside sample_vsprintf
      (packages_locker_wl_show (State.init []) (Page.zeroed sample_vsprintf)).1 ∧
    (packages_locker_wl_show (State.init []) (Page.zeroed sample_vsprintf)).2 = 1 ∧
    (packages_locker_wl_show (State.init []) (Page.zeroed sample_vsprintf)).1.bytes.take 1 =
      [0] ∧
    locker_wl_entries
      (packages_locker_wl_store sample (cstr "foo;bar") 7 (State.init [])).2.1 =
      [cstr "foo", cstr "bar"] ∧
    (packages_locker_wl_show
      (packages_locker_wl_store sample (cstr "foo;bar") 7 (State.init [])).2.1
      (Page.zeroed sample_vsprintf)).2 = 9 ∧
    (packages_locker_wl_show
      (packages_locker_wl_store sample (cstr "foo;bar") 7 (State.init [])).2.1
      (Page.zeroed sample_vsprintf)).1.bytes.take 9 = cstr "foo;bar\n" ++ [0] := by
  have hst : (packages_locker_wl_show (State.init []) (Page.zeroed sample_vsprintf)).1.stores =
      [(0, 1), (-1, 1)] := by decide!
  refine ⟨by decide, hst, ?_, by decide!, by decide!, by decide, by decide!, by decide!⟩
  intro h
  have h1 := (h (-1, 1) (by rw [hst]; simp)).1
  omega

/-- C26: for every state (reachable or not) and every package q whose name does
not equal p up to case, `remove_packagelist_entry` of p changes neither
`get_appid` of q nor `is_excluded` of (q, u) for any user u, also when q
hashes to the bucket of p; and it leaves the extension table, hence
`get_ext_gid` of every extension, unchanged. -/
theorem remove_packagelist_entry_frame (K : Kernel) (s : State) (p q : List Nat)
    (hne : qstr_case_eq K (qstr_init K q) (qstr_init K p) = false) :
    get_appid K (remove_packagelist_entry K (qstr_init K p) s) q = get_appid K s q ∧
    (∀ u, is_excluded K (remove_packagelist_entry K (qstr_init K p) s) q u =
      is_excluded K s q u) ∧
    (remove_packagelist_entry K (qstr_init K p) s).ext_to_groupid = s.ext_to_groupid ∧
    (∀ e, get_ext_gid K (remove_packagelist_entry K (qstr_init K p) s) e = get_ext_gid K s e) := by
  obtain ⟨ha, hu, he⟩ := remove_packagelist_entry_effect K (qstr_init K p) s
  have hdis : ∀ (f : hashtable_entry → Bool) (x : hashtable_entry),
      qstr_case_eq K (qstr_init K p) x.key = true →
      (qstr_case_eq K (qstr_init K q) x.key && f x) = false := by
    intro f x hpx
    have : qstr_case_eq K (qstr_init K q) x.key = false := by
      by_contra hqx
      have hqx1 : qstr_case_eq K (qstr_init K q) x.key = true := by simpa using hqx
      have h1 := qstr_case_eq_trans K x.key (qstr_init K q) (qstr_init K p)
        (by rw [qstr_case_eq_comm]; exact hqx1) (by rw [qstr_case_eq_comm]; exact hpx)
      rw [h1] at hne
      exact Bool.noConfusion hne
    simp [this]
  refine ⟨?_, ?_, he, fun e => get_ext_gid_congr K s _ e he⟩
  · unfold get_appid __get_appid hash_possible
    rw [ha]
    by_cases hb : K.hash_min (qstr_init K q).hash = K.hash_min (qstr_init K p).hash
    · rw [hb, Function.update_same,
        find_eraseP_of_disjoint (fun e => qstr_case_eq K (qstr_init K p) e.key)
          (fun e => qstr_case_eq K (qstr_init K q) e.key)
          (fun x hx => by simpa using hdis (fun _ => true) x hx)]
    · rw [Function.update_noteq hb]
  · intro u
    unfold is_excluded __is_excluded hash_possible
    rw [hu]
    by_cases hb : K.hash_min (qstr_init K q).hash = K.hash_min (qstr_init K p).hash
    · rw [hb, Function.update_same,
        any_filter_of_disjoint (fun e => qstr_case_eq K (qstr_init K p) e.key)
          (fun e => e.value == u && qstr_case_eq K (qstr_init K q) e.key)
          (fun x hx => by
            have := hdis (fun e => e.value == u) x hx
            show (x.value == u && qstr_case_eq K (qstr_init K q) x.key) = false
            rw [Bool.and_comm]; exact this)]
    · rw [Function.update_noteq hb]

/-- With "Foo" and "Bar" registered and both excluded for the user 10, removing
"FOO" leaves the appid and the exclusion of "bar". -/
theorem remove_packagelist_entry_frame_witness :
    qstr_case_eq sample (qstr_init sample (cstr "bar")) (qstr_init sample (cstr "FOO")) = false ∧
    get_appid sample (remove_packagelist_entry sample (qstr_init sample (cstr "FOO"))
      (insert_userid_exclude_entry sample (qstr_init sample (cstr "Bar")) 10
        (insert_userid_exclude_entry sample (qstr_init sample (cstr "Foo")) 10
          (insert_packagelist_entry sample (qstr_init sample (cstr "Bar")) 10002
            (insert_packagelist_entry sample (qstr_init sample (cstr "Foo")) 10001
              (State.init [])).2).2).2).2) (cstr "bar") = 10002 ∧
    is_excluded sample (remove_packagelist_entry sample (qstr_init sample (cstr "FOO"))
      (insert_userid_exclude_entry sample (qstr_init sample (cstr "Bar")) 10
        (insert_userid_exclude_entry sample (qstr_init sample (cstr "Foo")) 10
          (insert_packagelist_entry sample (qstr_init sample (cstr "Bar")) 10002
            (insert_packagelist_entry sample (qstr_init sample (cstr "Foo")) 10001
              (State.init [])).2).2).2).2) (cstr "bar") 10 = 1 :=
  have h := remove_packagelist_entry_frame sample
    (insert_userid_exclude_entry sample (qstr_init sample (cstr "Bar")) 10
      (insert_userid_exclude_entry sample (qstr_init sample (cstr "Foo")) 10
        (insert_packagelist_entry sample (qstr_init sample (cstr "Bar")) 10002
          (insert_packagelist_entry sample (qstr_init sample (cstr "Foo")) 10001
            (State.init [])).2).2).2).2 (cstr "FOO") (cstr "bar") (by decide)
  ⟨by decide, h.1.trans (by decide), (h.2.1 10).trans (by decide)⟩

end Sdcardfs
